import Mathlib

/-!
# Exception-effect analysis of clang-tidy (`utils/ExceptionAnalyzer.cpp`)

A shallow embedding of `ExceptionAnalyzer::ExceptionInfo` and of the recursive
analysis `ExceptionAnalyzer::throwsException`, followed by theorems about them.

* Sets (`llvm::SmallSet`, `llvm::StringSet`) are `Finset`s.
* Member functions that mutate `*this` return the new value.
* `const Stmt *` is the type `Stmt`, the null pointer being `Stmt.null`.
* `const FunctionDecl *` is an index `Fin n` into the table of the `n` function
  declarations of the translation unit.
* The call stack is passed by reference in the source, so it is threaded through
  the analysis as explicit state.
-/

namespace ExceptionAnalyzer

/-! ## Host AST: types -/

mutual
/-- Modelled from the spec: the host AST's class declaration (`CXXRecordDecl`, declared
outside `src/`): an identity, a name, whether it lives in namespace `std`, and the
declarations of its direct base classes. -/
inductive CXXRecordDecl where
  | mk (id : Nat) (name : String) (inStd : Bool) (bases : BaseList)
/-- Modelled from the spec: the direct base classes of a class declaration. -/
inductive BaseList where
  | nil
  | cons (base : CXXRecordDecl) (rest : BaseList)
end

mutual
/-- Identity comparison of class declarations. -/
def CXXRecordDecl.decEq : (a b : CXXRecordDecl) → Decidable (a = b)
  | .mk i nm s bs, .mk i' nm' s' bs' =>
    if h1 : i = i' then
      if h2 : nm = nm' then
        if h3 : s = s' then
          match BaseList.decEq bs bs' with
          | isTrue h4 => isTrue (by subst h1 h2 h3 h4; rfl)
          | isFalse h4 => isFalse (by intro h; cases h; exact h4 rfl)
        else isFalse (by intro h; cases h; exact h3 rfl)
      else isFalse (by intro h; cases h; exact h2 rfl)
    else isFalse (by intro h; cases h; exact h1 rfl)
/-- Identity comparison of base-class lists. -/
def BaseList.decEq : (a b : BaseList) → Decidable (a = b)
  | .nil, .nil => isTrue rfl
  | .nil, .cons _ _ => isFalse (by intro h; cases h)
  | .cons _ _, .nil => isFalse (by intro h; cases h)
  | .cons a r, .cons a' r' =>
    match CXXRecordDecl.decEq a a', BaseList.decEq r r' with
    | isTrue h1, isTrue h2 => isTrue (by subst h1 h2; rfl)
    | isFalse h1, _ => isFalse (by intro h; cases h; exact h1 rfl)
    | _, isFalse h2 => isFalse (by intro h; cases h; exact h2 rfl)
end

instance : DecidableEq CXXRecordDecl := CXXRecordDecl.decEq

instance : DecidableEq BaseList := BaseList.decEq

mutual
/-- Modelled from the spec: the host query `CXXRecordDecl::forallBases` (declared outside
`src/`): the callback holds for every direct or indirect base class. -/
def CXXRecordDecl.forallBases : CXXRecordDecl → (CXXRecordDecl → Bool) → Bool
  | .mk _ _ _ bs, p => BaseList.forallBases bs p
/-- Modelled from the spec: `forallBases` over a list of direct bases. -/
def BaseList.forallBases : BaseList → (CXXRecordDecl → Bool) → Bool
  | .nil, _ => true
  | .cons b rest, p => p b && CXXRecordDecl.forallBases b p && BaseList.forallBases rest p
end

/-- Modelled from the spec: top-level qualifiers of a `QualType` (host AST, outside `src/`). -/
structure Qualifiers where
  isConst : Bool
  isVolatile : Bool
  deriving DecidableEq, Repr

/-- Modelled from the spec: the host AST's type nodes (`clang::Type`, declared outside
`src/`). A handle `const Type *` never carries top-level qualifiers; pointee and aliased
types are qualified types. `typedefSugar` is a type alias (sugar). -/
inductive CType where
  | builtin (name : String)
  | record (decl : CXXRecordDecl)
  | enumeral (id : Nat) (name : String) (inStd : Bool)
  | pointer (quals : Qualifiers) (pointee : CType)
  | reference (quals : Qualifiers) (pointee : CType)
  | typedefSugar (name : String) (quals : Qualifiers) (underlying : CType)
  deriving DecidableEq

/-- Modelled from the spec: a qualified type `QualType` (host AST, outside `src/`):
a type node with top-level qualifiers. -/
structure QualType where
  quals : Qualifiers
  ty : CType
  deriving DecidableEq

/-- Modelled from the spec: `QualType::getTypePtr` / `operator->`: the type node, the
top-level qualifiers dropped. -/
def QualType.getTypePtr (q : QualType) : CType := q.ty

/-- Modelled from the spec: `Type::getUnqualifiedDesugaredType` (host AST): strip every
layer of sugar and the qualifiers it carries. -/
def CType.getUnqualifiedDesugaredType : CType → CType
  | .typedefSugar _ _ u => u.getUnqualifiedDesugaredType
  | t => t

/-- Modelled from the spec: `Type::isReferenceType` (host AST), a test on the canonical type. -/
def CType.isReferenceType : CType → Bool
  | .reference _ _ => true
  | .typedefSugar _ _ u => u.isReferenceType
  | _ => false

/-- Modelled from the spec: `castAs<ReferenceType>()->getPointeeType()` (host AST). On a
type that is not a reference the source would not call it; the model returns the type. -/
def CType.getPointeeType : CType → QualType
  | .reference q p => ⟨q, p⟩
  | .typedefSugar _ _ u => u.getPointeeType
  | t => ⟨⟨false, false⟩, t⟩

/-- Modelled from the spec: `Type::getAsCXXRecordDecl` (host AST): the class declaration
of a class type, looking through sugar; none for any other type. -/
def CType.getAsCXXRecordDecl : CType → Option CXXRecordDecl
  | .record d => some d
  | .typedefSugar _ _ u => u.getAsCXXRecordDecl
  | _ => none

/-- Modelled from the spec: the part of a `TagDecl` (host AST) the analysis reads: its
name (`getName`) and `isInStdNamespace`. The name of a tag declaration is always an
identifier, so `getDeclName().isIdentifier()` holds for it. -/
structure TagDecl where
  getName : String
  isInStdNamespace : Bool
  deriving DecidableEq

/-- Modelled from the spec: `Type::getAsTagDecl` (host AST): the declaration of a class
or enumeration type, looking through sugar. -/
def CType.getAsTagDecl : CType → Option TagDecl
  | .record (.mk _ nm s _) => some ⟨nm, s⟩
  | .enumeral _ nm s => some ⟨nm, s⟩
  | .typedefSugar _ _ u => u.getAsTagDecl
  | _ => none

/-- Modelled from the spec: `DeclarationName::isIdentifier` of a tag declaration. -/
def TagDecl.isIdentifier (_ : TagDecl) : Bool := true

/-! ## `ExceptionInfo` -/

/-- Modelled from the spec: `ExceptionAnalyzer::State` (declared in `ExceptionAnalyzer.h`,
outside `src/`): the three behaviours of the data model. -/
inductive State where
  | Throwing
  | NotThrowing
  | Unknown
  deriving DecidableEq, Repr

/-- The set type `ExceptionInfo::Throwables`. -/
abbrev Throwables := Finset CType

/-- Modelled from the spec: the fields of `ExceptionAnalyzer::ExceptionInfo` (declared in
`ExceptionAnalyzer.h`, outside `src/`): `behaviour`, `containsUnknown`, `thrownTypes`. -/
structure ExceptionInfo where
  Behaviour : State
  ContainsUnknown : Bool
  ThrownExceptions : Throwables
  deriving DecidableEq

namespace ExceptionInfo

/-- Modelled from the spec: `ExceptionInfo::createNotThrowing` (header outside `src/`):
the neutral summary, `NotThrowing` with no thrown type and no unknown. -/
def createNotThrowing : ExceptionInfo := ⟨State.NotThrowing, false, ∅⟩

/-- Modelled from the spec: `ExceptionInfo::signalUnknown` (header outside `src/`): a call
of indeterminable behaviour was seen; the behaviour is `Unknown` and `containsUnknown`
is set. -/
def signalUnknown (X : ExceptionInfo) : ExceptionInfo :=
  { X with Behaviour := State.Unknown, ContainsUnknown := true }

/-- Modelled from the spec: `ExceptionInfo::signalThrowing` (header outside `src/`): the
behaviour becomes `Throwing`. -/
def signalThrowing (X : ExceptionInfo) : ExceptionInfo :=
  { X with Behaviour := State.Throwing }

/-- Modelled from the spec: getter `getBehaviour` (header outside `src/`). -/
def getBehaviour (X : ExceptionInfo) : State := X.Behaviour

/-- Modelled from the spec: getter `getExceptionTypes` (header outside `src/`). -/
def getExceptionTypes (X : ExceptionInfo) : Throwables := X.ThrownExceptions

/-- Source: `ExceptionInfo::registerException`. -/
def registerException (X : ExceptionInfo) (ExceptionType : CType) : ExceptionInfo :=
  { X with Behaviour := State.Throwing,
           ThrownExceptions := insert ExceptionType X.ThrownExceptions }

/-- Source: `ExceptionInfo::registerExceptions`. -/
def registerExceptions (X : ExceptionInfo) (Exceptions : Throwables) : ExceptionInfo :=
  if Exceptions.card = 0 then X
  else { X with Behaviour := State.Throwing,
                ThrownExceptions := X.ThrownExceptions ∪ Exceptions }

/-- Source: `ExceptionInfo::merge`. -/
def merge (X Other : ExceptionInfo) : ExceptionInfo :=
  { Behaviour :=
      if Other.Behaviour = State.Throwing then State.Throwing
      else if Other.Behaviour = State.Unknown ∧ X.Behaviour = State.NotThrowing then
        State.Unknown
      else X.Behaviour,
    ContainsUnknown := X.ContainsUnknown || Other.ContainsUnknown,
    ThrownExceptions := X.ThrownExceptions ∪ Other.ThrownExceptions }

/-- Source: `ExceptionInfo::reevaluateBehaviour`. -/
def reevaluateBehaviour (X : ExceptionInfo) : ExceptionInfo :=
  if X.ThrownExceptions.card = 0 then
    if X.ContainsUnknown then { X with Behaviour := State.Unknown }
    else { X with Behaviour := State.NotThrowing }
  else { X with Behaviour := State.Throwing }

/-- Source: `ExceptionInfo::clear`. -/
def clear (_ : ExceptionInfo) : ExceptionInfo :=
  { Behaviour := State.NotThrowing, ContainsUnknown := false, ThrownExceptions := ∅ }

end ExceptionInfo

/-- Source: the static function `isBaseOf`. -/
def isBaseOf (DerivedType BaseType : CType) : Bool :=
  match DerivedType.getAsCXXRecordDecl, BaseType.getAsCXXRecordDecl with
  | some DerivedClass, some BaseClass =>
      !DerivedClass.forallBases (fun Cur => decide (Cur ≠ BaseClass))
  | _, _ => false

namespace ExceptionInfo

/-- Source: `ExceptionInfo::filterByCatch`. Returns the boolean result together with the
updated summary. -/
def filterByCatch (X : ExceptionInfo) (BaseClass : CType) : Bool × ExceptionInfo :=
  let TypesToDelete : Throwables :=
    X.ThrownExceptions.filter (fun T => T = BaseClass ∨ isBaseOf T BaseClass = true)
  (decide (TypesToDelete.card > 0),
   reevaluateBehaviour { X with ThrownExceptions := X.ThrownExceptions \ TypesToDelete })

/-- Source: the deletion test of `ExceptionInfo::filterIgnoredExceptions`. -/
def isIgnored (IgnoredTypes : Finset String) (IgnoreBadAlloc : Bool) (T : CType) : Bool :=
  match T.getAsTagDecl with
  | some TD =>
      if TD.isIdentifier then
        (IgnoreBadAlloc && (decide (TD.getName = "bad_alloc") && TD.isInStdNamespace))
          || decide (TD.getName ∈ IgnoredTypes)
      else false
  | none => false

/-- Source: `ExceptionInfo::filterIgnoredExceptions`. -/
def filterIgnoredExceptions (X : ExceptionInfo) (IgnoredTypes : Finset String)
    (IgnoreBadAlloc : Bool) : ExceptionInfo :=
  let TypesToDelete : Throwables :=
    X.ThrownExceptions.filter (fun T => isIgnored IgnoredTypes IgnoreBadAlloc T = true)
  reevaluateBehaviour { X with ThrownExceptions := X.ThrownExceptions \ TypesToDelete }

end ExceptionInfo

/-! ## Host AST: statements and function declarations -/

/-- Modelled from the spec: the host AST's statements (`clang::Stmt`, outside `src/`), as far
as the analysis distinguishes them. `null` is the null pointer. A throw expression carries
the static type of its operand (`getSubExpr()->getType()`), none for a rethrow. A handler
of a try statement carries the type of its exception declaration (none for `catch (...)`)
and its handler block. A call carries its direct callee, if it resolves to one, and its
child expressions. Every other statement is its list of children. -/
inductive Stmt (n : Nat) where
  | null
  | cxxThrowExpr (subExprType : Option QualType)
  | cxxTryStmt (tryBlock : Stmt n) (handlers : List (Option QualType × Stmt n))
  | callExpr (directCallee : Option (Fin n)) (children : List (Stmt n))
  | other (children : List (Stmt n))

/-- Modelled from the spec: `ExceptionSpecificationType` (host AST, outside `src/`). -/
inductive ExceptionSpecificationType where
  | EST_None
  | EST_DynamicNone
  | EST_Dynamic
  | EST_MSAny
  | EST_BasicNoexcept
  | EST_DependentNoexcept
  | EST_NoexceptFalse
  | EST_NoexceptTrue
  | EST_Unevaluated
  | EST_Uninstantiated
  | EST_Unparsed
  deriving DecidableEq, Repr

/-- Modelled from the spec: `FunctionProtoType` (host AST, outside `src/`): the kind of
exception specification and the types listed by a dynamic specification. -/
structure FunctionProtoType where
  getExceptionSpecType : ExceptionSpecificationType
  dynamicExceptions : List QualType

/-- Modelled from the spec: `FunctionProtoType::exceptions` (host AST): the listed types,
which exist only for a dynamic exception specification. -/
def FunctionProtoType.exceptions (FPT : FunctionProtoType) : List QualType :=
  if FPT.getExceptionSpecType = ExceptionSpecificationType.EST_Dynamic then
    FPT.dynamicExceptions
  else []

/-- Modelled from the spec: `FunctionDecl` (host AST, outside `src/`): the body (`null` when
no body is visible) and the prototype (none for a function without prototype). -/
structure FunctionDecl (n : Nat) where
  getBody : Stmt n
  getProto : Option FunctionProtoType

/-- The translation unit: the declaration behind every function handle. -/
abbrev TranslationUnit (n : Nat) := Fin n → FunctionDecl n

/-- The recursion guard `llvm::SmallSet<const FunctionDecl *, 32>`. -/
abbrev CallStack (n : Nat) := Finset (Fin n)

/-! ## The analysis -/

/-- Source: `throwsException(const FunctionDecl *, CallStack &)`, the part after the body
test: the behaviour inferred from the declaration of a function without visible body. -/
def inferFromDeclaration (getProto : Option FunctionProtoType) : ExceptionInfo :=
  let Result := ExceptionInfo.createNotThrowing
  match getProto with
  | some FPT =>
      let Result := FPT.exceptions.foldl (fun R Ex => R.registerException Ex.getTypePtr) Result
      match FPT.getExceptionSpecType with
      | .EST_None => Result.signalUnknown
      | .EST_NoexceptFalse => Result.signalThrowing
      | .EST_MSAny => Result.signalThrowing
      | _ => Result
  | none => Result

/-- Source: the type a typed handler catches (lines 198-203): the unqualified desugared
caught type, with a reference stripped. -/
def caughtTypeOf (CaughtQualType : QualType) : CType :=
  let CaughtType := CaughtQualType.getTypePtr.getUnqualifiedDesugaredType
  if CaughtType.isReferenceType then
    CaughtType.getPointeeType.getTypePtr.getUnqualifiedDesugaredType
  else CaughtType

mutual
/-- Source: `throwsException(const Stmt *, const Throwables &Caught, CallStack &)`. The
analysis of a called function is the parameter `callee`. The result is none when a
nested function analysis ran out of fuel. -/
def throwsExceptionStmt {n : Nat}
    (callee : Fin n → CallStack n → Option (ExceptionInfo × CallStack n)) :
    Stmt n → Throwables → CallStack n → Option (ExceptionInfo × CallStack n)
  | .null, _, CS => some (ExceptionInfo.createNotThrowing, CS)
  | .cxxThrowExpr (some ThrownExprType), _, CS =>
      -- lines 172-177 compute the reference-stripped type into a local that is not used
      let _ThrownType :=
        if ThrownExprType.getTypePtr.getUnqualifiedDesugaredType.isReferenceType then
          ThrownExprType.getTypePtr.getUnqualifiedDesugaredType.getPointeeType.getTypePtr.getUnqualifiedDesugaredType
        else ThrownExprType.getTypePtr.getUnqualifiedDesugaredType
      some (ExceptionInfo.createNotThrowing.registerException
              ThrownExprType.getTypePtr.getUnqualifiedDesugaredType, CS)
  | .cxxThrowExpr none, Caught, CS =>
      some (ExceptionInfo.createNotThrowing.registerExceptions Caught, CS)
  | .cxxTryStmt tryBlock handlers, Caught, CS =>
      match throwsExceptionStmt callee tryBlock Caught CS with
      | none => none
      | some (Uncaught, CS1) =>
          match handlersLoop callee handlers ExceptionInfo.createNotThrowing Uncaught CS1 with
          | none => none
          | some (Results, Uncaught1, CS2) => some (Results.merge Uncaught1, CS2)
  | .callExpr (some Func) _, _, CS =>
      match callee Func CS with
      | none => none
      | some (Excs, CS1) => some (ExceptionInfo.createNotThrowing.merge Excs, CS1)
  | .callExpr none _, _, CS => some (ExceptionInfo.createNotThrowing, CS)
  | .other children, Caught, CS =>
      childrenLoop callee children Caught ExceptionInfo.createNotThrowing CS
/-- Source: the loop over the handlers of a try statement (lines 188-217), from the
current `Results` and `Uncaught`. -/
def handlersLoop {n : Nat}
    (callee : Fin n → CallStack n → Option (ExceptionInfo × CallStack n)) :
    List (Option QualType × Stmt n) → ExceptionInfo → ExceptionInfo → CallStack n →
      Option (ExceptionInfo × ExceptionInfo × CallStack n)
  | [], Results, Uncaught, CS => some (Results, Uncaught, CS)
  | (none, handlerBlock) :: rest, Results, Uncaught, CS =>
      match throwsExceptionStmt callee handlerBlock Uncaught.getExceptionTypes CS with
      | none => none
      | some (Rethrown, CS1) =>
          handlersLoop callee rest (Results.merge Rethrown) Uncaught.clear CS1
  | (some CaughtQualType, handlerBlock) :: rest, Results, Uncaught, CS =>
      let CaughtType := caughtTypeOf CaughtQualType
      if (Uncaught.filterByCatch CaughtType).1 then
        match throwsExceptionStmt callee handlerBlock {CaughtType} CS with
        | none => none
        | some (Rethrown, CS1) =>
            handlersLoop callee rest (Results.merge Rethrown)
              (Uncaught.filterByCatch CaughtType).2 CS1
      else handlersLoop callee rest Results (Uncaught.filterByCatch CaughtType).2 CS
/-- Source: the loop over the children of a statement (lines 225-228), from the current
`Results`. -/
def childrenLoop {n : Nat}
    (callee : Fin n → CallStack n → Option (ExceptionInfo × CallStack n)) :
    List (Stmt n) → Throwables → ExceptionInfo → CallStack n →
      Option (ExceptionInfo × CallStack n)
  | [], _, Results, CS => some (Results, CS)
  | Child :: rest, Caught, Results, CS =>
      match throwsExceptionStmt callee Child Caught CS with
      | none => none
      | some (Excs, CS1) => childrenLoop callee rest Caught (Results.merge Excs) CS1
end

/-- Source: `throwsException(const FunctionDecl *, CallStack &)`. The first argument is
fuel: it bounds the depth of nested function analyses, and the result is none when it
runs out. -/
def throwsExceptionFunc {n : Nat} (TU : TranslationUnit n) :
    Nat → Fin n → CallStack n → Option (ExceptionInfo × CallStack n)
  | 0, _, _ => none
  | fuel + 1, Func, CS =>
      if Func ∈ CS then some (ExceptionInfo.createNotThrowing, CS)
      else
        match (TU Func).getBody with
        | .null => some (inferFromDeclaration (TU Func).getProto, CS)
        | Body =>
            match throwsExceptionStmt (throwsExceptionFunc TU fuel) Body ∅ (insert Func CS) with
            | none => none
            | some (Result, CS1) => some (Result, CS1.erase Func)

/-- Modelled from the spec: the function-result cache `FunctionCache` (a member declared in
`ExceptionAnalyzer.h`, outside `src/`): a finite map from function identity to summary. -/
abbrev FunctionCache (n : Nat) := List (Fin n × ExceptionInfo)

/-- Modelled from the spec: the members of `ExceptionAnalyzer` (declared in
`ExceptionAnalyzer.h`, outside `src/`): the two options and the function-result cache. -/
structure Analyzer (n : Nat) where
  IgnoredExceptions : Finset String
  IgnoreBadAlloc : Bool
  FunctionCache : FunctionCache n
  deriving DecidableEq

/-- Source: `analyzeImpl(const FunctionDecl *)`. The analysis of a function that is not
cached starts from an empty call stack, with fuel `n + 1` for the `n` functions. -/
def analyzeImplFunc {n : Nat} (TU : TranslationUnit n) (A : Analyzer n) (Func : Fin n) :
    Option (ExceptionInfo × Analyzer n) :=
  match A.FunctionCache.lookup Func with
  | none =>
      match throwsExceptionFunc TU (n + 1) Func ∅ with
      | none => none
      | some (ExceptionList, _) =>
          some (ExceptionList, { A with FunctionCache := (Func, ExceptionList) :: A.FunctionCache })
  | some ExceptionList => some (ExceptionList, A)

/-- Source: `analyzeImpl(const Stmt *)`. -/
def analyzeImplStmt {n : Nat} (TU : TranslationUnit n) (St : Stmt n) : Option ExceptionInfo :=
  match throwsExceptionStmt (throwsExceptionFunc TU (n + 1)) St ∅ ∅ with
  | none => none
  | some (ExceptionList, _) => some ExceptionList

/-- Source: `analyzeDispatch`, the part after `analyzeImpl`. -/
def analyzeDispatch {n : Nat} (A : Analyzer n) (ExceptionList : ExceptionInfo) : ExceptionInfo :=
  if ExceptionList.getBehaviour = State.NotThrowing ∨ ExceptionList.getBehaviour = State.Unknown then
    ExceptionList
  else ExceptionList.filterIgnoredExceptions A.IgnoredExceptions A.IgnoreBadAlloc

/-- Source: `analyze(const FunctionDecl *)`: the summary and the analyzer with its cache
updated. -/
def analyzeFunc {n : Nat} (TU : TranslationUnit n) (A : Analyzer n) (Func : Fin n) :
    Option (ExceptionInfo × Analyzer n) :=
  match analyzeImplFunc TU A Func with
  | none => none
  | some (ExceptionList, A1) => some (analyzeDispatch A ExceptionList, A1)

/-- Source: `analyze(const Stmt *)`. -/
def analyzeStmt {n : Nat} (TU : TranslationUnit n) (A : Analyzer n) (St : Stmt n) :
    Option ExceptionInfo :=
  match analyzeImplStmt TU St with
  | none => none
  | some ExceptionList => some (analyzeDispatch A ExceptionList)

/-! ## Specification-side notions used by the theorems -/

mutual
/-- The class `B` is a direct or indirect base class of the class declaration. -/
inductive IsBaseClassOf (B : CXXRecordDecl) : CXXRecordDecl → Prop where
  | mk (id : Nat) (name : String) (inStd : Bool) (bases : BaseList) :
      OccursInBases B bases → IsBaseClassOf B (CXXRecordDecl.mk id name inStd bases)
/-- The class `B` is one of the listed classes or a direct or indirect base of one. -/
inductive OccursInBases (B : CXXRecordDecl) : BaseList → Prop where
  | direct (rest : BaseList) : OccursInBases B (BaseList.cons B rest)
  | indirect (D : CXXRecordDecl) (rest : BaseList) :
      IsBaseClassOf B D → OccursInBases B (BaseList.cons D rest)
  | later (D : CXXRecordDecl) (rest : BaseList) :
      OccursInBases B rest → OccursInBases B (BaseList.cons D rest)
end

mutual
/-- The statement contains no throw expression and no call expression. -/
def Stmt.throwsAndCallsNothing {n : Nat} : Stmt n → Bool
  | .null => true
  | .cxxThrowExpr _ => false
  | .cxxTryStmt tryBlock handlers =>
      tryBlock.throwsAndCallsNothing && handlersThrowAndCallNothing handlers
  | .callExpr _ _ => false
  | .other children => childrenThrowAndCallNothing children
/-- No handler block contains a throw expression or a call expression. -/
def handlersThrowAndCallNothing {n : Nat} : List (Option QualType × Stmt n) → Bool
  | [] => true
  | (_, handlerBlock) :: rest =>
      handlerBlock.throwsAndCallsNothing && handlersThrowAndCallNothing rest
/-- No statement of the list contains a throw expression or a call expression. -/
def childrenThrowAndCallNothing {n : Nat} : List (Stmt n) → Bool
  | [] => true
  | Child :: rest => Child.throwsAndCallsNothing && childrenThrowAndCallNothing rest
end

/-- The handlers of a try statement that has only typed handlers, each given by the type
of its exception declaration and its handler block. -/
def typedHandlers {n : Nat} (hs : List (QualType × Stmt n)) : List (Option QualType × Stmt n) :=
  hs.map (fun h => (some h.1, h.2))

/-- The thrown types that no typed handler of the list removes in its filter step. -/
def survivingTypes {n : Nat} (hs : List (QualType × Stmt n)) (Thrown : Throwables) : Throwables :=
  Thrown.filter (fun T =>
    ∀ h ∈ hs, ¬ (T = caughtTypeOf h.1 ∨ isBaseOf T (caughtTypeOf h.1) = true))

/-! ## Concrete programs used as witnesses -/

/-- The unqualified qualifier set. -/
def noQuals : Qualifiers := ⟨false, false⟩

/-- The type `int`. -/
def intType : CType := CType.builtin "int"

/-- The type `int &`. -/
def intRefType : CType := CType.reference noQuals intType

/-- A translation unit without functions: its call analysis is never asked. -/
def noCallee : Fin 0 → CallStack 0 → Option (ExceptionInfo × CallStack 0) :=
  fun Func _ => Func.elim0

/-- The statement `throw int(1);`. -/
def throwInt : Stmt 0 := Stmt.cxxThrowExpr (some ⟨noQuals, intType⟩)

/-- A throw expression whose operand has the reference type `int &`. -/
def throwIntRef : Stmt 0 := Stmt.cxxThrowExpr (some ⟨noQuals, intRefType⟩)

/-- The guarded block of `tryCatchBody` of the test file: a declaration, `throw int(42);`
and a return statement. -/
def guardedThrowInt : Stmt 0 := Stmt.other [Stmt.other [], throwInt, Stmt.other []]

/-- The handler block `{ return 42; }`. -/
def returnOnly : Stmt 0 := Stmt.other [Stmt.other []]

/-- The body of `tryCatchBody` of the test file: a function try block that throws an
`int`, with a catch-all handler that only returns. -/
def tryCatchBody : Stmt 0 := Stmt.cxxTryStmt guardedThrowInt [(none, returnOnly)]

/-- The class `struct Base {};`. -/
def baseDecl : CXXRecordDecl := CXXRecordDecl.mk 0 "Base" false BaseList.nil

/-- The class `struct Derived : Base {};`. -/
def derivedDecl : CXXRecordDecl :=
  CXXRecordDecl.mk 1 "Derived" false (BaseList.cons baseDecl BaseList.nil)

/-- The statement `throw Derived();`. -/
def throwDerived : Stmt 0 := Stmt.cxxThrowExpr (some ⟨noQuals, CType.record derivedDecl⟩)

/-- The typed handlers `catch (Base &) {}`. -/
def catchBaseRef : List (QualType × Stmt 0) :=
  [(⟨noQuals, CType.reference noQuals (CType.record baseDecl)⟩, Stmt.other [])]

/-- The guarded block `{ throw int(1); throw Derived(); }`. -/
def throwIntAndDerived : Stmt 0 := Stmt.other [throwInt, throwDerived]

/-- The translation unit of the lambda `L8` of the test file: function 0 is the lambda,
whose body calls function 1, `conceptuallyUnknown` (no body, no exception specification),
and function 2, `undefinedNoexcept` (no body, `noexcept`). -/
def lambdaL8Unit : TranslationUnit 3 :=
  ![⟨Stmt.other [Stmt.callExpr (some 1) [], Stmt.callExpr (some 2) []],
      some ⟨ExceptionSpecificationType.EST_None, []⟩⟩,
    ⟨Stmt.null, some ⟨ExceptionSpecificationType.EST_None, []⟩⟩,
    ⟨Stmt.null, some ⟨ExceptionSpecificationType.EST_BasicNoexcept, []⟩⟩]

/-- The data-model invariant of a summary: the behaviour is `Throwing` exactly when some
type is thrown; with no thrown type it is `Unknown` if `containsUnknown` is set and
`NotThrowing` otherwise. -/
def ExceptionInfo.Invariant (X : ExceptionInfo) : Prop :=
  (X.Behaviour = State.Throwing ↔ X.ThrownExceptions.Nonempty) ∧
    (X.ThrownExceptions = ∅ →
      X.Behaviour = if X.ContainsUnknown = true then State.Unknown else State.NotThrowing)

/-- The part of the invariant that every intermediate summary of the analysis satisfies:
a thrown type forces `Throwing`, `Unknown` needs `containsUnknown`, and `NotThrowing`
excludes it. -/
def ExceptionInfo.Consistent (X : ExceptionInfo) : Prop :=
  (X.ThrownExceptions.Nonempty → X.Behaviour = State.Throwing) ∧
    (X.Behaviour = State.Unknown → X.ContainsUnknown = true) ∧
    (X.Behaviour = State.NotThrowing → X.ContainsUnknown = false)

/-- The analyzer states of one analysis pass over a translation unit: a fresh analyzer
with an empty cache, and every state left by a query `analyze(function)`. -/
inductive ReachableAnalyzer {n : Nat} (TU : TranslationUnit n) : Analyzer n → Prop where
  | fresh (IgnoredExceptions : Finset String) (IgnoreBadAlloc : Bool) :
      ReachableAnalyzer TU ⟨IgnoredExceptions, IgnoreBadAlloc, []⟩
  | afterAnalyze (A A1 : Analyzer n) (Func : Fin n) (R : ExceptionInfo) :
      ReachableAnalyzer TU A → analyzeFunc TU A Func = some (R, A1) → ReachableAnalyzer TU A1

/-! ## Notions and programs for the call, recursion and filtering theorems -/

mutual
/-- The statement with every direct call to `Func` removed: each such call expression is
replaced by the null statement. -/
def Stmt.removeCallsTo {n : Nat} (Func : Fin n) : Stmt n → Stmt n
  | .null => Stmt.null
  | .cxxThrowExpr t => Stmt.cxxThrowExpr t
  | .cxxTryStmt tryBlock handlers =>
      Stmt.cxxTryStmt (tryBlock.removeCallsTo Func) (handlersRemoveCallsTo Func handlers)
  | .callExpr (some G) children =>
      if G = Func then Stmt.null else Stmt.callExpr (some G) children
  | .callExpr none children => Stmt.callExpr none children
  | .other children => Stmt.other (childrenRemoveCallsTo Func children)
/-- The handlers with every direct call to `Func` removed from their blocks. -/
def handlersRemoveCallsTo {n : Nat} (Func : Fin n) :
    List (Option QualType × Stmt n) → List (Option QualType × Stmt n)
  | [] => []
  | (q, handlerBlock) :: rest =>
      (q, handlerBlock.removeCallsTo Func) :: handlersRemoveCallsTo Func rest
/-- The statements with every direct call to `Func` removed. -/
def childrenRemoveCallsTo {n : Nat} (Func : Fin n) : List (Stmt n) → List (Stmt n)
  | [] => []
  | Child :: rest => Child.removeCallsTo Func :: childrenRemoveCallsTo Func rest
end

/-- The exception specification forbids throwing: `noexcept`, `noexcept(true)` or
`throw()`. -/
def forbidsThrowing (EST : ExceptionSpecificationType) : Prop :=
  EST = ExceptionSpecificationType.EST_BasicNoexcept ∨
    EST = ExceptionSpecificationType.EST_NoexceptTrue ∨
    EST = ExceptionSpecificationType.EST_DynamicNone

/-- The type is a class or enumeration type whose declaration is named in the ignore
list, or is `std::bad_alloc` while `IgnoreBadAlloc` is set. -/
def nameIsIgnored (IgnoredTypes : Finset String) (IgnoreBadAlloc : Bool) (T : CType) : Prop :=
  ∃ TD, T.getAsTagDecl = some TD ∧
    (TD.getName ∈ IgnoredTypes ∨
      (IgnoreBadAlloc = true ∧ TD.getName = "bad_alloc" ∧ TD.isInStdNamespace = true))

/-- A fresh analyzer with the options of `A` and an empty cache. -/
def Analyzer.withEmptyCache {n : Nat} (A : Analyzer n) : Analyzer n :=
  { A with FunctionCache := [] }

/-- The statement `throw 1;` in a translation unit of `n` functions. -/
def throwOne {n : Nat} : Stmt n := Stmt.cxxThrowExpr (some ⟨noQuals, intType⟩)

/-- A declaration without visible body and with the given kind of exception
specification. -/
def declaredOnly {n : Nat} (EST : ExceptionSpecificationType) : FunctionDecl n :=
  ⟨Stmt.null, some ⟨EST, []⟩⟩

/-- A function definition without exception specification whose body is the compound
statement of the given statements. -/
def definedWith {n : Nat} (children : List (Stmt n)) : FunctionDecl n :=
  ⟨Stmt.other children, some ⟨ExceptionSpecificationType.EST_None, []⟩⟩

/-- The translation unit of the lambda `L3` of the test file: function 0 is
`[]() { undefined(); }` and function 1 is `void undefined();`. -/
def lambdaL3Unit : TranslationUnit 2 :=
  ![definedWith [Stmt.callExpr (some 1) []],
    declaredOnly ExceptionSpecificationType.EST_None]

/-- The translation unit of the lambda `L4` of the test file: function 0 is
`[]() { undefinedNoexcept(); }` and function 1 is `void undefinedNoexcept() noexcept;`. -/
def lambdaL4Unit : TranslationUnit 2 :=
  ![definedWith [Stmt.callExpr (some 1) []],
    declaredOnly ExceptionSpecificationType.EST_BasicNoexcept]

/-- The translation unit `void g() noexcept(false); void f() { g(); }`: function 0 is `f`
and function 1 is `g`. -/
def noexceptFalseUnit : TranslationUnit 2 :=
  ![definedWith [Stmt.callExpr (some 1) []],
    declaredOnly ExceptionSpecificationType.EST_NoexceptFalse]

/-- The translation unit `void f() { f(); }`. -/
def selfCallUnit : TranslationUnit 1 :=
  ![definedWith [Stmt.callExpr (some 0) []]]

/-- The translation unit `void f() { f(); throw 1; }`. -/
def selfCallThrowUnit : TranslationUnit 1 :=
  ![definedWith [Stmt.callExpr (some 0) [], throwOne]]

/-- The translation unit `void g(); void f() { g(); } void g() { f(); throw 1; }` of two
mutually recursive functions: function 0 is `f` and function 1 is `g`. -/
def mutualCallUnit : TranslationUnit 2 :=
  ![definedWith [Stmt.callExpr (some 1) []],
    definedWith [Stmt.callExpr (some 0) [], throwOne]]

/-- An indirect call `fp((throw 1, 0))`: no direct callee, and a child expression that
throws. -/
def indirectCallWithThrow : Stmt 0 := Stmt.callExpr none [Stmt.other [], throwInt]

/-- The class type `std::bad_alloc`. -/
def badAllocType : CType := CType.record (CXXRecordDecl.mk 2 "bad_alloc" true BaseList.nil)

/-- The class type `Ignored`, a class named in the ignore list of `ignoringAnalyzer`. -/
def ignoredType : CType := CType.record (CXXRecordDecl.mk 3 "Ignored" false BaseList.nil)

/-- An analyzer with `IgnoredExceptions = "Ignored"`, `IgnoreBadAlloc` set and an empty
cache. -/
def ignoringAnalyzer (n : Nat) : Analyzer n := ⟨{"Ignored"}, true, []⟩

/-- A statement that throws an `Ignored`, a `std::bad_alloc` and an `int`. -/
def throwThree {n : Nat} : Stmt n :=
  Stmt.other [Stmt.cxxThrowExpr (some ⟨noQuals, ignoredType⟩),
    Stmt.cxxThrowExpr (some ⟨noQuals, badAllocType⟩), throwOne]

/-- The translation unit of one function whose body throws an `Ignored`, a
`std::bad_alloc` and an `int`. -/
def throwThreeUnit : TranslationUnit 1 := ![definedWith [throwThree]]

/-- The summary `R` is the summary `E` filtered with the ignore list: it keeps exactly
the types of `E` that are not ignored, keeps `containsUnknown`, and has its behaviour
re-derived from what remains. -/
def IsFilteredSummary (IgnoredTypes : Finset String) (IgnoreBadAlloc : Bool)
    (E R : ExceptionInfo) : Prop :=
  (∀ T, T ∈ R.ThrownExceptions ↔
      T ∈ E.ThrownExceptions ∧ ¬ nameIsIgnored IgnoredTypes IgnoreBadAlloc T) ∧
    R.ContainsUnknown = E.ContainsUnknown ∧
    R.Behaviour =
      (if R.ThrownExceptions.Nonempty then State.Throwing
       else if R.ContainsUnknown = true then State.Unknown else State.NotThrowing)

/-- The name a type is written with: the name of a builtin type, of the declaration of a
class or enumeration type, or of a type alias; pointer and reference types have none. -/
def CType.writtenName : CType → Option String
  | .builtin name => some name
  | .record (.mk _ name _ _) => some name
  | .enumeral _ name _ => some name
  | .typedefSugar name _ _ => some name
  | .pointer _ _ => none
  | .reference _ _ => none

/-- The translation unit without functions. -/
def emptyUnit : TranslationUnit 0 := fun Func => Func.elim0

/-- The analyzer state of the lambda `L8` unit after the query `analyze` for function 0:
the cache holds the unfiltered summary of function 0. -/
def lambdaL8Analyzed : Analyzer 3 := ⟨∅, false, [(0, ⟨State.Unknown, true, ∅⟩)]⟩

/-! ## Notions and programs for the handler, invariant and frame theorems -/

/-- The type `T` is a class type that derives, directly or indirectly, from the class
type `B`. -/
def DerivesFromType (T B : CType) : Prop :=
  ∃ DT DB, T.getAsCXXRecordDecl = some DT ∧ B.getAsCXXRecordDecl = some DB ∧
    IsBaseClassOf DB DT

/-- A handler for the type `B` catches the thrown type `T`: `T` is `B` or derives from `B`. -/
def IsCaughtBy (T B : CType) : Prop := T = B ∨ DerivesFromType T B

/-- The class type `Base`. -/
def baseType : CType := CType.record baseDecl

/-- The class type `Derived`. -/
def derivedType : CType := CType.record derivedDecl

/-- The declared type `Base &` of a handler. -/
def baseRefQualType : QualType := ⟨noQuals, CType.reference noQuals baseType⟩

/-- The statement `try { throw Derived(); } catch (Base &) { throw; }`. -/
def tryDerivedCatchBaseRethrow : Stmt 0 :=
  Stmt.cxxTryStmt (Stmt.other [throwDerived]) [(some baseRefQualType, Stmt.cxxThrowExpr none)]

/-- The translation unit of the single declaration `void undefined();`. -/
def undefinedUnit : TranslationUnit 1 :=
  ![declaredOnly ExceptionSpecificationType.EST_None]

/-- The guarded block `{ undefined(); throw 1; throw Derived(); }`. -/
def guardedUnknownIntDerived : Stmt 1 :=
  Stmt.other [Stmt.callExpr (some 0) [], throwOne,
    Stmt.cxxThrowExpr (some ⟨noQuals, derivedType⟩)]

/-- The typed handlers `catch (Base &) {}` in a translation unit of one function. -/
def catchBaseRefOnly : List (QualType × Stmt 1) := [(baseRefQualType, Stmt.other [])]

/-- The translation unit `void undefined(); void f() { undefined(); throw Ignored(); }`:
function 0 is `f` and function 1 is `undefined`. -/
def unknownAndIgnoredUnit : TranslationUnit 2 :=
  ![definedWith [Stmt.callExpr (some 1) [], Stmt.cxxThrowExpr (some ⟨noQuals, ignoredType⟩)],
    declaredOnly ExceptionSpecificationType.EST_None]

/-- The translation unit `void quiet() noexcept; void undefined();`: function 0 is `quiet`
and function 1 is `undefined`. -/
def quietAndUndefinedUnit : TranslationUnit 2 :=
  ![declaredOnly ExceptionSpecificationType.EST_BasicNoexcept,
    declaredOnly ExceptionSpecificationType.EST_None]

/-- The call `quiet((throw 1, 0))`: a direct call whose argument throws. -/
def quietCallWithThrowingArgument : Stmt 2 := Stmt.callExpr (some 0) [throwOne]

/-- The call `quiet(undefined())`: a direct call whose argument is an unknown call. -/
def quietCallWithUnknownArgument : Stmt 2 := Stmt.callExpr (some 0) [Stmt.callExpr (some 1) []]

/-- The translation unit `void g() { throw 1; } void f() { g(); g(); }`: function 0 is `f`
and function 1 is `g`. -/
def siblingCallsUnit : TranslationUnit 2 :=
  ![definedWith [Stmt.callExpr (some 1) [], Stmt.callExpr (some 1) []],
    definedWith [throwOne]]

/-- The operand type the specification names for a throw expression: the type of the
operand after stripping sugar, top-level qualifiers and a reference. -/
def strippedOperandType (Operand : QualType) : CType :=
  let T := Operand.getTypePtr.getUnqualifiedDesugaredType
  if T.isReferenceType then T.getPointeeType.getTypePtr.getUnqualifiedDesugaredType else T

/-- The qualified type `const int`. -/
def constIntQualType : QualType := ⟨⟨true, false⟩, intType⟩

/-- The qualified type `const Alias` for `typedef volatile int Alias;`. -/
def constAliasQualType : QualType :=
  ⟨⟨true, false⟩, CType.typedefSugar "Alias" ⟨false, true⟩ intType⟩
end ExceptionAnalyzer

/-! # Const-correctness driver (`cppcoreguidelines/ConstCorrectnessCheck.cpp`)

The driver consults the host AST about each variable declaration and the mutation
analysis `ExprMutationAnalyzer` (both outside `src/`). A scope is identified by a number,
and the analyzer built for a scope is a parameter of the driver. -/

namespace ConstCorrectness

/-- Modelled from the spec: the host AST's type of a variable, as far as the matchers and
the driver ask about it. Pointee, replacement and aliased types carry whether they are
const-qualified. `substTemplateTypeParm` and `typedefSugar` are sugar. -/
inductive VarType where
  | builtin (name : String)
  | record (name : String) (isLambda : Bool)
  | pointer (pointeeConst : Bool) (pointee : VarType)
  | reference (pointeeConst : Bool) (pointee : VarType)
  | templateTypeParm (name : String)
  | substTemplateTypeParm (replacementConst : Bool) (replacement : VarType)
  | typedefSugar (name : String) (underlyingConst : Bool) (underlying : VarType)
  deriving DecidableEq

/-- Modelled from the spec: a qualified type of the host AST: a type with its top-level
const qualifier. -/
structure QualType where
  isLocalConstQualified : Bool
  getTypePtr : VarType
  deriving DecidableEq

/-- Modelled from the spec: `Type::isReferenceType` (host AST), on the canonical type. -/
def VarType.isReferenceType : VarType → Bool
  | .reference _ _ => true
  | .substTemplateTypeParm _ r => r.isReferenceType
  | .typedefSugar _ _ u => u.isReferenceType
  | _ => false

/-- Modelled from the spec: `Type::isPointerType` (host AST), on the canonical type. -/
def VarType.isPointerType : VarType → Bool
  | .pointer _ _ => true
  | .substTemplateTypeParm _ r => r.isPointerType
  | .typedefSugar _ _ u => u.isPointerType
  | _ => false

/-- Modelled from the spec: a variable declaration `VarDecl` of the host AST: its name,
location and type, whether it is a local variable other than a parameter
(`isLocalVarDecl`), whether it has an initializer, and whether it is implicit. -/
structure VarDecl where
  getName : String
  getBeginLoc : Nat
  getType : QualType
  isLocalVarDecl : Bool
  hasInit : Bool
  isImplicit : Bool
  deriving DecidableEq

/-- Modelled from the spec: a function declaration of the host AST as the matcher
`FunctionScope` sees it: the scope of its body when the body is a compound statement,
and the variable declarations among the function declaration and its descendants, in
traversal order. -/
structure FunctionDecl where
  compoundBody : Option Nat
  varDecls : List VarDecl

/-- Source: the options of the check, read in the constructor (`ConstCorrectnessCheck.h`). -/
structure Options where
  AnalyzeValues : Bool
  AnalyzeReferences : Bool
  WarnPointersAsValues : Bool
  deriving DecidableEq

/-- Source: the default values of the options in the constructor (lines 29-31 of
`ConstCorrectnessCheck.h`). -/
def defaultOptions : Options := ⟨true, true, false⟩

/-- Modelled from the spec: the mutation analysis `ExprMutationAnalyzer` of one scope
(outside `src/`): its query `isMutated`. -/
abbrev ExprMutationAnalyzer := VarDecl → Bool

/-- Source: the member `ScopesCache`, a map from scope to mutation analyzer. -/
abbrev ScopesCache := List (Nat × ExprMutationAnalyzer)

/-- Source: the diagnostic emitted by `check` (lines 189-191): location, message and the
two arguments. -/
structure Diagnostic where
  loc : Nat
  message : String
  arg0 : VarDecl
  arg1 : QualType
  deriving DecidableEq

/-- Source: `ConstCorrectnessCheck::registerScope`; `makeAnalyzer` builds the mutation
analyzer of a scope. -/
def registerScope (makeAnalyzer : Nat → ExprMutationAnalyzer) (Cache : ScopesCache)
    (LocalScope : Nat) : ScopesCache :=
  match Cache.lookup LocalScope with
  | none => (LocalScope, makeAnalyzer LocalScope) :: Cache
  | some _ => Cache

/-- Source: `ConstCorrectnessCheck::check`, on the bindings of one match: the diagnostic,
if one is emitted, and the updated cache. -/
def check (O : Options) (makeAnalyzer : Nat → ExprMutationAnalyzer) (Cache : ScopesCache)
    (LocalScope : Nat) (Variable : VarDecl) : Option Diagnostic × ScopesCache :=
  let Cache1 := registerScope makeAnalyzer Cache LocalScope
  if Variable.getType.getTypePtr.isReferenceType && !O.AnalyzeReferences then (none, Cache1)
  else if Variable.getType.getTypePtr.isPointerType && !O.WarnPointersAsValues then (none, Cache1)
  else if !(Variable.getType.getTypePtr.isReferenceType ||
            Variable.getType.getTypePtr.isPointerType) && !O.AnalyzeValues then (none, Cache1)
  else
    match Cache1.lookup LocalScope with
    | some Analyzer =>
        if Analyzer Variable then (none, Cache1)
        else (some ⟨Variable.getBeginLoc, "variable %0 of type %1 can be declared 'const'",
                Variable, Variable.getType⟩, Cache1)
    | none => (none, Cache1)

/-- The three categories of a candidate variable. -/
inductive Category where
  | Value
  | Pointer
  | Reference
  deriving DecidableEq, Repr

/-- The category of a variable, by its declared type. -/
def categoryOf (T : QualType) : Category :=
  if T.getTypePtr.isReferenceType then Category.Reference
  else if T.getTypePtr.isPointerType then Category.Pointer
  else Category.Value

/-- The option that enables a category: a reference requires `AnalyzeReferences`, a
pointer requires `WarnPointersAsValues`, any other type requires `AnalyzeValues`. -/
def categoryEnabled (O : Options) : Category → Bool
  | Category.Reference => O.AnalyzeReferences
  | Category.Pointer => O.WarnPointersAsValues
  | Category.Value => O.AnalyzeValues

/-- Every cached analyzer is the analyzer of its scope. -/
def ScopesCacheValid (makeAnalyzer : Nat → ExprMutationAnalyzer) (Cache : ScopesCache) : Prop :=
  ∀ LocalScope Analyzer, Cache.lookup LocalScope = some Analyzer →
    Analyzer = makeAnalyzer LocalScope

/-- The type `int`. -/
def intQualType : QualType := ⟨false, VarType.builtin "int"⟩

/-- The variable `int p_local0 = 2;` of the test file. -/
def p_local0 : VarDecl := ⟨"p_local0", 24, intQualType, true, true, false⟩

/-- The pointer variable `double *p_local0 = &np_local0[1];` of the test file. -/
def pointerLocal : VarDecl :=
  ⟨"p_local0", 365, ⟨false, VarType.pointer false (VarType.builtin "double")⟩, true, true, false⟩

/-- A mutation analysis in which no variable is mutated. -/
def neverMutated : Nat → ExprMutationAnalyzer := fun _ _ => false

/-! ## The mutation analysis, from the specification -/

/-- Modelled from the spec: the uses of a variable, or of an alias derived from it, that
the contract of the mutation analysis distinguishes (`ExprMutationAnalyzer`, outside
`src/`): a read, an assignment, being passed to a function as a handle (a pointer or a
reference, const or not), a capture by reference in a closure (that mutates it or not),
a mutating operator, a call of a method or of an overloaded operator (const or not),
obtaining an iterator (const or not), storing its address into an output parameter,
being returned as a handle (const or not), and a use in an expression of dependent
type. -/
inductive VarUse where
  | read
  | assignedTo
  | passedAsHandle (handleIsConst : Bool)
  | capturedByReference (closureMutates : Bool)
  | mutatingOperator
  | methodCall (methodIsConst : Bool)
  | overloadedOperator (operatorIsConst : Bool)
  | iteratorObtained (iteratorIsConst : Bool)
  | addressStoredInOutputParameter
  | returnedAsHandle (handleIsConst : Bool)
  | usedInDependentExpression
  deriving DecidableEq

/-- Modelled from the spec: the uses that count as a mutation in the contract of the
mutation analysis (`ExprMutationAnalyzer`, outside `src/`). -/
def VarUse.mutates : VarUse → Bool
  | .read => false
  | .assignedTo => true
  | .passedAsHandle handleIsConst => !handleIsConst
  | .capturedByReference closureMutates => closureMutates
  | .mutatingOperator => true
  | .methodCall methodIsConst => !methodIsConst
  | .overloadedOperator operatorIsConst => !operatorIsConst
  | .iteratorObtained iteratorIsConst => !iteratorIsConst
  | .addressStoredInOutputParameter => true
  | .returnedAsHandle handleIsConst => !handleIsConst
  | .usedInDependentExpression => true

/-- Modelled from the spec: a scope as the mutation analysis sees it (`ExprMutationAnalyzer`,
outside `src/`): the uses of variables anywhere in the scope. -/
structure Scope where
  uses : List (VarDecl × VarUse)

/-- Modelled from the spec: `ExprMutationAnalyzer::isMutated` (outside `src/`): true if,
anywhere in the scope, a use of the variable mutates it. -/
def isMutated (S : Scope) (Variable : VarDecl) : Bool :=
  S.uses.any (fun u => decide (u.1 = Variable) && u.2.mutates)

/-- The variable `S s;` of the test on `__unaligned`. -/
def unaligned_s : VarDecl := ⟨"s", 15, ⟨false, VarType.record "S" false⟩, true, true, false⟩

/-- The scope of the test on `__unaligned`: the address of `s` is passed to
`void f(__unaligned S *)`, a pointer to non-const. -/
def unalignedScope : Scope := ⟨[(unaligned_s, VarUse.passedAsHandle false)]⟩
end ConstCorrectness

/-! # Use-ranges check (`modernize/UseRangesCheck.cpp`)

The check consults the host AST and the matcher library (outside `src/`). Source
locations are numbers. The end of the algorithm's name in the source text is found by
the lexer utilities (outside `src/`) and is a parameter of the check. -/

namespace UseRanges

/-- Modelled from the spec: a named declaration `NamedDecl` of the host AST: its identity
and its name. -/
structure NamedDecl where
  id : Nat
  getName : String
  deriving DecidableEq

/-- Modelled from the spec: a function declaration of the host AST as the callee of a
call: its name and its qualified name (`getQualifiedNameAsString`). -/
structure FunctionDecl where
  getName : String
  getQualifiedNameAsString : String
  deriving DecidableEq

/-- Modelled from the spec: a method declaration of the host AST as the callee of a
member call: its name. `std` names a namespace, so no method is the function
`::std::begin`. -/
structure CXXMethodDecl where
  getName : String
  deriving DecidableEq

/-- Modelled from the spec: the expressions of the host AST, as far as the matchers of the
check distinguish them: a reference to a declaration, a call with its direct callee and
arguments, a member call with its method, implicit object argument and arguments, a
parenthesised expression, an implicit cast, and any other expression. -/
inductive Expr where
  | declRefExpr (decl : NamedDecl)
  | callExpr (callee : Option FunctionDecl) (args : List Expr)
  | cxxMemberCallExpr (method : CXXMethodDecl) (object : Expr) (args : List Expr)
  | parenExpr (sub : Expr)
  | implicitCastExpr (sub : Expr)
  | otherExpr (children : List Expr)

/-- Modelled from the spec: `Expr::IgnoreParenImpCasts` (host AST). -/
def Expr.IgnoreParenImpCasts : Expr → Expr
  | .parenExpr sub => sub.IgnoreParenImpCasts
  | .implicitCastExpr sub => sub.IgnoreParenImpCasts
  | E => E

/-- Modelled from the spec: the matcher `hasAnyName` (host matcher library) on a function:
a pattern with a leading `::` is compared with the qualified name, a simple name with
the name. -/
def hasAnyName (Names : List String) (name qualifiedName : String) : Bool :=
  Names.any (fun N =>
    match N.data with
    | ':' :: ':' :: rest => decide (rest = qualifiedName.data)
    | _ => decide (N = name))

/-- Modelled from the spec: the matcher `declRefExpr(to(namedDecl().bind("container")))`
(host matcher library) on an expression stripped of parentheses and implicit casts, as
`hasArgument` and `on` apply it: the declaration referred to. -/
def boundContainer (E : Expr) : Option NamedDecl :=
  match E.IgnoreParenImpCasts with
  | .declRefExpr decl => some decl
  | _ => none

/-- Source: the matcher of `isValidBeginOn` and `isValidEndOn` (lines 23-30 and 38-45),
for the given function names and method names, on an expression stripped of parentheses
and implicit casts: a call of one of the functions whose first argument refers to a
declaration, or a member call of one of the methods on a declaration. -/
def matchContainer (Functions Methods : List String) : Expr → Option NamedDecl
  | .callExpr (some F) (Arg0 :: _) =>
      if hasAnyName Functions F.getName F.getQualifiedNameAsString then boundContainer Arg0
      else none
  | .cxxMemberCallExpr M Object _ =>
      if hasAnyName Methods M.getName M.getName then boundContainer Object else none
  | _ => none

/-- Source: `isValidBeginOn`. -/
def isValidBeginOn (E : Expr) : Option NamedDecl :=
  matchContainer ["::std::begin", "::std::cbegin"] ["begin", "cbegin"] E.IgnoreParenImpCasts

/-- Source: `isValidEndOn`. -/
def isValidEndOn (E : Expr) : Option NamedDecl :=
  matchContainer ["::std::end", "::std::cend"] ["end", "cend"] E.IgnoreParenImpCasts

/-- Source: `isValidRangeOn`. -/
def isValidRangeOn (Arg1 Arg2 : Expr) : Option NamedDecl :=
  match isValidBeginOn Arg1, isValidEndOn Arg2 with
  | some ReferencedDecl1, some ReferencedDecl2 =>
      if ReferencedDecl1 = ReferencedDecl2 then some ReferencedDecl1 else none
  | _, _ => none

/-- Modelled from the spec: an argument of the matched call with its source range
(`getBeginLoc`, `getEndLoc`). -/
structure Argument where
  expr : Expr
  getBeginLoc : Nat
  getEndLoc : Nat

/-- Modelled from the spec: the matched call expression `CallExpr` of the host AST: its
begin location, its direct callee and its arguments. -/
structure CallExpr where
  getBeginLoc : Nat
  getDirectCallee : FunctionDecl
  args : List Argument

/-- Source: `CallExpr::getNumArgs` of the matched call. -/
def CallExpr.getNumArgs (Call : CallExpr) : Nat := Call.args.length

/-- Modelled from the spec: a fix-it `FixItHint::CreateReplacement` (host library): the
replaced source range and the new text. -/
structure FixItHint where
  rangeBegin : Nat
  rangeEnd : Nat
  text : String
  deriving DecidableEq

/-- Source: the diagnostic of `check`: location, message and the fix-its streamed into
it. -/
structure Diagnostic where
  loc : Nat
  message : String
  fixits : List FixItHint
  deriving DecidableEq

/-- Source: the two bindings of `registerMatchers`. -/
inductive AlgorithmBinding where
  | singleRange
  | missmatch
  deriving DecidableEq, Repr

/-- Source: the names bound to `single-range` in `registerMatchers` (lines 154-159). -/
def singleRangeNames : List String :=
  ["::std::any_of", "::std::all_of", "::std::none_of", "::std::for_each", "::std::count",
   "::std::count_if", "::std::find", "::std::find_if", "::std::find_if_not",
   "::std::adjacent_find", "::std::fill", "::std::generate", "::std::remove",
   "::std::remove_if", "::std::unique"]

/-- Source: the matcher of `registerMatchers`: the binding under which a call is matched,
if it is. -/
def registerMatchers (Call : CallExpr) : Option AlgorithmBinding :=
  if hasAnyName singleRangeNames Call.getDirectCallee.getName
      Call.getDirectCallee.getQualifiedNameAsString then some AlgorithmBinding.singleRange
  else if hasAnyName ["::std::missmatch"] Call.getDirectCallee.getName
      Call.getDirectCallee.getQualifiedNameAsString then some AlgorithmBinding.missmatch
  else none

/-- Source: the member `NewNamespace` (`UseRangesCheck.h`, line 30). -/
def NewNamespace : String := "std::ranges"

/-- Modelled from the spec: `llvm::StringRef::drop_front` (host library): the string
without its first `N` characters. -/
def drop_front (S : String) (N : Nat) : String := ⟨S.data.drop N⟩

/-- Source: `rewriteAlgorithmName`. -/
def rewriteAlgorithmName (Call : CallExpr) (EndOfName : Nat) (NewNamespace : String) :
    FixItHint :=
  let CallName := Call.getDirectCallee.getQualifiedNameAsString
  let OnlyName := drop_front CallName 5
  let NewCall := (NewNamespace ++ "::") ++ OnlyName
  ⟨Call.getBeginLoc, EndOfName, NewCall⟩

/-- Source: `algo::single_range::getTransformation`. -/
def getTransformation (Arg0 Arg1 : Argument) (Container : NamedDecl) : FixItHint :=
  ⟨Arg0.getBeginLoc, Arg1.getEndLoc, Container.getName⟩

/-- Source: `UseRangesCheck::check` on a match. The outer result is none when the
constructor of `single_range` reads an argument the call does not have; the inner
result is the diagnostic, if one is emitted. `findEndOfName` gives the end of the
algorithm's name from the begin location of the call. -/
def check (findEndOfName : Nat → Nat) (AlgoCall : CallExpr) :
    AlgorithmBinding → Option (Option Diagnostic)
  | AlgorithmBinding.singleRange =>
      match AlgoCall.args with
      | Arg0 :: Arg1 :: _ =>
          let IsRangeable := AlgoCall.getNumArgs == 3 || AlgoCall.getNumArgs == 2
          match isValidRangeOn Arg0.expr Arg1.expr with
          | some Container =>
              if IsRangeable then
                some (some ⟨AlgoCall.getBeginLoc, "algorithm could be rewritten with std::ranges",
                  [getTransformation Arg0 Arg1 Container,
                   rewriteAlgorithmName AlgoCall (findEndOfName AlgoCall.getBeginLoc)
                     NewNamespace]⟩)
              else some none
          | none => some none
      | _ => none
  | AlgorithmBinding.missmatch =>
      some (some ⟨AlgoCall.getBeginLoc, "algorithm could be rewritten with std::ranges", []⟩)

/-! ## Specification-side notions -/

/-- The expression is `std::begin` or `std::cbegin` of, or a `begin` or `cbegin` member
call on, the declaration `D`. -/
inductive IsBeginOf (D : NamedDecl) : Expr → Prop where
  | stdCall (F : FunctionDecl) (Arg0 : Expr) (rest : List Expr) :
      F.getQualifiedNameAsString = "std::begin" ∨ F.getQualifiedNameAsString = "std::cbegin" →
      Arg0.IgnoreParenImpCasts = Expr.declRefExpr D →
      IsBeginOf D (Expr.callExpr (some F) (Arg0 :: rest))
  | memberCall (M : CXXMethodDecl) (Object : Expr) (args : List Expr) :
      M.getName = "begin" ∨ M.getName = "cbegin" →
      Object.IgnoreParenImpCasts = Expr.declRefExpr D →
      IsBeginOf D (Expr.cxxMemberCallExpr M Object args)

/-- The expression is `std::end` or `std::cend` of, or an `end` or `cend` member call on,
the declaration `D`. -/
inductive IsEndOf (D : NamedDecl) : Expr → Prop where
  | stdCall (F : FunctionDecl) (Arg0 : Expr) (rest : List Expr) :
      F.getQualifiedNameAsString = "std::end" ∨ F.getQualifiedNameAsString = "std::cend" →
      Arg0.IgnoreParenImpCasts = Expr.declRefExpr D →
      IsEndOf D (Expr.callExpr (some F) (Arg0 :: rest))
  | memberCall (M : CXXMethodDecl) (Object : Expr) (args : List Expr) :
      M.getName = "end" ∨ M.getName = "cend" →
      Object.IgnoreParenImpCasts = Expr.declRefExpr D →
      IsEndOf D (Expr.cxxMemberCallExpr M Object args)

/-- The call is rangeable on `D`: it has exactly 2 or 3 arguments, its first argument,
ignoring parentheses and implicit casts, is a begin of `D` and its second an end of
`D`. -/
def IsRangeableOn (Call : CallExpr) (D : NamedDecl) : Prop :=
  (Call.getNumArgs = 2 ∨ Call.getNumArgs = 3) ∧
    ∃ Arg0 Arg1 rest, Call.args = Arg0 :: Arg1 :: rest ∧
      IsBeginOf D Arg0.expr.IgnoreParenImpCasts ∧ IsEndOf D Arg1.expr.IgnoreParenImpCasts

/-! ## Concrete calls used as witnesses -/

/-- The container `foo` of the test file. -/
def foo : NamedDecl := ⟨0, "foo"⟩

/-- The container `bar` of the test file. -/
def bar : NamedDecl := ⟨1, "bar"⟩

/-- The function `std::all_of`. -/
def all_of : FunctionDecl := ⟨"all_of", "std::all_of"⟩

/-- The expression `foo.begin()`. -/
def fooBegin : Expr := Expr.cxxMemberCallExpr ⟨"begin"⟩ (Expr.declRefExpr foo) []

/-- The expression `foo.end()`. -/
def fooEnd : Expr := Expr.cxxMemberCallExpr ⟨"end"⟩ (Expr.declRefExpr foo) []

/-- The expression `std::begin(foo)`. -/
def stdBeginFoo : Expr := Expr.callExpr (some ⟨"begin", "std::begin"⟩) [Expr.declRefExpr foo]

/-- The expression `std::end(foo)`. -/
def stdEndFoo : Expr := Expr.callExpr (some ⟨"end", "std::end"⟩) [Expr.declRefExpr foo]

/-- The expression `std::end(bar)`. -/
def stdEndBar : Expr := Expr.callExpr (some ⟨"end", "std::end"⟩) [Expr.declRefExpr bar]

/-- A lambda or another argument the matchers do not look into. -/
def someArgument : Argument := ⟨Expr.otherExpr [], 40, 70⟩

/-- The call `std::all_of(foo.begin(), foo.end(), [](int x) { return x == 0; });` of the
test file (line 15), with columns as source locations. -/
def allOfFoo : CallExpr :=
  ⟨3, all_of, [⟨fooBegin, 15, 25⟩, ⟨fooEnd, 28, 36⟩, someArgument]⟩

/-- The call `std::all_of((foo.cbegin()), foo.cend(), ...)` of the test file (line 29). -/
def allOfParenFoo : CallExpr :=
  ⟨3, all_of, [⟨Expr.parenExpr (Expr.cxxMemberCallExpr ⟨"cbegin"⟩ (Expr.declRefExpr foo) []), 15, 28⟩,
    ⟨Expr.cxxMemberCallExpr ⟨"cend"⟩ (Expr.declRefExpr foo) [], 31, 40⟩, someArgument]⟩

/-- The call `std::all_of(SomePolicy(42), std::begin(foo), std::end(foo), ...)` of the test
file (line 65), with an execution policy. -/
def allOfPolicy : CallExpr :=
  ⟨3, all_of, [⟨Expr.otherExpr [], 15, 28⟩, ⟨stdBeginFoo, 31, 45⟩, ⟨stdEndFoo, 48, 60⟩,
    someArgument]⟩

/-- The call `std::all_of(foo.begin() + 2, foo.end(), ...)` of the test file (line 48), with
an offset iterator. -/
def allOfOffset : CallExpr :=
  ⟨3, all_of, [⟨Expr.otherExpr [fooBegin, Expr.otherExpr []], 15, 29⟩, ⟨fooEnd, 32, 40⟩,
    someArgument]⟩

/-- The call `std::all_of(std::begin(foo), std::end(bar), ...)` of the test file (line 68),
with two containers. -/
def allOfFooBar : CallExpr :=
  ⟨3, all_of, [⟨stdBeginFoo, 15, 29⟩, ⟨stdEndBar, 32, 44⟩, someArgument]⟩

/-- The end of the name `std::all_of` of a call that begins at the given location. -/
def endOfAllOf : Nat → Nat := fun BeginLoc => BeginLoc + 11

end UseRanges

namespace ExceptionAnalyzer

/-! ## Helper lemmas on summaries -/

theorem behaviour_merge (X Y : ExceptionInfo) :
    (X.merge Y).Behaviour =
      if X.Behaviour = State.Throwing ∨ Y.Behaviour = State.Throwing then State.Throwing
      else if X.Behaviour = State.Unknown ∨ Y.Behaviour = State.Unknown then State.Unknown
      else State.NotThrowing := by
  obtain ⟨bx, ux, tx⟩ := X
  obtain ⟨by_, uy, ty⟩ := Y
  cases bx <;> cases by_ <;> simp [ExceptionInfo.merge]

theorem merge_createNotThrowing_left (R : ExceptionInfo) :
    ExceptionInfo.createNotThrowing.merge R = R := by
  obtain ⟨b, u, t⟩ := R
  cases b <;> simp [ExceptionInfo.merge, ExceptionInfo.createNotThrowing]

theorem merge_createNotThrowing_right (R : ExceptionInfo) :
    R.merge ExceptionInfo.createNotThrowing = R := by
  obtain ⟨b, u, t⟩ := R
  cases b <;> simp [ExceptionInfo.merge, ExceptionInfo.createNotThrowing]

theorem clear_eq_createNotThrowing (R : ExceptionInfo) :
    R.clear = ExceptionInfo.createNotThrowing := rfl

theorem filterByCatch_createNotThrowing (T : CType) :
    ExceptionInfo.createNotThrowing.filterByCatch T = (false, ExceptionInfo.createNotThrowing) := by
  simp [ExceptionInfo.filterByCatch, ExceptionInfo.createNotThrowing,
    ExceptionInfo.reevaluateBehaviour]

mutual
theorem throwsExceptionStmt_of_throwsAndCallsNothing {n : Nat}
    (callee : Fin n → CallStack n → Option (ExceptionInfo × CallStack n)) :
    ∀ (St : Stmt n) (Caught : Throwables) (CS : CallStack n),
      St.throwsAndCallsNothing = true →
      throwsExceptionStmt callee St Caught CS = some (ExceptionInfo.createNotThrowing, CS)
  | .null, _, _, _ => by simp [throwsExceptionStmt]
  | .cxxThrowExpr _, _, _, h => by simp [Stmt.throwsAndCallsNothing] at h
  | .callExpr _ _, _, _, h => by simp [Stmt.throwsAndCallsNothing] at h
  | .cxxTryStmt tryBlock handlers, Caught, CS, h => by
      simp only [Stmt.throwsAndCallsNothing, Bool.and_eq_true] at h
      simp only [throwsExceptionStmt,
        throwsExceptionStmt_of_throwsAndCallsNothing callee tryBlock Caught CS h.1,
        handlersLoop_of_throwAndCallNothing callee handlers CS h.2]
      rw [merge_createNotThrowing_left]
  | .other children, Caught, CS, h => by
      simp only [Stmt.throwsAndCallsNothing] at h
      simp only [throwsExceptionStmt,
        childrenLoop_of_throwAndCallNothing callee children Caught CS h]
theorem handlersLoop_of_throwAndCallNothing {n : Nat}
    (callee : Fin n → CallStack n → Option (ExceptionInfo × CallStack n)) :
    ∀ (handlers : List (Option QualType × Stmt n)) (CS : CallStack n),
      handlersThrowAndCallNothing handlers = true →
      handlersLoop callee handlers ExceptionInfo.createNotThrowing
          ExceptionInfo.createNotThrowing CS
        = some (ExceptionInfo.createNotThrowing, ExceptionInfo.createNotThrowing, CS)
  | [], _, _ => by simp [handlersLoop]
  | (none, handlerBlock) :: rest, CS, h => by
      simp only [handlersThrowAndCallNothing, Bool.and_eq_true] at h
      simp only [handlersLoop,
        throwsExceptionStmt_of_throwsAndCallsNothing callee handlerBlock _ CS h.1,
        merge_createNotThrowing_left, clear_eq_createNotThrowing]
      exact handlersLoop_of_throwAndCallNothing callee rest CS h.2
  | (some q, handlerBlock) :: rest, CS, h => by
      simp only [handlersThrowAndCallNothing, Bool.and_eq_true] at h
      simp only [handlersLoop, filterByCatch_createNotThrowing]
      simpa using handlersLoop_of_throwAndCallNothing callee rest CS h.2
theorem childrenLoop_of_throwAndCallNothing {n : Nat}
    (callee : Fin n → CallStack n → Option (ExceptionInfo × CallStack n)) :
    ∀ (children : List (Stmt n)) (Caught : Throwables) (CS : CallStack n),
      childrenThrowAndCallNothing children = true →
      childrenLoop callee children Caught ExceptionInfo.createNotThrowing CS
        = some (ExceptionInfo.createNotThrowing, CS)
  | [], _, _, _ => by simp [childrenLoop]
  | Child :: rest, Caught, CS, h => by
      simp only [childrenThrowAndCallNothing, Bool.and_eq_true] at h
      simp only [childrenLoop,
        throwsExceptionStmt_of_throwsAndCallsNothing callee Child Caught CS h.1,
        merge_createNotThrowing_left]
      exact childrenLoop_of_throwAndCallNothing callee rest Caught CS h.2
end

/-! ## Helper lemmas: class hierarchy and the handler loop -/

mutual
theorem forallBases_ne_eq_false_iff (B : CXXRecordDecl) :
    ∀ D : CXXRecordDecl,
      D.forallBases (fun Cur => decide (Cur ≠ B)) = false ↔ IsBaseClassOf B D
  | .mk id name inStd bases => by
      rw [CXXRecordDecl.forallBases]
      constructor
      · intro h
        exact IsBaseClassOf.mk id name inStd bases
          ((baseList_forallBases_ne_eq_false_iff B bases).1 h)
      · intro h
        cases h with
        | mk _ _ _ _ h1 => exact (baseList_forallBases_ne_eq_false_iff B bases).2 h1
theorem baseList_forallBases_ne_eq_false_iff (B : CXXRecordDecl) :
    ∀ bases : BaseList,
      bases.forallBases (fun Cur => decide (Cur ≠ B)) = false ↔ OccursInBases B bases
  | .nil => by
      rw [BaseList.forallBases]
      constructor
      · intro h; cases h
      · intro h; cases h
  | .cons D rest => by
      rw [BaseList.forallBases]
      have ihD := forallBases_ne_eq_false_iff B D
      have ihR := baseList_forallBases_ne_eq_false_iff B rest
      generalize D.forallBases (fun Cur => decide (Cur ≠ B)) = x at ihD ⊢
      generalize rest.forallBases (fun Cur => decide (Cur ≠ B)) = y at ihR ⊢
      constructor
      · intro h
        by_cases hD : D = B
        · subst hD; exact OccursInBases.direct rest
        · cases x with
          | false => exact OccursInBases.indirect D rest (ihD.1 rfl)
          | true =>
            cases y with
            | false => exact OccursInBases.later D rest (ihR.1 rfl)
            | true =>
              have : decide (D ≠ B) = true := decide_eq_true hD
              rw [this] at h
              cases h
      · intro h
        cases h with
        | direct _ =>
          have : decide (B ≠ B) = false := decide_eq_false (fun hne => hne rfl)
          rw [this]; rfl
        | indirect _ _ h1 => rw [ihD.2 h1]; cases decide (D ≠ B) <;> rfl
        | later _ _ h1 => rw [ihR.2 h1]; cases decide (D ≠ B) <;> cases x <;> rfl
end

theorem filterByCatch_thrown (X : ExceptionInfo) (T : CType) :
    (X.filterByCatch T).2.ThrownExceptions
      = X.ThrownExceptions.filter (fun A => ¬ (A = T ∨ isBaseOf A T = true)) := by
  have h : (X.filterByCatch T).2.ThrownExceptions
      = X.ThrownExceptions \ X.ThrownExceptions.filter (fun A => A = T ∨ isBaseOf A T = true) := by
    unfold ExceptionInfo.filterByCatch ExceptionInfo.reevaluateBehaviour
    dsimp only
    split_ifs <;> rfl
  rw [h]
  ext A
  simp only [Finset.mem_sdiff, Finset.mem_filter]
  tauto

theorem filterByCatch_containsUnknown (X : ExceptionInfo) (T : CType) :
    (X.filterByCatch T).2.ContainsUnknown = X.ContainsUnknown := by
  unfold ExceptionInfo.filterByCatch ExceptionInfo.reevaluateBehaviour
  dsimp only
  split_ifs <;> rfl

theorem filterByCatch_behaviour (X : ExceptionInfo) (T : CType) :
    (X.filterByCatch T).2.Behaviour
      = if (X.filterByCatch T).2.ThrownExceptions = ∅ then
          (if X.ContainsUnknown = true then State.Unknown else State.NotThrowing)
        else State.Throwing := by
  unfold ExceptionInfo.filterByCatch ExceptionInfo.reevaluateBehaviour
  dsimp only
  split_ifs <;> simp_all [Finset.card_eq_zero]

theorem filterByCatch_fst (X : ExceptionInfo) (T : CType) :
    (X.filterByCatch T).1 = true ↔ ∃ A ∈ X.ThrownExceptions, A = T ∨ isBaseOf A T = true := by
  unfold ExceptionInfo.filterByCatch
  simp only [gt_iff_lt, decide_eq_true_eq, Finset.card_pos]
  constructor
  · rintro ⟨A, hA⟩
    rw [Finset.mem_filter] at hA
    exact ⟨A, hA.1, hA.2⟩
  · rintro ⟨A, hA, hp⟩
    exact ⟨A, Finset.mem_filter.2 ⟨hA, hp⟩⟩

theorem handlersLoop_append {n : Nat}
    (callee : Fin n → CallStack n → Option (ExceptionInfo × CallStack n))
    (hs2 : List (Option QualType × Stmt n)) :
    ∀ (hs1 : List (Option QualType × Stmt n)) (Results Uncaught : ExceptionInfo)
      (CS : CallStack n),
      handlersLoop callee (hs1 ++ hs2) Results Uncaught CS
        = (match handlersLoop callee hs1 Results Uncaught CS with
           | none => none
           | some (R1, U1, CS1) => handlersLoop callee hs2 R1 U1 CS1)
  | [], Results, Uncaught, CS => by simp [handlersLoop]
  | (none, handlerBlock) :: rest, Results, Uncaught, CS => by
      simp only [List.cons_append, handlersLoop]
      cases throwsExceptionStmt callee handlerBlock Uncaught.getExceptionTypes CS with
      | none => rfl
      | some p =>
        obtain ⟨Rethrown, CS1⟩ := p
        exact handlersLoop_append callee hs2 rest _ _ CS1
  | (some q, handlerBlock) :: rest, Results, Uncaught, CS => by
      simp only [List.cons_append, handlersLoop]
      split_ifs
      · cases throwsExceptionStmt callee handlerBlock {caughtTypeOf q} CS with
        | none => rfl
        | some p =>
          obtain ⟨Rethrown, CS1⟩ := p
          exact handlersLoop_append callee hs2 rest _ _ CS1
      · exact handlersLoop_append callee hs2 rest _ _ CS

theorem handlersLoop_typedHandlers_uncaught {n : Nat}
    (callee : Fin n → CallStack n → Option (ExceptionInfo × CallStack n)) :
    ∀ (hs : List (QualType × Stmt n)) (Results Uncaught R1 U1 : ExceptionInfo)
      (CS CS1 : CallStack n),
      handlersLoop callee (typedHandlers hs) Results Uncaught CS = some (R1, U1, CS1) →
      U1.ThrownExceptions = survivingTypes hs Uncaught.ThrownExceptions ∧
        U1.ContainsUnknown = Uncaught.ContainsUnknown
  | [], Results, Uncaught, R1, U1, CS, CS1, h => by
      simp only [typedHandlers, List.map_nil, handlersLoop, Option.some.injEq,
        Prod.mk.injEq] at h
      obtain ⟨-, rfl, -⟩ := h
      simp [survivingTypes]
  | (q, handlerBlock) :: rest, Results, Uncaught, R1, U1, CS, CS1, h => by
      have step : ∀ (R : ExceptionInfo) (CS0 : CallStack n),
          handlersLoop callee (typedHandlers rest) R (Uncaught.filterByCatch (caughtTypeOf q)).2 CS0
            = some (R1, U1, CS1) →
          U1.ThrownExceptions = survivingTypes ((q, handlerBlock) :: rest) Uncaught.ThrownExceptions ∧
            U1.ContainsUnknown = Uncaught.ContainsUnknown := by
        intro R CS0 h0
        obtain ⟨h1, h2⟩ := handlersLoop_typedHandlers_uncaught callee rest _ _ _ _ _ _ h0
        refine ⟨?_, by rw [h2, filterByCatch_containsUnknown]⟩
        rw [h1, filterByCatch_thrown]
        ext A
        simp only [survivingTypes, Finset.mem_filter, List.mem_cons, forall_eq_or_imp]
        tauto
      simp only [typedHandlers, List.map_cons, handlersLoop] at h
      split_ifs at h
      · cases hb : throwsExceptionStmt callee handlerBlock {caughtTypeOf q} CS with
        | none => simp [hb] at h
        | some p =>
          obtain ⟨Rethrown, CS0⟩ := p
          simp only [hb] at h
          exact step _ _ h
      · exact step _ _ h

/-! ## Helper lemmas: consistency of every summary and totality of the analysis -/

theorem consistent_createNotThrowing : ExceptionInfo.createNotThrowing.Consistent := by
  simp [ExceptionInfo.Consistent, ExceptionInfo.createNotThrowing]

theorem consistent_registerException (X : ExceptionInfo) (T : CType) :
    (X.registerException T).Consistent := by
  simp [ExceptionInfo.Consistent, ExceptionInfo.registerException]

theorem consistent_registerExceptions (X : ExceptionInfo) (C : Throwables)
    (hX : X.Consistent) : (X.registerExceptions C).Consistent := by
  unfold ExceptionInfo.registerExceptions
  split_ifs
  · exact hX
  · simp [ExceptionInfo.Consistent]

theorem consistent_merge (X Y : ExceptionInfo) (hX : X.Consistent) (hY : Y.Consistent) :
    (X.merge Y).Consistent := by
  obtain ⟨bx, ux, tx⟩ := X
  obtain ⟨by_, uy, ty⟩ := Y
  obtain ⟨hx1, hx2, hx3⟩ := hX
  obtain ⟨hy1, hy2, hy3⟩ := hY
  simp only [ExceptionInfo.Consistent, ExceptionInfo.merge] at *
  refine ⟨?_, ?_, ?_⟩
  · intro hne
    obtain ⟨T, hT⟩ := hne
    rcases Finset.mem_union.1 hT with h | h
    · rw [hx1 ⟨T, h⟩]; simp
    · rw [hy1 ⟨T, h⟩]; simp
  · cases bx <;> cases by_ <;> simp_all
  · cases bx <;> cases by_ <;> simp_all

theorem invariant_reevaluateBehaviour (X : ExceptionInfo) :
    X.reevaluateBehaviour.Invariant := by
  obtain ⟨b, u, t⟩ := X
  by_cases h1 : t = ∅
  · subst h1
    cases u <;> simp [ExceptionInfo.reevaluateBehaviour, ExceptionInfo.Invariant]
  · have h2 : ¬ t.card = 0 := fun h => h1 (Finset.card_eq_zero.1 h)
    simp [ExceptionInfo.reevaluateBehaviour, ExceptionInfo.Invariant, h1, h2,
      Finset.nonempty_iff_ne_empty]

theorem consistent_of_invariant (X : ExceptionInfo) (h : X.Invariant) : X.Consistent := by
  obtain ⟨b, u, t⟩ := X
  obtain ⟨h1, h2⟩ := h
  simp only [ExceptionInfo.Consistent] at *
  refine ⟨h1.2, ?_, ?_⟩
  · intro hb
    by_cases ht : t = ∅
    · have := h2 ht
      cases u <;> simp_all
    · have := h1.2 (Finset.nonempty_iff_ne_empty.2 ht)
      simp_all
  · intro hb
    by_cases ht : t = ∅
    · have := h2 ht
      cases u <;> simp_all
    · have := h1.2 (Finset.nonempty_iff_ne_empty.2 ht)
      simp_all

theorem invariant_filterByCatch (X : ExceptionInfo) (T : CType) :
    (X.filterByCatch T).2.Invariant := by
  unfold ExceptionInfo.filterByCatch
  exact invariant_reevaluateBehaviour _

theorem invariant_filterIgnoredExceptions (X : ExceptionInfo) (Ignored : Finset String)
    (IgnoreBadAlloc : Bool) : (X.filterIgnoredExceptions Ignored IgnoreBadAlloc).Invariant := by
  unfold ExceptionInfo.filterIgnoredExceptions
  exact invariant_reevaluateBehaviour _

theorem consistent_foldl_registerException (Exs : List QualType) :
    ∀ X : ExceptionInfo, X.Consistent →
      (Exs.foldl (fun R Ex => R.registerException Ex.getTypePtr) X).Consistent := by
  induction Exs with
  | nil => intro X hX; exact hX
  | cons Ex rest ih =>
    intro X _
    exact ih _ (consistent_registerException X Ex.getTypePtr)

theorem consistent_inferFromDeclaration (getProto : Option FunctionProtoType) :
    (inferFromDeclaration getProto).Consistent := by
  cases getProto with
  | none => exact consistent_createNotThrowing
  | some FPT =>
    obtain ⟨est, dyn⟩ := FPT
    cases est <;>
      first
      | exact consistent_foldl_registerException _ _ consistent_createNotThrowing
      | simp [inferFromDeclaration, FunctionProtoType.exceptions, ExceptionInfo.Consistent,
          ExceptionInfo.signalUnknown, ExceptionInfo.signalThrowing,
          ExceptionInfo.createNotThrowing]

theorem invariant_analyzeDispatch {n : Nat} (A : Analyzer n) (X : ExceptionInfo)
    (hX : X.Consistent) : (analyzeDispatch A X).Invariant := by
  unfold analyzeDispatch
  split_ifs with h
  · obtain ⟨b, u, t⟩ := X
    obtain ⟨h1, h2, h3⟩ := hX
    simp only [ExceptionInfo.getBehaviour] at h
    simp only [ExceptionInfo.Invariant] at *
    have ht : t = ∅ := by
      by_contra hne
      have := h1 (Finset.nonempty_iff_ne_empty.2 hne)
      rcases h with h | h <;> simp_all
    subst ht
    rcases h with h | h
    · simp [h, h3 h]
    · simp [h, h2 h]
  · exact invariant_filterIgnoredExceptions _ _ _

/-! ## Theorems: `merge` -/

/-- C1: after `X.merge(Y)` the behaviour is `Throwing` if `X` or `Y` was `Throwing`,
otherwise `Unknown` if `X` or `Y` was `Unknown`, otherwise `NotThrowing`. -/
theorem merge_behaviour (X Y : ExceptionInfo) :
    (X.merge Y).Behaviour =
      if X.Behaviour = State.Throwing ∨ Y.Behaviour = State.Throwing then State.Throwing
      else if X.Behaviour = State.Unknown ∨ Y.Behaviour = State.Unknown then State.Unknown
      else State.NotThrowing :=
  behaviour_merge X Y

/-- C2: after `X.merge(Y)` the thrown types are the union of the thrown types of the two
operands, whatever the behaviours are, and `containsUnknown` is the logical or of the
two flags. -/
theorem merge_thrownTypes_containsUnknown (X Y : ExceptionInfo) :
    (X.merge Y).ThrownExceptions = X.ThrownExceptions ∪ Y.ThrownExceptions ∧
      (X.merge Y).ContainsUnknown = (X.ContainsUnknown || Y.ContainsUnknown) :=
  ⟨rfl, rfl⟩

/-- C3: on the behaviour, `merge` is associative and commutative. -/
theorem merge_behaviour_assoc_comm (X Y Z : ExceptionInfo) :
    ((X.merge Y).merge Z).Behaviour = (X.merge (Y.merge Z)).Behaviour ∧
      (X.merge Y).Behaviour = (Y.merge X).Behaviour := by
  obtain ⟨bx, ux, tx⟩ := X
  obtain ⟨by_, uy, ty⟩ := Y
  obtain ⟨bz, uz, tz⟩ := Z
  cases bx <;> cases by_ <;> cases bz <;> simp [ExceptionInfo.merge]

/-- C4: `merge` is idempotent: `X.merge(X)` has the thrown types, the behaviour and the
`containsUnknown` flag of `X`. -/
theorem merge_self (X : ExceptionInfo) :
    (X.merge X).ThrownExceptions = X.ThrownExceptions ∧
      (X.merge X).Behaviour = X.Behaviour ∧
      (X.merge X).ContainsUnknown = X.ContainsUnknown := by
  obtain ⟨bx, ux, tx⟩ := X
  cases bx <;> simp [ExceptionInfo.merge]

/-! ## Theorems: throw expressions -/

/-- C7: a rethrow analysed with caught context `C` yields a summary whose thrown types
are exactly `C`, with behaviour `Throwing` when `C` is non-empty and `NotThrowing` when
`C` is empty; the call stack is left as it was. -/
theorem rethrow_registers_caught {n : Nat}
    (callee : Fin n → CallStack n → Option (ExceptionInfo × CallStack n))
    (C : Throwables) (CS : CallStack n) :
    ∃ R, throwsExceptionStmt callee (Stmt.cxxThrowExpr none) C CS = some (R, CS) ∧
      R.ThrownExceptions = C ∧
      R.Behaviour = (if C = ∅ then State.NotThrowing else State.Throwing) := by
  refine ⟨ExceptionInfo.createNotThrowing.registerExceptions C, ?_, ?_, ?_⟩
  · simp [throwsExceptionStmt]
  · by_cases h : C = ∅
    · simp [ExceptionInfo.registerExceptions, ExceptionInfo.createNotThrowing, h]
    · simp [ExceptionInfo.registerExceptions, ExceptionInfo.createNotThrowing, h]
  · by_cases h : C = ∅
    · simp [ExceptionInfo.registerExceptions, ExceptionInfo.createNotThrowing, h]
    · simp [ExceptionInfo.registerExceptions, ExceptionInfo.createNotThrowing, h]

/-! ## Theorems: try statements -/

/-- On a node whose operand has the reference type `int &`, the summary is `Throwing` with
the single thrown type `int &`: the local that lines 172-177 of the source compute is not
the registered one. The host never gives an expression a reference type, so the analysis
does not receive such a node. -/
theorem throw_reference_operand_registers_reference :
    throwsExceptionStmt noCallee throwIntRef ∅ ∅
        = some (⟨State.Throwing, false, {intRefType}⟩, ∅) ∧
      intRefType.getUnqualifiedDesugaredType.getPointeeType.getTypePtr.getUnqualifiedDesugaredType
        = intType ∧
      intRefType ≠ intType := by
  decide

theorem getUnqualifiedDesugaredType_isReferenceType (T : CType) :
    T.getUnqualifiedDesugaredType.isReferenceType = T.isReferenceType := by
  induction T with
  | typedefSugar name quals underlying ih =>
      simpa [CType.getUnqualifiedDesugaredType, CType.isReferenceType] using ih
  | _ => rfl

theorem strippedOperandType_of_not_reference (Operand : QualType)
    (h : Operand.getTypePtr.isReferenceType = false) :
    strippedOperandType Operand = Operand.getTypePtr.getUnqualifiedDesugaredType := by
  have h1 : Operand.getTypePtr.getUnqualifiedDesugaredType.isReferenceType = false := by
    rw [getUnqualifiedDesugaredType_isReferenceType]; exact h
  simp only [strippedOperandType, h1, Bool.false_eq_true, if_false]

/-- C6: a throw expression with an operand is summarised as `Throwing` with exactly one
thrown type, the type of the operand stripped of sugar, top-level qualifiers and a
reference, and `containsUnknown` false. The operand is an expression, and the host gives
no expression a reference type (the hypothesis); the registered type is then not a
reference and does not depend on the top-level qualifiers of the operand. The body of
`void f() { throw int(1); }` is `Throwing` with thrown types `{int}`. -/
theorem throw_operand_registers_stripped_type {n : Nat}
    (callee : Fin n → CallStack n → Option (ExceptionInfo × CallStack n))
    (Operand : QualType) (Caught : Throwables) (CS : CallStack n)
    (hOperand : Operand.getTypePtr.isReferenceType = false) :
    throwsExceptionStmt callee (Stmt.cxxThrowExpr (some Operand)) Caught CS
        = some (⟨State.Throwing, false, {strippedOperandType Operand}⟩, CS) ∧
      (strippedOperandType Operand).isReferenceType = false ∧
      (∀ Q, strippedOperandType ⟨Q, Operand.ty⟩ = strippedOperandType Operand) ∧
      analyzeStmt emptyUnit ⟨∅, false, []⟩ throwInt
        = some ⟨State.Throwing, false, {intType}⟩ := by
  have hs := strippedOperandType_of_not_reference Operand hOperand
  refine ⟨?_, ?_, fun Q => rfl, by decide⟩
  · rw [hs]
    simp [throwsExceptionStmt, ExceptionInfo.registerException,
      ExceptionInfo.createNotThrowing]
  · rw [hs, getUnqualifiedDesugaredType_isReferenceType]
    exact hOperand

/-- C6, at operands of type `const int` and of type `const Alias` with
`typedef volatile int Alias;`: both register `int`. -/
theorem throw_operand_registers_stripped_type_witness :
    constAliasQualType.getTypePtr.isReferenceType = false ∧
      strippedOperandType constAliasQualType = intType ∧
      throwsExceptionStmt noCallee (Stmt.cxxThrowExpr (some constIntQualType)) ∅ ∅
        = some (⟨State.Throwing, false, {intType}⟩, ∅) ∧
      (throwsExceptionStmt noCallee (Stmt.cxxThrowExpr (some constAliasQualType)) ∅ ∅
          = some (⟨State.Throwing, false, {strippedOperandType constAliasQualType}⟩, ∅) ∧
        (strippedOperandType constAliasQualType).isReferenceType = false ∧
        (∀ Q, strippedOperandType ⟨Q, constAliasQualType.ty⟩
          = strippedOperandType constAliasQualType) ∧
        analyzeStmt emptyUnit ⟨∅, false, []⟩ throwInt
          = some ⟨State.Throwing, false, {intType}⟩) :=
  ⟨rfl, by decide, by decide,
   throw_operand_registers_stripped_type noCallee constAliasQualType ∅ ∅ rfl⟩

/-- C9: a try statement whose only handler is a catch-all has the summary of the handler
block analysed with the thrown types of the guarded block as rethrow context; when the
handler block contains no throw expression and no call, the summary is `NotThrowing`
with no thrown type and `containsUnknown` false, whatever the guarded block yields. -/
theorem try_with_catch_all_only {n : Nat}
    (callee : Fin n → CallStack n → Option (ExceptionInfo × CallStack n))
    (tryBlock handlerBlock : Stmt n) (Caught : Throwables) (CS : CallStack n) :
    throwsExceptionStmt callee (Stmt.cxxTryStmt tryBlock [(none, handlerBlock)]) Caught CS
        = (match throwsExceptionStmt callee tryBlock Caught CS with
           | none => none
           | some (Uncaught, CS1) =>
               throwsExceptionStmt callee handlerBlock Uncaught.ThrownExceptions CS1) ∧
      (handlerBlock.throwsAndCallsNothing = true →
        throwsExceptionStmt callee (Stmt.cxxTryStmt tryBlock [(none, handlerBlock)]) Caught CS
          = (throwsExceptionStmt callee tryBlock Caught CS).map
              (fun p => (⟨State.NotThrowing, false, ∅⟩, p.2))) := by
  have key : throwsExceptionStmt callee (Stmt.cxxTryStmt tryBlock [(none, handlerBlock)]) Caught CS
        = (match throwsExceptionStmt callee tryBlock Caught CS with
           | none => none
           | some (Uncaught, CS1) =>
               throwsExceptionStmt callee handlerBlock Uncaught.ThrownExceptions CS1) := by
    simp only [throwsExceptionStmt]
    cases hb : throwsExceptionStmt callee tryBlock Caught CS with
    | none => rfl
    | some p =>
      obtain ⟨Uncaught, CS1⟩ := p
      simp only [handlersLoop, ExceptionInfo.getExceptionTypes]
      cases hh : throwsExceptionStmt callee handlerBlock Uncaught.ThrownExceptions CS1 with
      | none => rfl
      | some r =>
        obtain ⟨Rethrown, CS2⟩ := r
        simp only [merge_createNotThrowing_left, clear_eq_createNotThrowing,
          merge_createNotThrowing_right]
  refine ⟨key, fun hfree => ?_⟩
  rw [key]
  cases hb : throwsExceptionStmt callee tryBlock Caught CS with
  | none => rfl
  | some p =>
    obtain ⟨Uncaught, CS1⟩ := p
    simp only [Option.map_some']
    exact throwsExceptionStmt_of_throwsAndCallsNothing callee handlerBlock _ CS1 hfree

/-- C9, at `tryCatchBody` of the test file: the handler block only returns, and the
summary of the try statement is the neutral one although the guarded block throws. -/
theorem try_with_catch_all_only_witness :
    returnOnly.throwsAndCallsNothing = true ∧
      throwsExceptionStmt noCallee tryCatchBody ∅ ∅
        = some (⟨State.NotThrowing, false, ∅⟩, ∅) :=
  ⟨by decide,
   ((try_with_catch_all_only noCallee guardedThrowInt returnOnly ∅ ∅).2 (by decide)).trans
     (by decide)⟩

/-- C10: in a try statement made of typed handlers followed by a catch-all handler whose
block is a bare rethrow, the catch-all contributes exactly the thrown types of the
guarded block that no preceding typed handler removed in its filter step: the summary is
the result of the typed handlers merged with a summary whose thrown types are these. -/
theorem catch_all_rethrow_after_typed_handlers {n : Nat}
    (callee : Fin n → CallStack n → Option (ExceptionInfo × CallStack n))
    (tryBlock : Stmt n) (hs : List (QualType × Stmt n)) (Caught : Throwables)
    (CS CS0 CS1 : CallStack n) (Uncaught R1 U1 : ExceptionInfo)
    (hblock : throwsExceptionStmt callee tryBlock Caught CS = some (Uncaught, CS0))
    (hloop : handlersLoop callee (typedHandlers hs) ExceptionInfo.createNotThrowing Uncaught CS0
              = some (R1, U1, CS1)) :
    ∃ Rethrown,
      throwsExceptionStmt callee (Stmt.cxxThrowExpr none) U1.getExceptionTypes CS1
          = some (Rethrown, CS1) ∧
      Rethrown.ThrownExceptions = survivingTypes hs Uncaught.ThrownExceptions ∧
      throwsExceptionStmt callee
          (Stmt.cxxTryStmt tryBlock (typedHandlers hs ++ [(none, Stmt.cxxThrowExpr none)]))
          Caught CS
        = some (R1.merge Rethrown, CS1) ∧
      (R1.merge Rethrown).ThrownExceptions
        = R1.ThrownExceptions ∪ survivingTypes hs Uncaught.ThrownExceptions := by
  have hU1 := (handlersLoop_typedHandlers_uncaught callee hs _ _ _ _ _ _ hloop).1
  have hre : (ExceptionInfo.createNotThrowing.registerExceptions U1.getExceptionTypes).ThrownExceptions
      = survivingTypes hs Uncaught.ThrownExceptions := by
    rw [← hU1]
    unfold ExceptionInfo.registerExceptions ExceptionInfo.getExceptionTypes
    split_ifs with h0
    · rw [Finset.card_eq_zero] at h0
      rw [h0]; rfl
    · simp [ExceptionInfo.createNotThrowing]
  refine ⟨ExceptionInfo.createNotThrowing.registerExceptions U1.getExceptionTypes, ?_, hre, ?_, ?_⟩
  · simp only [throwsExceptionStmt]
  · simp only [throwsExceptionStmt, hblock, handlersLoop_append, hloop, handlersLoop,
      clear_eq_createNotThrowing, merge_createNotThrowing_right]
  · simp only [ExceptionInfo.merge, hre]

/-- C10, at `try { throw int(1); throw Derived(); } catch (Base &) {} catch (...) { throw; }`:
the catch-all rethrows `int` only. -/
theorem catch_all_rethrow_after_typed_handlers_witness :
    (∃ Rethrown,
      throwsExceptionStmt noCallee (Stmt.cxxThrowExpr none) {intType} ∅ = some (Rethrown, ∅) ∧
      Rethrown.ThrownExceptions
        = survivingTypes catchBaseRef {intType, CType.record derivedDecl} ∧
      throwsExceptionStmt noCallee
          (Stmt.cxxTryStmt throwIntAndDerived
            (typedHandlers catchBaseRef ++ [(none, Stmt.cxxThrowExpr none)])) ∅ ∅
        = some (ExceptionInfo.createNotThrowing.merge Rethrown, ∅) ∧
      (ExceptionInfo.createNotThrowing.merge Rethrown).ThrownExceptions
        = ∅ ∪ survivingTypes catchBaseRef {intType, CType.record derivedDecl}) ∧
      survivingTypes catchBaseRef {intType, CType.record derivedDecl} = {intType} :=
  ⟨catch_all_rethrow_after_typed_handlers noCallee throwIntAndDerived catchBaseRef ∅ ∅ ∅ ∅
    ⟨State.Throwing, false, {intType, CType.record derivedDecl}⟩
    ExceptionInfo.createNotThrowing ⟨State.Throwing, false, {intType}⟩ (by decide) (by decide),
   by decide⟩

mutual
theorem throwsExceptionStmt_returns {n : Nat}
    (callee : Fin n → CallStack n → Option (ExceptionInfo × CallStack n)) (CS : CallStack n)
    (hcallee : ∀ Func, ∃ R, callee Func CS = some (R, CS) ∧ R.Consistent) :
    ∀ (St : Stmt n) (Caught : Throwables),
      ∃ R, throwsExceptionStmt callee St Caught CS = some (R, CS) ∧ R.Consistent
  | .null, _ => ⟨_, by simp only [throwsExceptionStmt], consistent_createNotThrowing⟩
  | .cxxThrowExpr (some q), _ =>
      ⟨ExceptionInfo.createNotThrowing.registerException
          q.getTypePtr.getUnqualifiedDesugaredType,
        by simp only [throwsExceptionStmt], consistent_registerException _ _⟩
  | .cxxThrowExpr none, Caught =>
      ⟨ExceptionInfo.createNotThrowing.registerExceptions Caught,
        by simp only [throwsExceptionStmt],
        consistent_registerExceptions _ _ consistent_createNotThrowing⟩
  | .cxxTryStmt tryBlock handlers, Caught => by
      obtain ⟨U, hU, hUc⟩ := throwsExceptionStmt_returns callee CS hcallee tryBlock Caught
      obtain ⟨R1, U1, hl, hR1, hU1⟩ :=
        handlersLoop_returns callee CS hcallee handlers _ U consistent_createNotThrowing hUc
      exact ⟨R1.merge U1, by simp only [throwsExceptionStmt, hU, hl], consistent_merge _ _ hR1 hU1⟩
  | .callExpr (some Func) _, _ => by
      obtain ⟨R, hR, hRc⟩ := hcallee Func
      exact ⟨_, by simp only [throwsExceptionStmt, hR],
        consistent_merge _ _ consistent_createNotThrowing hRc⟩
  | .callExpr none _, _ => ⟨_, by simp only [throwsExceptionStmt], consistent_createNotThrowing⟩
  | .other children, Caught => by
      simp only [throwsExceptionStmt]
      exact childrenLoop_returns callee CS hcallee children Caught _ consistent_createNotThrowing
theorem handlersLoop_returns {n : Nat}
    (callee : Fin n → CallStack n → Option (ExceptionInfo × CallStack n)) (CS : CallStack n)
    (hcallee : ∀ Func, ∃ R, callee Func CS = some (R, CS) ∧ R.Consistent) :
    ∀ (handlers : List (Option QualType × Stmt n)) (Results Uncaught : ExceptionInfo),
      Results.Consistent → Uncaught.Consistent →
      ∃ R1 U1, handlersLoop callee handlers Results Uncaught CS = some (R1, U1, CS) ∧
        R1.Consistent ∧ U1.Consistent
  | [], Results, Uncaught, hR, hU => ⟨Results, Uncaught, by simp only [handlersLoop], hR, hU⟩
  | (none, handlerBlock) :: rest, Results, Uncaught, hR, hU => by
      obtain ⟨Re, hRe, hRec⟩ :=
        throwsExceptionStmt_returns callee CS hcallee handlerBlock Uncaught.getExceptionTypes
      simp only [handlersLoop, hRe]
      exact handlersLoop_returns callee CS hcallee rest _ _ (consistent_merge _ _ hR hRec)
        consistent_createNotThrowing
  | (some q, handlerBlock) :: rest, Results, Uncaught, hR, hU => by
      have hF : (Uncaught.filterByCatch (caughtTypeOf q)).2.Consistent :=
        consistent_of_invariant _ (invariant_filterByCatch _ _)
      obtain ⟨Re, hRe, hRec⟩ :=
        throwsExceptionStmt_returns callee CS hcallee handlerBlock {caughtTypeOf q}
      simp only [handlersLoop, hRe]
      split_ifs
      · exact handlersLoop_returns callee CS hcallee rest _ _ (consistent_merge _ _ hR hRec) hF
      · exact handlersLoop_returns callee CS hcallee rest _ _ hR hF
theorem childrenLoop_returns {n : Nat}
    (callee : Fin n → CallStack n → Option (ExceptionInfo × CallStack n)) (CS : CallStack n)
    (hcallee : ∀ Func, ∃ R, callee Func CS = some (R, CS) ∧ R.Consistent) :
    ∀ (children : List (Stmt n)) (Caught : Throwables) (Results : ExceptionInfo),
      Results.Consistent →
      ∃ R, childrenLoop callee children Caught Results CS = some (R, CS) ∧ R.Consistent
  | [], _, Results, hR => ⟨Results, by simp only [childrenLoop], hR⟩
  | Child :: rest, Caught, Results, hR => by
      obtain ⟨E, hE, hEc⟩ := throwsExceptionStmt_returns callee CS hcallee Child Caught
      simp only [childrenLoop, hE]
      exact childrenLoop_returns callee CS hcallee rest Caught _ (consistent_merge _ _ hR hEc)
end

theorem throwsExceptionFunc_returns {n : Nat} (TU : TranslationUnit n) :
    ∀ (fuel : Nat) (Func : Fin n) (CS : CallStack n),
      (Finset.univ \ CS).card < fuel →
      ∃ R, throwsExceptionFunc TU fuel Func CS = some (R, CS) ∧ R.Consistent := by
  intro fuel
  induction fuel with
  | zero => intro Func CS h; exact absurd h (Nat.not_lt_zero _)
  | succ fuel ih =>
    intro Func CS hfuel
    by_cases hmem : Func ∈ CS
    · exact ⟨_, by simp only [throwsExceptionFunc, hmem, if_true], consistent_createNotThrowing⟩
    · have hlt : (Finset.univ \ insert Func CS).card < fuel := by
        have hsub : (Finset.univ \ insert Func CS) ⊂ (Finset.univ \ CS) := by
          rw [Finset.ssubset_iff_of_subset
            (Finset.sdiff_subset_sdiff (Finset.Subset.refl _) (Finset.subset_insert _ _))]
          exact ⟨Func, by simp [hmem], by simp⟩
        have := Finset.card_lt_card hsub
        omega
      have hcallee : ∀ G, ∃ R, throwsExceptionFunc TU fuel G (insert Func CS)
          = some (R, insert Func CS) ∧ R.Consistent := fun G => ih G _ hlt
      cases hbody : (TU Func).getBody with
      | null =>
        exact ⟨inferFromDeclaration (TU Func).getProto,
          by simp only [throwsExceptionFunc, hmem, if_false, hbody],
          consistent_inferFromDeclaration _⟩
      | cxxThrowExpr t =>
        obtain ⟨R, hR, hRc⟩ :=
          throwsExceptionStmt_returns _ _ hcallee (Stmt.cxxThrowExpr t) ∅
        exact ⟨R, by simp only [throwsExceptionFunc, hmem, if_false, hbody, hR,
          Finset.erase_insert hmem], hRc⟩
      | cxxTryStmt b hs =>
        obtain ⟨R, hR, hRc⟩ :=
          throwsExceptionStmt_returns _ _ hcallee (Stmt.cxxTryStmt b hs) ∅
        exact ⟨R, by simp only [throwsExceptionFunc, hmem, if_false, hbody, hR,
          Finset.erase_insert hmem], hRc⟩
      | callExpr c ch =>
        obtain ⟨R, hR, hRc⟩ :=
          throwsExceptionStmt_returns _ _ hcallee (Stmt.callExpr c ch) ∅
        exact ⟨R, by simp only [throwsExceptionFunc, hmem, if_false, hbody, hR,
          Finset.erase_insert hmem], hRc⟩
      | other ch =>
        obtain ⟨R, hR, hRc⟩ :=
          throwsExceptionStmt_returns _ _ hcallee (Stmt.other ch) ∅
        exact ⟨R, by simp only [throwsExceptionFunc, hmem, if_false, hbody, hR,
          Finset.erase_insert hmem], hRc⟩

theorem throwsExceptionFunc_top_returns {n : Nat} (TU : TranslationUnit n) (Func : Fin n) :
    ∃ R, throwsExceptionFunc TU (n + 1) Func ∅ = some (R, ∅) ∧ R.Consistent :=
  throwsExceptionFunc_returns TU (n + 1) Func ∅ (by simp)

theorem consistent_of_reachable_cache {n : Nat} (TU : TranslationUnit n) (A : Analyzer n)
    (hA : ReachableAnalyzer TU A) :
    ∀ Func R, A.FunctionCache.lookup Func = some R → R.Consistent := by
  induction hA with
  | fresh Ign Bad => intro Func R h; simp at h
  | afterAnalyze A A1 G R0 _ hstep ih =>
    intro Func R h
    unfold analyzeFunc analyzeImplFunc at hstep
    cases hl : A.FunctionCache.lookup G with
    | some E =>
      simp only [hl, Option.some.injEq, Prod.mk.injEq] at hstep
      rw [← hstep.2] at h
      exact ih Func R h
    | none =>
      obtain ⟨E, hE, hEc⟩ := throwsExceptionFunc_top_returns TU G
      simp only [hl, hE, Option.some.injEq, Prod.mk.injEq] at hstep
      rw [← hstep.2] at h
      simp only [List.lookup_cons] at h
      cases hb : (Func == G) with
      | true =>
        simp only [hb, Option.some.injEq] at h
        rw [← h]; exact hEc
      | false =>
        simp only [hb] at h
        exact ih Func R h

/-! ## Theorem: the public queries -/

/-- C5: within an analysis pass, every query `analyze(function)` and `analyze(statement)`
returns a summary, and the summary satisfies the data-model invariant: its behaviour is
`Throwing` exactly when a type is thrown, and with no thrown type it is `Unknown` if
`containsUnknown` is set and `NotThrowing` otherwise. -/
theorem analyze_satisfies_invariant {n : Nat} (TU : TranslationUnit n) (A : Analyzer n)
    (hA : ReachableAnalyzer TU A) (Func : Fin n) (St : Stmt n) :
    (∃ R A1, analyzeFunc TU A Func = some (R, A1) ∧ R.Invariant) ∧
      (∃ R, analyzeStmt TU A St = some R ∧ R.Invariant) := by
  constructor
  · unfold analyzeFunc analyzeImplFunc
    cases hl : A.FunctionCache.lookup Func with
    | some E =>
      exact ⟨_, _, rfl, invariant_analyzeDispatch A E (consistent_of_reachable_cache TU A hA Func E hl)⟩
    | none =>
      obtain ⟨E, hE, hEc⟩ := throwsExceptionFunc_top_returns TU Func
      simp only [hE]
      exact ⟨_, _, rfl, invariant_analyzeDispatch A E hEc⟩
  · unfold analyzeStmt analyzeImplStmt
    obtain ⟨E, hE, hEc⟩ := throwsExceptionStmt_returns (throwsExceptionFunc TU (n + 1)) ∅
      (fun G => throwsExceptionFunc_top_returns TU G) St ∅
    simp only [hE]
    exact ⟨_, rfl, invariant_analyzeDispatch A E hEc⟩

/-- C5, at the lambda `L8` of the test file, queried on a fresh analyzer: the summary
returned for the function and the one returned for its body satisfy the invariant. -/
theorem analyze_satisfies_invariant_witness :
    ReachableAnalyzer lambdaL8Unit ⟨∅, false, []⟩ ∧
      (∃ R A1, analyzeFunc lambdaL8Unit ⟨∅, false, []⟩ 0 = some (R, A1) ∧ R.Invariant) ∧
      (∃ R, analyzeStmt lambdaL8Unit ⟨∅, false, []⟩ (lambdaL8Unit 0).getBody = some R ∧
        R.Invariant) :=
  ⟨ReachableAnalyzer.fresh ∅ false,
   analyze_satisfies_invariant lambdaL8Unit ⟨∅, false, []⟩ (ReachableAnalyzer.fresh ∅ false) 0
     (lambdaL8Unit 0).getBody⟩

/-! ## Helper lemmas: unfolding the function analysis, the call stack, the cache -/

theorem throwsExceptionFunc_onStack {n : Nat} (TU : TranslationUnit n) (fuel : Nat)
    (Func : Fin n) (CS : CallStack n) (h : Func ∈ CS) :
    throwsExceptionFunc TU (fuel + 1) Func CS = some (ExceptionInfo.createNotThrowing, CS) := by
  simp only [throwsExceptionFunc, h, if_true]

theorem throwsExceptionFunc_declaration {n : Nat} (TU : TranslationUnit n) (fuel : Nat)
    (Func : Fin n) (CS : CallStack n) (h : Func ∉ CS) (hbody : (TU Func).getBody = Stmt.null) :
    throwsExceptionFunc TU (fuel + 1) Func CS
      = some (inferFromDeclaration (TU Func).getProto, CS) := by
  simp only [throwsExceptionFunc, h, if_false, hbody]

theorem throwsExceptionFunc_definition {n : Nat} (TU : TranslationUnit n) (fuel : Nat)
    (Func : Fin n) (CS : CallStack n) (h : Func ∉ CS) (hbody : (TU Func).getBody ≠ Stmt.null) :
    throwsExceptionFunc TU (fuel + 1) Func CS
      = (throwsExceptionStmt (throwsExceptionFunc TU fuel) (TU Func).getBody ∅
          (insert Func CS)).map (fun p => (p.1, p.2.erase Func)) := by
  cases hb : (TU Func).getBody with
  | null => exact absurd hb hbody
  | cxxThrowExpr t =>
    simp only [throwsExceptionFunc, h, if_false, hb]
    cases throwsExceptionStmt (throwsExceptionFunc TU fuel) (Stmt.cxxThrowExpr t) ∅
      (insert Func CS) <;> rfl
  | cxxTryStmt b hs =>
    simp only [throwsExceptionFunc, h, if_false, hb]
    cases throwsExceptionStmt (throwsExceptionFunc TU fuel) (Stmt.cxxTryStmt b hs) ∅
      (insert Func CS) <;> rfl
  | callExpr c ch =>
    simp only [throwsExceptionFunc, h, if_false, hb]
    cases throwsExceptionStmt (throwsExceptionFunc TU fuel) (Stmt.callExpr c ch) ∅
      (insert Func CS) <;> rfl
  | other ch =>
    simp only [throwsExceptionFunc, h, if_false, hb]
    cases throwsExceptionStmt (throwsExceptionFunc TU fuel) (Stmt.other ch) ∅
      (insert Func CS) <;> rfl

mutual
theorem throwsExceptionStmt_stack {n : Nat}
    (callee : Fin n → CallStack n → Option (ExceptionInfo × CallStack n))
    (hcallee : ∀ G CS R CS1, callee G CS = some (R, CS1) → CS1 = CS) :
    ∀ (St : Stmt n) (Caught : Throwables) (CS : CallStack n) (R : ExceptionInfo)
      (CS1 : CallStack n),
      throwsExceptionStmt callee St Caught CS = some (R, CS1) → CS1 = CS
  | .null, _, _, _, _, h => by
      simp only [throwsExceptionStmt, Option.some.injEq, Prod.mk.injEq] at h
      exact h.2.symm
  | .cxxThrowExpr (some q), _, _, _, _, h => by
      simp only [throwsExceptionStmt, Option.some.injEq, Prod.mk.injEq] at h
      exact h.2.symm
  | .cxxThrowExpr none, _, _, _, _, h => by
      simp only [throwsExceptionStmt, Option.some.injEq, Prod.mk.injEq] at h
      exact h.2.symm
  | .cxxTryStmt tryBlock handlers, Caught, CS, R, CS1, h => by
      simp only [throwsExceptionStmt] at h
      cases hb : throwsExceptionStmt callee tryBlock Caught CS with
      | none => simp [hb] at h
      | some p =>
        obtain ⟨U, CS0⟩ := p
        have h0 := throwsExceptionStmt_stack callee hcallee tryBlock Caught CS U CS0 hb
        subst h0
        simp only [hb] at h
        cases hl : handlersLoop callee handlers ExceptionInfo.createNotThrowing U CS0 with
        | none => simp [hl] at h
        | some r =>
          obtain ⟨R1, U1, CS2⟩ := r
          simp only [hl, Option.some.injEq, Prod.mk.injEq] at h
          rw [← h.2]
          exact handlersLoop_stack callee hcallee handlers _ _ CS0 R1 U1 CS2 hl
  | .callExpr (some Func) _, _, CS, R, CS1, h => by
      simp only [throwsExceptionStmt] at h
      cases hc : callee Func CS with
      | none => simp [hc] at h
      | some p =>
        obtain ⟨E, CS0⟩ := p
        simp only [hc, Option.some.injEq, Prod.mk.injEq] at h
        rw [← h.2]
        exact hcallee Func CS E CS0 hc
  | .callExpr none _, _, _, _, _, h => by
      simp only [throwsExceptionStmt, Option.some.injEq, Prod.mk.injEq] at h
      exact h.2.symm
  | .other children, Caught, CS, R, CS1, h => by
      simp only [throwsExceptionStmt] at h
      exact childrenLoop_stack callee hcallee children Caught _ CS R CS1 h
theorem handlersLoop_stack {n : Nat}
    (callee : Fin n → CallStack n → Option (ExceptionInfo × CallStack n))
    (hcallee : ∀ G CS R CS1, callee G CS = some (R, CS1) → CS1 = CS) :
    ∀ (handlers : List (Option QualType × Stmt n)) (Results Uncaught : ExceptionInfo)
      (CS : CallStack n) (R1 U1 : ExceptionInfo) (CS1 : CallStack n),
      handlersLoop callee handlers Results Uncaught CS = some (R1, U1, CS1) → CS1 = CS
  | [], _, _, _, _, _, _, h => by
      simp only [handlersLoop, Option.some.injEq, Prod.mk.injEq] at h
      exact h.2.2.symm
  | (none, handlerBlock) :: rest, Results, Uncaught, CS, R1, U1, CS1, h => by
      simp only [handlersLoop] at h
      cases hb : throwsExceptionStmt callee handlerBlock Uncaught.getExceptionTypes CS with
      | none => simp [hb] at h
      | some p =>
        obtain ⟨Re, CS0⟩ := p
        have h0 := throwsExceptionStmt_stack callee hcallee handlerBlock _ CS Re CS0 hb
        subst h0
        simp only [hb] at h
        exact handlersLoop_stack callee hcallee rest _ _ CS0 R1 U1 CS1 h
  | (some q, handlerBlock) :: rest, Results, Uncaught, CS, R1, U1, CS1, h => by
      simp only [handlersLoop] at h
      split_ifs at h
      · cases hb : throwsExceptionStmt callee handlerBlock {caughtTypeOf q} CS with
        | none => simp [hb] at h
        | some p =>
          obtain ⟨Re, CS0⟩ := p
          have h0 := throwsExceptionStmt_stack callee hcallee handlerBlock _ CS Re CS0 hb
          subst h0
          simp only [hb] at h
          exact handlersLoop_stack callee hcallee rest _ _ CS0 R1 U1 CS1 h
      · exact handlersLoop_stack callee hcallee rest _ _ CS R1 U1 CS1 h
theorem childrenLoop_stack {n : Nat}
    (callee : Fin n → CallStack n → Option (ExceptionInfo × CallStack n))
    (hcallee : ∀ G CS R CS1, callee G CS = some (R, CS1) → CS1 = CS) :
    ∀ (children : List (Stmt n)) (Caught : Throwables) (Results : ExceptionInfo)
      (CS : CallStack n) (R : ExceptionInfo) (CS1 : CallStack n),
      childrenLoop callee children Caught Results CS = some (R, CS1) → CS1 = CS
  | [], _, _, _, _, _, h => by
      simp only [childrenLoop, Option.some.injEq, Prod.mk.injEq] at h
      exact h.2.symm
  | Child :: rest, Caught, Results, CS, R, CS1, h => by
      simp only [childrenLoop] at h
      cases hb : throwsExceptionStmt callee Child Caught CS with
      | none => simp [hb] at h
      | some p =>
        obtain ⟨E, CS0⟩ := p
        have h0 := throwsExceptionStmt_stack callee hcallee Child Caught CS E CS0 hb
        subst h0
        simp only [hb] at h
        exact childrenLoop_stack callee hcallee rest Caught _ CS0 R CS1 h
end

theorem throwsExceptionFunc_stack {n : Nat} (TU : TranslationUnit n) :
    ∀ (fuel : Nat) (Func : Fin n) (CS : CallStack n) (R : ExceptionInfo) (CS1 : CallStack n),
      throwsExceptionFunc TU fuel Func CS = some (R, CS1) → CS1 = CS := by
  intro fuel
  induction fuel with
  | zero => intro Func CS R CS1 h; simp [throwsExceptionFunc] at h
  | succ fuel ih =>
    intro Func CS R CS1 h
    by_cases hmem : Func ∈ CS
    · rw [throwsExceptionFunc_onStack TU fuel Func CS hmem] at h
      simp only [Option.some.injEq, Prod.mk.injEq] at h
      exact h.2.symm
    · by_cases hbody : (TU Func).getBody = Stmt.null
      · rw [throwsExceptionFunc_declaration TU fuel Func CS hmem hbody] at h
        simp only [Option.some.injEq, Prod.mk.injEq] at h
        exact h.2.symm
      · rw [throwsExceptionFunc_definition TU fuel Func CS hmem hbody] at h
        cases hs : throwsExceptionStmt (throwsExceptionFunc TU fuel) (TU Func).getBody ∅
            (insert Func CS) with
        | none => simp [hs] at h
        | some p =>
          obtain ⟨E, CS0⟩ := p
          have h0 := throwsExceptionStmt_stack _ ih _ _ _ _ _ hs
          simp only [hs, Option.map_some', Option.some.injEq, Prod.mk.injEq] at h
          rw [← h.2, h0]
          exact Finset.erase_insert hmem

theorem cache_lookup_of_reachable {n : Nat} (TU : TranslationUnit n) (A : Analyzer n)
    (hA : ReachableAnalyzer TU A) :
    ∀ Func R, A.FunctionCache.lookup Func = some R →
      throwsExceptionFunc TU (n + 1) Func ∅ = some (R, ∅) := by
  induction hA with
  | fresh Ign Bad => intro Func R h; simp at h
  | afterAnalyze A A1 G R0 _ hstep ih =>
    intro Func R h
    unfold analyzeFunc analyzeImplFunc at hstep
    cases hl : A.FunctionCache.lookup G with
    | some E =>
      simp only [hl, Option.some.injEq, Prod.mk.injEq] at hstep
      rw [← hstep.2] at h
      exact ih Func R h
    | none =>
      obtain ⟨E, hE, -⟩ := throwsExceptionFunc_top_returns TU G
      simp only [hl, hE, Option.some.injEq, Prod.mk.injEq] at hstep
      rw [← hstep.2] at h
      simp only [List.lookup_cons] at h
      cases hb : (Func == G) with
      | true =>
        simp only [hb, Option.some.injEq] at h
        have hFG : Func = G := by simpa using hb
        rw [hFG, ← h]; exact hE
      | false =>
        simp only [hb] at h
        exact ih Func R h

theorem analyzeFunc_of_reachable {n : Nat} (TU : TranslationUnit n) (A : Analyzer n)
    (hA : ReachableAnalyzer TU A) (Func : Fin n) (E : ExceptionInfo)
    (hE : throwsExceptionFunc TU (n + 1) Func ∅ = some (E, ∅)) :
    analyzeFunc TU A Func
      = some (analyzeDispatch A E,
          if A.FunctionCache.lookup Func = none then
            { A with FunctionCache := (Func, E) :: A.FunctionCache }
          else A) := by
  unfold analyzeFunc analyzeImplFunc
  cases hl : A.FunctionCache.lookup Func with
  | some E1 =>
    have h1 := cache_lookup_of_reachable TU A hA Func E1 hl
    rw [hE] at h1
    simp only [Option.some.injEq, Prod.mk.injEq] at h1
    simp [h1.1]
  | none => simp [hE]

theorem throwsExceptionFunc_single_call {n : Nat} (TU : TranslationUnit n) (fuel : Nat)
    (f g : Fin n) (args : List (Stmt n)) (CS : CallStack n) (hfCS : f ∉ CS) (hgCS : g ∉ CS)
    (hf : (TU f).getBody = Stmt.other [Stmt.callExpr (some g) args])
    (hg : (TU g).getBody = Stmt.null) :
    throwsExceptionFunc TU (fuel + 2) f CS
      = some (inferFromDeclaration (TU g).getProto, CS) := by
  have hne : g ≠ f := by
    intro h
    rw [h, hf] at hg
    cases hg
  have hbody : (TU f).getBody ≠ Stmt.null := by rw [hf]; intro h; cases h
  have hgS : g ∉ insert f CS := by
    rw [Finset.mem_insert]
    rintro (h | h)
    · exact hne h
    · exact hgCS h
  rw [throwsExceptionFunc_definition TU (fuel + 1) f CS hfCS hbody, hf]
  simp only [throwsExceptionStmt, childrenLoop,
    throwsExceptionFunc_declaration TU fuel g (insert f CS) hgS hg,
    merge_createNotThrowing_left, Option.map_some', Finset.erase_insert hfCS]

theorem analyzeFunc_single_call {n : Nat} (TU : TranslationUnit n) (A : Analyzer n)
    (hA : ReachableAnalyzer TU A) (f g : Fin n) (args : List (Stmt n))
    (hf : (TU f).getBody = Stmt.other [Stmt.callExpr (some g) args])
    (hg : (TU g).getBody = Stmt.null) :
    ∃ A1, analyzeFunc TU A f
      = some (analyzeDispatch A (inferFromDeclaration (TU g).getProto), A1) := by
  cases n with
  | zero => exact f.elim0
  | succ m =>
    exact ⟨_, analyzeFunc_of_reachable TU A hA f _
      (throwsExceptionFunc_single_call TU m f g args ∅ (Finset.not_mem_empty f)
        (Finset.not_mem_empty g) hf hg)⟩

/-! ## Theorems: calls -/

/-- C11: a function whose body only calls a function without visible body and without
exception specification is summarised by `analyze` as `Unknown`, with no thrown type
and `containsUnknown` set; in particular its behaviour is not `NotThrowing`. -/
theorem call_of_unspecified_declaration {n : Nat} (TU : TranslationUnit n) (A : Analyzer n)
    (hA : ReachableAnalyzer TU A) (f g : Fin n) (args : List (Stmt n)) (dyn : List QualType)
    (hf : (TU f).getBody = Stmt.other [Stmt.callExpr (some g) args])
    (hg : (TU g).getBody = Stmt.null)
    (hspec : (TU g).getProto = some ⟨ExceptionSpecificationType.EST_None, dyn⟩) :
    ∃ R A1, analyzeFunc TU A f = some (R, A1) ∧
      R = ⟨State.Unknown, true, ∅⟩ ∧ R.Behaviour ≠ State.NotThrowing := by
  obtain ⟨A1, h⟩ := analyzeFunc_single_call TU A hA f g args hf hg
  refine ⟨_, A1, h, ?_, ?_⟩
  · rw [hspec]
    simp [inferFromDeclaration, FunctionProtoType.exceptions, ExceptionInfo.signalUnknown,
      ExceptionInfo.createNotThrowing, analyzeDispatch, ExceptionInfo.getBehaviour]
  · rw [hspec]
    simp [inferFromDeclaration, FunctionProtoType.exceptions, ExceptionInfo.signalUnknown,
      ExceptionInfo.createNotThrowing, analyzeDispatch, ExceptionInfo.getBehaviour]

/-- C11, at the lambda `L3` of the test file, `[]() { undefined(); }`. -/
theorem call_of_unspecified_declaration_witness :
    ∃ R A1, analyzeFunc lambdaL3Unit ⟨∅, false, []⟩ 0 = some (R, A1) ∧
      R = ⟨State.Unknown, true, ∅⟩ ∧ R.Behaviour ≠ State.NotThrowing :=
  call_of_unspecified_declaration lambdaL3Unit ⟨∅, false, []⟩ (ReachableAnalyzer.fresh ∅ false)
    0 1 [] [] rfl rfl rfl

/-- C12: a function whose body only calls a function without visible body whose
exception specification forbids throwing (`noexcept`, `noexcept(true)`, `throw()`) is
summarised by `analyze` as `NotThrowing` with no thrown type. -/
theorem call_of_nothrow_declaration {n : Nat} (TU : TranslationUnit n) (A : Analyzer n)
    (hA : ReachableAnalyzer TU A) (f g : Fin n) (args : List (Stmt n))
    (EST : ExceptionSpecificationType) (dyn : List QualType)
    (hf : (TU f).getBody = Stmt.other [Stmt.callExpr (some g) args])
    (hg : (TU g).getBody = Stmt.null)
    (hspec : (TU g).getProto = some ⟨EST, dyn⟩) (hEST : forbidsThrowing EST) :
    ∃ R A1, analyzeFunc TU A f = some (R, A1) ∧
      R.Behaviour = State.NotThrowing ∧ R.ThrownExceptions = ∅ := by
  obtain ⟨A1, h⟩ := analyzeFunc_single_call TU A hA f g args hf hg
  refine ⟨_, A1, h, ?_, ?_⟩
  · rw [hspec]
    rcases hEST with h1 | h1 | h1 <;> subst h1 <;>
      simp [inferFromDeclaration, FunctionProtoType.exceptions,
        ExceptionInfo.createNotThrowing, analyzeDispatch, ExceptionInfo.getBehaviour]
  · rw [hspec]
    rcases hEST with h1 | h1 | h1 <;> subst h1 <;>
      simp [inferFromDeclaration, FunctionProtoType.exceptions,
        ExceptionInfo.createNotThrowing, analyzeDispatch, ExceptionInfo.getBehaviour]

/-- C12, at the lambda `L4` of the test file, `[]() { undefinedNoexcept(); }`. -/
theorem call_of_nothrow_declaration_witness :
    ∃ R A1, analyzeFunc lambdaL4Unit ⟨∅, false, []⟩ 0 = some (R, A1) ∧
      R.Behaviour = State.NotThrowing ∧ R.ThrownExceptions = ∅ :=
  call_of_nothrow_declaration lambdaL4Unit ⟨∅, false, []⟩ (ReachableAnalyzer.fresh ∅ false)
    0 1 [] ExceptionSpecificationType.EST_BasicNoexcept [] rfl rfl rfl (Or.inl rfl)

/-- C13: for `void g() noexcept(false); void f() { g(); }` the unfiltered summary of `f`
is `Throwing` with no thrown type, and the summary returned by `analyze(f)` is
`NotThrowing`: the filter step re-derives the behaviour from the empty set of types. -/
theorem call_of_noexcept_false_declaration_is_notThrowing :
    throwsExceptionFunc noexceptFalseUnit 3 0 ∅ = some (⟨State.Throwing, false, ∅⟩, ∅) ∧
      (analyzeFunc noexceptFalseUnit ⟨∅, false, []⟩ 0).map Prod.fst
        = some ⟨State.NotThrowing, false, ∅⟩ := by
  decide

/-- C14: a call expression without direct callee and with a child expression that
throws an `int` is summarised as `NotThrowing`, while the traversal of its children
yields `Throwing` with the thrown type `int`. -/
theorem indirect_call_not_child_traversal :
    throwsExceptionStmt noCallee indirectCallWithThrow ∅ ∅
        = some (⟨State.NotThrowing, false, ∅⟩, ∅) ∧
      childrenLoop noCallee [Stmt.other [], throwInt] ∅ ExceptionInfo.createNotThrowing ∅
        = some (⟨State.Throwing, false, {intType}⟩, ∅) ∧
      throwsExceptionStmt noCallee indirectCallWithThrow ∅ ∅
        ≠ childrenLoop noCallee [Stmt.other [], throwInt] ∅ ExceptionInfo.createNotThrowing ∅ := by
  decide

/-- C14, amended: a call expression without direct callee has the neutral summary,
`NotThrowing` with no thrown type and `containsUnknown` false, whatever its child
expressions are; they are not analysed. -/
theorem indirect_call_is_neutral {n : Nat}
    (callee : Fin n → CallStack n → Option (ExceptionInfo × CallStack n))
    (children : List (Stmt n)) (Caught : Throwables) (CS : CallStack n) :
    throwsExceptionStmt callee (Stmt.callExpr none children) Caught CS
      = some (⟨State.NotThrowing, false, ∅⟩, CS) := by
  simp only [throwsExceptionStmt]
  rfl

/-! ## Helper lemmas: more fuel, and removing recursive calls -/

mutual
theorem throwsExceptionStmt_mono {n : Nat}
    (callee callee1 : Fin n → CallStack n → Option (ExceptionInfo × CallStack n))
    (hcallee : ∀ G CS p, callee G CS = some p → callee1 G CS = some p) :
    ∀ (St : Stmt n) (Caught : Throwables) (CS : CallStack n) (p : ExceptionInfo × CallStack n),
      throwsExceptionStmt callee St Caught CS = some p →
      throwsExceptionStmt callee1 St Caught CS = some p
  | .null, _, _, _, h => by simpa only [throwsExceptionStmt] using h
  | .cxxThrowExpr (some q), _, _, _, h => by simpa only [throwsExceptionStmt] using h
  | .cxxThrowExpr none, _, _, _, h => by simpa only [throwsExceptionStmt] using h
  | .cxxTryStmt tryBlock handlers, Caught, CS, p, h => by
      simp only [throwsExceptionStmt] at h ⊢
      cases hb : throwsExceptionStmt callee tryBlock Caught CS with
      | none => simp [hb] at h
      | some r =>
        obtain ⟨U, CS0⟩ := r
        rw [throwsExceptionStmt_mono callee callee1 hcallee tryBlock Caught CS _ hb]
        simp only [hb] at h ⊢
        cases hl : handlersLoop callee handlers ExceptionInfo.createNotThrowing U CS0 with
        | none => simp [hl] at h
        | some t =>
          rw [handlersLoop_mono callee callee1 hcallee handlers _ _ CS0 _ hl]
          simpa only [hl] using h
  | .callExpr (some Func) _, _, CS, p, h => by
      simp only [throwsExceptionStmt] at h ⊢
      cases hc : callee Func CS with
      | none => simp [hc] at h
      | some r =>
        rw [hcallee Func CS r hc]
        simpa only [hc] using h
  | .callExpr none _, _, _, _, h => by simpa only [throwsExceptionStmt] using h
  | .other children, Caught, CS, p, h => by
      simp only [throwsExceptionStmt] at h ⊢
      exact childrenLoop_mono callee callee1 hcallee children Caught _ CS p h
theorem handlersLoop_mono {n : Nat}
    (callee callee1 : Fin n → CallStack n → Option (ExceptionInfo × CallStack n))
    (hcallee : ∀ G CS p, callee G CS = some p → callee1 G CS = some p) :
    ∀ (handlers : List (Option QualType × Stmt n)) (Results Uncaught : ExceptionInfo)
      (CS : CallStack n) (p : ExceptionInfo × ExceptionInfo × CallStack n),
      handlersLoop callee handlers Results Uncaught CS = some p →
      handlersLoop callee1 handlers Results Uncaught CS = some p
  | [], _, _, _, _, h => by simpa only [handlersLoop] using h
  | (none, handlerBlock) :: rest, Results, Uncaught, CS, p, h => by
      simp only [handlersLoop] at h ⊢
      cases hb : throwsExceptionStmt callee handlerBlock Uncaught.getExceptionTypes CS with
      | none => simp [hb] at h
      | some r =>
        obtain ⟨Re, CS0⟩ := r
        rw [throwsExceptionStmt_mono callee callee1 hcallee handlerBlock _ CS _ hb]
        simp only [hb] at h ⊢
        exact handlersLoop_mono callee callee1 hcallee rest _ _ CS0 p h
  | (some q, handlerBlock) :: rest, Results, Uncaught, CS, p, h => by
      simp only [handlersLoop] at h ⊢
      split_ifs at h ⊢
      · cases hb : throwsExceptionStmt callee handlerBlock {caughtTypeOf q} CS with
        | none => simp [hb] at h
        | some r =>
          obtain ⟨Re, CS0⟩ := r
          rw [throwsExceptionStmt_mono callee callee1 hcallee handlerBlock _ CS _ hb]
          simp only [hb] at h ⊢
          exact handlersLoop_mono callee callee1 hcallee rest _ _ CS0 p h
      · exact handlersLoop_mono callee callee1 hcallee rest _ _ CS p h
theorem childrenLoop_mono {n : Nat}
    (callee callee1 : Fin n → CallStack n → Option (ExceptionInfo × CallStack n))
    (hcallee : ∀ G CS p, callee G CS = some p → callee1 G CS = some p) :
    ∀ (children : List (Stmt n)) (Caught : Throwables) (Results : ExceptionInfo)
      (CS : CallStack n) (p : ExceptionInfo × CallStack n),
      childrenLoop callee children Caught Results CS = some p →
      childrenLoop callee1 children Caught Results CS = some p
  | [], _, _, _, _, h => by simpa only [childrenLoop] using h
  | Child :: rest, Caught, Results, CS, p, h => by
      simp only [childrenLoop] at h ⊢
      cases hb : throwsExceptionStmt callee Child Caught CS with
      | none => simp [hb] at h
      | some r =>
        obtain ⟨E, CS0⟩ := r
        rw [throwsExceptionStmt_mono callee callee1 hcallee Child Caught CS _ hb]
        simp only [hb] at h ⊢
        exact childrenLoop_mono callee callee1 hcallee rest Caught _ CS0 p h
end

theorem throwsExceptionFunc_succ {n : Nat} (TU : TranslationUnit n) :
    ∀ (fuel : Nat) (Func : Fin n) (CS : CallStack n) (p : ExceptionInfo × CallStack n),
      throwsExceptionFunc TU fuel Func CS = some p →
      throwsExceptionFunc TU (fuel + 1) Func CS = some p := by
  intro fuel
  induction fuel with
  | zero => intro Func CS p h; simp [throwsExceptionFunc] at h
  | succ fuel ih =>
    intro Func CS p h
    by_cases hmem : Func ∈ CS
    · rw [throwsExceptionFunc_onStack TU fuel Func CS hmem] at h
      rw [throwsExceptionFunc_onStack TU (fuel + 1) Func CS hmem]
      exact h
    · by_cases hbody : (TU Func).getBody = Stmt.null
      · rw [throwsExceptionFunc_declaration TU fuel Func CS hmem hbody] at h
        rw [throwsExceptionFunc_declaration TU (fuel + 1) Func CS hmem hbody]
        exact h
      · rw [throwsExceptionFunc_definition TU fuel Func CS hmem hbody] at h
        rw [throwsExceptionFunc_definition TU (fuel + 1) Func CS hmem hbody]
        cases hs : throwsExceptionStmt (throwsExceptionFunc TU fuel) (TU Func).getBody ∅
            (insert Func CS) with
        | none => simp [hs] at h
        | some r =>
          rw [throwsExceptionStmt_mono _ _ (ih) _ _ _ _ hs]
          simpa only [hs] using h

theorem throwsExceptionFunc_mono {n : Nat} (TU : TranslationUnit n) (fuel fuel1 : Nat)
    (hle : fuel ≤ fuel1) (Func : Fin n) (CS : CallStack n) (p : ExceptionInfo × CallStack n)
    (h : throwsExceptionFunc TU fuel Func CS = some p) :
    throwsExceptionFunc TU fuel1 Func CS = some p := by
  induction hle with
  | refl => exact h
  | step _ ih => exact throwsExceptionFunc_succ TU _ Func CS p ih

mutual
theorem throwsExceptionStmt_removeCallsTo {n : Nat}
    (callee : Fin n → CallStack n → Option (ExceptionInfo × CallStack n)) (Func : Fin n)
    (hrec : ∀ CS, Func ∈ CS → callee Func CS = some (ExceptionInfo.createNotThrowing, CS))
    (hstack : ∀ G CS R CS1, callee G CS = some (R, CS1) → CS1 = CS) :
    ∀ (St : Stmt n) (Caught : Throwables) (CS : CallStack n), Func ∈ CS →
      throwsExceptionStmt callee St Caught CS
        = throwsExceptionStmt callee (St.removeCallsTo Func) Caught CS
  | .null, _, _, _ => by simp only [Stmt.removeCallsTo]
  | .cxxThrowExpr _, _, _, _ => by simp only [Stmt.removeCallsTo]
  | .cxxTryStmt tryBlock handlers, Caught, CS, hmem => by
      simp only [Stmt.removeCallsTo, throwsExceptionStmt]
      rw [← throwsExceptionStmt_removeCallsTo callee Func hrec hstack tryBlock Caught CS hmem]
      cases hb : throwsExceptionStmt callee tryBlock Caught CS with
      | none => rfl
      | some r =>
        obtain ⟨U, CS0⟩ := r
        have h0 := throwsExceptionStmt_stack callee hstack tryBlock Caught CS U CS0 hb
        subst h0
        simp only []
        rw [← handlersLoop_removeCallsTo callee Func hrec hstack handlers _ _ CS0 hmem]
  | .callExpr (some G) children, Caught, CS, hmem => by
      by_cases hG : G = Func
      · subst hG
        simp only [Stmt.removeCallsTo, if_true, throwsExceptionStmt, hrec CS hmem,
          merge_createNotThrowing_left]
      · simp only [Stmt.removeCallsTo, hG, if_false]
  | .callExpr none _, _, _, _ => by simp only [Stmt.removeCallsTo]
  | .other children, Caught, CS, hmem => by
      simp only [Stmt.removeCallsTo, throwsExceptionStmt]
      exact childrenLoop_removeCallsTo callee Func hrec hstack children Caught _ CS hmem
theorem handlersLoop_removeCallsTo {n : Nat}
    (callee : Fin n → CallStack n → Option (ExceptionInfo × CallStack n)) (Func : Fin n)
    (hrec : ∀ CS, Func ∈ CS → callee Func CS = some (ExceptionInfo.createNotThrowing, CS))
    (hstack : ∀ G CS R CS1, callee G CS = some (R, CS1) → CS1 = CS) :
    ∀ (handlers : List (Option QualType × Stmt n)) (Results Uncaught : ExceptionInfo)
      (CS : CallStack n), Func ∈ CS →
      handlersLoop callee handlers Results Uncaught CS
        = handlersLoop callee (handlersRemoveCallsTo Func handlers) Results Uncaught CS
  | [], _, _, _, _ => by simp only [handlersRemoveCallsTo]
  | (none, handlerBlock) :: rest, Results, Uncaught, CS, hmem => by
      simp only [handlersRemoveCallsTo, handlersLoop]
      rw [← throwsExceptionStmt_removeCallsTo callee Func hrec hstack handlerBlock _ CS hmem]
      cases hb : throwsExceptionStmt callee handlerBlock Uncaught.getExceptionTypes CS with
      | none => rfl
      | some r =>
        obtain ⟨Re, CS0⟩ := r
        have h0 := throwsExceptionStmt_stack callee hstack handlerBlock _ CS Re CS0 hb
        subst h0
        exact handlersLoop_removeCallsTo callee Func hrec hstack rest _ _ CS0 hmem
  | (some q, handlerBlock) :: rest, Results, Uncaught, CS, hmem => by
      simp only [handlersRemoveCallsTo, handlersLoop]
      rw [← throwsExceptionStmt_removeCallsTo callee Func hrec hstack handlerBlock _ CS hmem]
      split_ifs
      · cases hb : throwsExceptionStmt callee handlerBlock {caughtTypeOf q} CS with
        | none => rfl
        | some r =>
          obtain ⟨Re, CS0⟩ := r
          have h0 := throwsExceptionStmt_stack callee hstack handlerBlock _ CS Re CS0 hb
          subst h0
          exact handlersLoop_removeCallsTo callee Func hrec hstack rest _ _ CS0 hmem
      · exact handlersLoop_removeCallsTo callee Func hrec hstack rest _ _ CS hmem
theorem childrenLoop_removeCallsTo {n : Nat}
    (callee : Fin n → CallStack n → Option (ExceptionInfo × CallStack n)) (Func : Fin n)
    (hrec : ∀ CS, Func ∈ CS → callee Func CS = some (ExceptionInfo.createNotThrowing, CS))
    (hstack : ∀ G CS R CS1, callee G CS = some (R, CS1) → CS1 = CS) :
    ∀ (children : List (Stmt n)) (Caught : Throwables) (Results : ExceptionInfo)
      (CS : CallStack n), Func ∈ CS →
      childrenLoop callee children Caught Results CS
        = childrenLoop callee (childrenRemoveCallsTo Func children) Caught Results CS
  | [], _, _, _, _ => by simp only [childrenRemoveCallsTo]
  | Child :: rest, Caught, Results, CS, hmem => by
      simp only [childrenRemoveCallsTo, childrenLoop]
      rw [← throwsExceptionStmt_removeCallsTo callee Func hrec hstack Child Caught CS hmem]
      cases hb : throwsExceptionStmt callee Child Caught CS with
      | none => rfl
      | some r =>
        obtain ⟨E, CS0⟩ := r
        have h0 := throwsExceptionStmt_stack callee hstack Child Caught CS E CS0 hb
        subst h0
        exact childrenLoop_removeCallsTo callee Func hrec hstack rest Caught _ CS0 hmem
end

theorem isIgnored_iff (IgnoredTypes : Finset String) (IgnoreBadAlloc : Bool) (T : CType) :
    ExceptionInfo.isIgnored IgnoredTypes IgnoreBadAlloc T = true
      ↔ nameIsIgnored IgnoredTypes IgnoreBadAlloc T := by
  unfold ExceptionInfo.isIgnored nameIsIgnored
  cases hT : T.getAsTagDecl with
  | none => simp
  | some TD =>
    simp only [TagDecl.isIdentifier, if_true, Bool.or_eq_true, Bool.and_eq_true,
      decide_eq_true_eq, Option.some.injEq, exists_eq_left']
    tauto

theorem filterIgnoredExceptions_isFiltered (E : ExceptionInfo) (IgnoredTypes : Finset String)
    (IgnoreBadAlloc : Bool) :
    IsFilteredSummary IgnoredTypes IgnoreBadAlloc E
      (E.filterIgnoredExceptions IgnoredTypes IgnoreBadAlloc) := by
  have hthrown : (E.filterIgnoredExceptions IgnoredTypes IgnoreBadAlloc).ThrownExceptions
      = E.ThrownExceptions \ E.ThrownExceptions.filter
          (fun T => ExceptionInfo.isIgnored IgnoredTypes IgnoreBadAlloc T = true) := by
    unfold ExceptionInfo.filterIgnoredExceptions ExceptionInfo.reevaluateBehaviour
    dsimp only
    split_ifs <;> rfl
  have hcu : (E.filterIgnoredExceptions IgnoredTypes IgnoreBadAlloc).ContainsUnknown
      = E.ContainsUnknown := by
    unfold ExceptionInfo.filterIgnoredExceptions ExceptionInfo.reevaluateBehaviour
    dsimp only
    split_ifs <;> rfl
  have hinv := invariant_filterIgnoredExceptions E IgnoredTypes IgnoreBadAlloc
  refine ⟨?_, hcu, ?_⟩
  · intro T
    rw [hthrown, Finset.mem_sdiff, Finset.mem_filter, isIgnored_iff]
    tauto
  · obtain ⟨h1, h2⟩ := hinv
    by_cases hne : (E.filterIgnoredExceptions IgnoredTypes IgnoreBadAlloc).ThrownExceptions.Nonempty
    · rw [if_pos hne]; exact h1.2 hne
    · rw [if_neg hne]
      exact h2 (Finset.not_nonempty_iff_eq_empty.1 hne)

/-! ## Theorems: recursion, filtering and the cache -/

/-- C15: the analysis terminates. For a translation unit of `n` functions, the analysis
of a function or of a statement returns a summary, and leaves the call stack as it was,
as soon as the fuel exceeds the number of functions that are not on the call stack; more
fuel does not change the result; and the public queries, which supply fuel `n + 1` from
an empty call stack, always return. -/
theorem analysis_terminates {n : Nat} (TU : TranslationUnit n) (A : Analyzer n)
    (Func : Fin n) (St : Stmt n) :
    (∀ fuel CS, (Finset.univ \ CS).card < fuel →
        ∃ R, throwsExceptionFunc TU fuel Func CS = some (R, CS) ∧
          ∀ fuel1, fuel ≤ fuel1 → throwsExceptionFunc TU fuel1 Func CS = some (R, CS)) ∧
      (∀ fuel CS Caught, (Finset.univ \ CS).card < fuel →
        ∃ R, throwsExceptionStmt (throwsExceptionFunc TU fuel) St Caught CS = some (R, CS)) ∧
      (∃ R A1, analyzeFunc TU A Func = some (R, A1)) ∧
      (∃ R, analyzeStmt TU A St = some R) := by
  refine ⟨?_, ?_, ?_, ?_⟩
  · intro fuel CS hfuel
    obtain ⟨R, hR, -⟩ := throwsExceptionFunc_returns TU fuel Func CS hfuel
    exact ⟨R, hR, fun fuel1 hle => throwsExceptionFunc_mono TU fuel fuel1 hle Func CS _ hR⟩
  · intro fuel CS Caught hfuel
    obtain ⟨R, hR, -⟩ := throwsExceptionStmt_returns (throwsExceptionFunc TU fuel) CS
      (fun G => throwsExceptionFunc_returns TU fuel G CS hfuel) St Caught
    exact ⟨R, hR⟩
  · unfold analyzeFunc analyzeImplFunc
    cases hl : A.FunctionCache.lookup Func with
    | some E => exact ⟨_, _, rfl⟩
    | none =>
      obtain ⟨E, hE, -⟩ := throwsExceptionFunc_top_returns TU Func
      simp only [hE]
      exact ⟨_, _, rfl⟩
  · unfold analyzeStmt analyzeImplStmt
    obtain ⟨E, hE, -⟩ := throwsExceptionStmt_returns (throwsExceptionFunc TU (n + 1)) ∅
      (fun G => throwsExceptionFunc_top_returns TU G) St ∅
    simp only [hE]
    exact ⟨_, rfl⟩

/-- C15, at two mutually recursive functions: the analysis of `f` with fuel 3 returns,
and so does every analysis with more fuel. -/
theorem analysis_terminates_witness :
    (Finset.univ \ (∅ : CallStack 2)).card < 3 ∧
      ∃ R, throwsExceptionFunc mutualCallUnit 3 0 ∅ = some (R, ∅) ∧
        ∀ fuel1, 3 ≤ fuel1 → throwsExceptionFunc mutualCallUnit fuel1 0 ∅ = some (R, ∅) :=
  ⟨by decide,
   (analysis_terminates mutualCallUnit ⟨∅, false, []⟩ 0 Stmt.null).1 3 ∅ (by decide)⟩

/-- C16: a function that is already on the call stack is summarised as `NotThrowing`
with no thrown type and `containsUnknown` false; so the summary of a function with a
body is the summary of its body with the direct calls to the function itself removed. -/
theorem recursive_call_is_neutral {n : Nat} (TU : TranslationUnit n) (fuel : Nat)
    (Func : Fin n) (CS : CallStack n) :
    (Func ∈ CS →
        throwsExceptionFunc TU (fuel + 1) Func CS = some (⟨State.NotThrowing, false, ∅⟩, CS)) ∧
      (Func ∉ CS → (TU Func).getBody ≠ Stmt.null →
        throwsExceptionFunc TU (fuel + 2) Func CS
          = (throwsExceptionStmt (throwsExceptionFunc TU (fuel + 1))
              ((TU Func).getBody.removeCallsTo Func) ∅ (insert Func CS)).map
              (fun p => (p.1, p.2.erase Func))) := by
  refine ⟨fun h => throwsExceptionFunc_onStack TU fuel Func CS h, fun hmem hbody => ?_⟩
  rw [throwsExceptionFunc_definition TU (fuel + 1) Func CS hmem hbody,
    throwsExceptionStmt_removeCallsTo (throwsExceptionFunc TU (fuel + 1)) Func
      (fun CS1 h1 => throwsExceptionFunc_onStack TU fuel Func CS1 h1)
      (throwsExceptionFunc_stack TU (fuel + 1)) _ _ _ (Finset.mem_insert_self Func CS)]

/-- C16, at `void f() { f(); throw 1; }`: the summary of `f` is that of `{ throw 1; }`,
`Throwing` with the thrown type `int`; and `void f() { f(); }` is `NotThrowing`. -/
theorem recursive_call_is_neutral_witness :
    throwsExceptionFunc selfCallThrowUnit 2 0 ∅
        = (throwsExceptionStmt (throwsExceptionFunc selfCallThrowUnit 1)
            (Stmt.other [Stmt.null, throwOne]) ∅ (insert 0 ∅)).map
            (fun p => (p.1, p.2.erase 0)) ∧
      throwsExceptionFunc selfCallThrowUnit 2 0 ∅ = some (⟨State.Throwing, false, {intType}⟩, ∅) ∧
      throwsExceptionFunc selfCallUnit 2 0 ∅ = some (⟨State.NotThrowing, false, ∅⟩, ∅) :=
  ⟨(recursive_call_is_neutral selfCallThrowUnit 0 0 ∅).2 (by decide)
      (fun h => Stmt.noConfusion h),
   by decide, by decide⟩

/-- C17, amended: when the unfiltered summary of a function or of a statement is `Throwing`, the
summary returned by `analyze` keeps exactly the types that are not ignored (a class or
enumeration type is ignored when its name is in the ignore list, or when it is
`std::bad_alloc` and `IgnoreBadAlloc` is set), keeps `containsUnknown`, and has its
behaviour re-derived: `Throwing` if a type remains, otherwise `Unknown` if
`containsUnknown`, otherwise `NotThrowing`. -/
theorem analyze_filters_ignored {n : Nat} (TU : TranslationUnit n) (A : Analyzer n)
    (hA : ReachableAnalyzer TU A) (Func : Fin n) (St : Stmt n) (E : ExceptionInfo)
    (hE : E.Behaviour = State.Throwing) :
    (throwsExceptionFunc TU (n + 1) Func ∅ = some (E, ∅) →
        ∃ R A1, analyzeFunc TU A Func = some (R, A1) ∧
          IsFilteredSummary A.IgnoredExceptions A.IgnoreBadAlloc E R) ∧
      (throwsExceptionStmt (throwsExceptionFunc TU (n + 1)) St ∅ ∅ = some (E, ∅) →
        ∃ R, analyzeStmt TU A St = some R ∧
          IsFilteredSummary A.IgnoredExceptions A.IgnoreBadAlloc E R) := by
  have hd : analyzeDispatch A E
      = E.filterIgnoredExceptions A.IgnoredExceptions A.IgnoreBadAlloc := by
    simp [analyzeDispatch, ExceptionInfo.getBehaviour, hE]
  constructor
  · intro h
    refine ⟨_, _, analyzeFunc_of_reachable TU A hA Func E h, ?_⟩
    rw [hd]
    exact filterIgnoredExceptions_isFiltered E _ _
  · intro h
    refine ⟨analyzeDispatch A E, ?_, ?_⟩
    · simp only [analyzeStmt, analyzeImplStmt, h]
    · rw [hd]
      exact filterIgnoredExceptions_isFiltered E _ _

/-- C17, amended, at a function whose body throws an `Ignored`, a `std::bad_alloc` and an `int`,
with `Ignored` in the ignore list and `IgnoreBadAlloc` set: only `int` remains. -/
theorem analyze_filters_ignored_witness :
    (∃ R A1, analyzeFunc throwThreeUnit (ignoringAnalyzer 1) 0 = some (R, A1) ∧
        IsFilteredSummary {"Ignored"} true
          ⟨State.Throwing, false, {ignoredType, badAllocType, intType}⟩ R) ∧
      (analyzeFunc throwThreeUnit (ignoringAnalyzer 1) 0).map Prod.fst
        = some ⟨State.Throwing, false, {intType}⟩ :=
  ⟨(analyze_filters_ignored throwThreeUnit (ignoringAnalyzer 1)
      (ReachableAnalyzer.fresh {"Ignored"} true) 0 throwThree
      ⟨State.Throwing, false, {ignoredType, badAllocType, intType}⟩ rfl).1 (by decide),
   by decide⟩

/-- C17, as stated: with `int` in the ignore list, the statement `throw int(1);` has the
unfiltered summary `Throwing`, and the summary returned by `analyze` still contains the
type `int`, whose name is in the ignore list. -/
theorem analyze_keeps_ignored_builtin :
    throwsExceptionStmt (throwsExceptionFunc emptyUnit 1) throwInt ∅ ∅
        = some (⟨State.Throwing, false, {intType}⟩, ∅) ∧
      analyzeStmt emptyUnit ⟨{"int"}, false, []⟩ throwInt
        = some ⟨State.Throwing, false, {intType}⟩ ∧
      intType.writtenName = some "int" ∧
      "int" ∈ ({"int"} : Finset String) := by
  decide

/-- C18: the function-result cache is transparent and written once per key. In every
analyzer state of a pass, `analyze(f)` returns the summary it returns with an empty
cache, the filtered unfiltered summary `E` of `f`. A first query for `f` inserts `E` for
`f`, after which `f` is cached; a query for a cached `f` finds `E` and leaves the
analyzer unchanged. -/
theorem cache_is_transparent {n : Nat} (TU : TranslationUnit n) (A : Analyzer n)
    (hA : ReachableAnalyzer TU A) (Func : Fin n) :
    ∃ E, throwsExceptionFunc TU (n + 1) Func ∅ = some (E, ∅) ∧
      (∃ A0, analyzeFunc TU A.withEmptyCache Func = some (analyzeDispatch A E, A0)) ∧
      (∃ A1, analyzeFunc TU A Func = some (analyzeDispatch A E, A1)) ∧
      (A.FunctionCache.lookup Func = none →
        analyzeFunc TU A Func
            = some (analyzeDispatch A E, { A with FunctionCache := (Func, E) :: A.FunctionCache }) ∧
          ((Func, E) :: A.FunctionCache).lookup Func = some E) ∧
      (∀ E1, A.FunctionCache.lookup Func = some E1 →
        E1 = E ∧ analyzeFunc TU A Func = some (analyzeDispatch A E, A)) := by
  obtain ⟨E, hE, -⟩ := throwsExceptionFunc_top_returns TU Func
  have hA1 := analyzeFunc_of_reachable TU A hA Func E hE
  refine ⟨E, hE, ?_, ⟨_, hA1⟩, ?_, ?_⟩
  · have h0 := analyzeFunc_of_reachable TU A.withEmptyCache
      (ReachableAnalyzer.fresh A.IgnoredExceptions A.IgnoreBadAlloc) Func E hE
    exact ⟨_, h0⟩
  · intro hnone
    rw [hA1, if_pos hnone]
    exact ⟨rfl, by simp [List.lookup_cons]⟩
  · intro E1 hsome
    have h1 := cache_lookup_of_reachable TU A hA Func E1 hsome
    rw [hE] at h1
    simp only [Option.some.injEq, Prod.mk.injEq] at h1
    refine ⟨h1.1.symm, ?_⟩
    rw [hA1, if_neg (by rw [hsome]; exact fun h => Option.noConfusion h)]

/-- C18, at the lambda `L8` of the test file after a first query for it: the second
query returns the same summary as a query with an empty cache and leaves the cache
unchanged. -/
theorem cache_is_transparent_witness :
    ReachableAnalyzer lambdaL8Unit lambdaL8Analyzed ∧
      ∃ E, throwsExceptionFunc lambdaL8Unit (3 + 1) 0 ∅ = some (E, ∅) ∧
        (∃ A0, analyzeFunc lambdaL8Unit lambdaL8Analyzed.withEmptyCache 0
          = some (analyzeDispatch lambdaL8Analyzed E, A0)) ∧
        (∃ A1, analyzeFunc lambdaL8Unit lambdaL8Analyzed 0
          = some (analyzeDispatch lambdaL8Analyzed E, A1)) ∧
        (lambdaL8Analyzed.FunctionCache.lookup 0 = none →
          analyzeFunc lambdaL8Unit lambdaL8Analyzed 0
              = some (analyzeDispatch lambdaL8Analyzed E,
                  { lambdaL8Analyzed with
                    FunctionCache := (0, E) :: lambdaL8Analyzed.FunctionCache }) ∧
            ((0, E) :: lambdaL8Analyzed.FunctionCache).lookup 0 = some E) ∧
        (∀ E1, lambdaL8Analyzed.FunctionCache.lookup 0 = some E1 →
          E1 = E ∧
            analyzeFunc lambdaL8Unit lambdaL8Analyzed 0
              = some (analyzeDispatch lambdaL8Analyzed E, lambdaL8Analyzed)) :=
  ⟨ReachableAnalyzer.afterAnalyze ⟨∅, false, []⟩ lambdaL8Analyzed 0 ⟨State.Unknown, true, ∅⟩
      (ReachableAnalyzer.fresh ∅ false) (by decide),
   cache_is_transparent lambdaL8Unit lambdaL8Analyzed
     (ReachableAnalyzer.afterAnalyze ⟨∅, false, []⟩ lambdaL8Analyzed 0 ⟨State.Unknown, true, ∅⟩
       (ReachableAnalyzer.fresh ∅ false) (by decide)) 0⟩

/-! ## Helper lemmas: catching, and filtering with an unknown -/

theorem isBaseOf_iff (T B : CType) : isBaseOf T B = true ↔ DerivesFromType T B := by
  unfold isBaseOf DerivesFromType
  cases hT : T.getAsCXXRecordDecl with
  | none => simp
  | some DT =>
    cases hB : B.getAsCXXRecordDecl with
    | none => simp
    | some DB =>
      simp only [Bool.not_eq_true', Option.some.injEq, exists_and_left, exists_eq_left']
      exact forallBases_ne_eq_false_iff DB DT

theorem caught_iff (T B : CType) : (T = B ∨ isBaseOf T B = true) ↔ IsCaughtBy T B := by
  unfold IsCaughtBy
  rw [isBaseOf_iff]

theorem survivingTypes_mem {n : Nat} (hs : List (QualType × Stmt n)) (Thrown : Throwables)
    (T : CType) :
    T ∈ survivingTypes hs Thrown
      ↔ T ∈ Thrown ∧ ∀ h ∈ hs, ¬ IsCaughtBy T (caughtTypeOf h.1) := by
  unfold survivingTypes
  rw [Finset.mem_filter]
  constructor
  · rintro ⟨h1, h2⟩
    exact ⟨h1, fun h hh hc => h2 h hh ((caught_iff T _).2 hc)⟩
  · rintro ⟨h1, h2⟩
    exact ⟨h1, fun h hh hc => h2 h hh ((caught_iff T _).1 hc)⟩

theorem analyzeDispatch_keeps_unknown {n : Nat} (A : Analyzer n) (E : ExceptionInfo)
    (hE : E.Consistent) (hCU : E.ContainsUnknown = true) :
    (analyzeDispatch A E).Behaviour ≠ State.NotThrowing ∧
      (analyzeDispatch A E).ContainsUnknown = true := by
  obtain ⟨h1, h2, h3⟩ := hE
  unfold analyzeDispatch
  split_ifs with h
  · refine ⟨fun hb => ?_, hCU⟩
    have := h3 hb
    rw [hCU] at this
    cases this
  · obtain ⟨-, hcu, hb⟩ := filterIgnoredExceptions_isFiltered E A.IgnoredExceptions A.IgnoreBadAlloc
    refine ⟨?_, by rw [hcu, hCU]⟩
    rw [hb, hcu, hCU]
    split_ifs with h4 h5
    · simp
    · simp
    · exact absurd rfl h5

theorem filterByCatch_fst_iff_caught (X : ExceptionInfo) (B : CType) :
    (X.filterByCatch B).1 = true ↔ ∃ T ∈ X.ThrownExceptions, IsCaughtBy T B := by
  rw [filterByCatch_fst]
  constructor
  · rintro ⟨T, hT, hc⟩
    exact ⟨T, hT, (caught_iff T B).1 hc⟩
  · rintro ⟨T, hT, hc⟩
    exact ⟨T, hT, (caught_iff T B).2 hc⟩

/-! ## Theorems: handlers, invariant, unknown calls, call arguments, call stack -/

/-- C24: `X.filterByCatch(B)` removes from the thrown types exactly the types that are
`B` or are class types deriving, directly or indirectly, from the class `B`, and keeps
every other type; it leaves `containsUnknown` unchanged, re-derives the behaviour from
the remaining set, and returns true exactly when at least one type was removed. -/
theorem filterByCatch_removes_caught (X : ExceptionInfo) (B : CType) :
    (∀ T, T ∈ (X.filterByCatch B).2.ThrownExceptions
        ↔ T ∈ X.ThrownExceptions ∧ ¬ IsCaughtBy T B) ∧
      (X.filterByCatch B).2.ContainsUnknown = X.ContainsUnknown ∧
      (X.filterByCatch B).2.Behaviour
        = (if (X.filterByCatch B).2.ThrownExceptions.Nonempty then State.Throwing
           else if X.ContainsUnknown = true then State.Unknown else State.NotThrowing) ∧
      ((X.filterByCatch B).1 = true ↔ ∃ T ∈ X.ThrownExceptions, IsCaughtBy T B) := by
  refine ⟨?_, filterByCatch_containsUnknown X B, ?_, ?_⟩
  · intro T
    rw [filterByCatch_thrown, Finset.mem_filter, caught_iff]
  · rw [filterByCatch_behaviour]
    by_cases h : (X.filterByCatch B).2.ThrownExceptions = ∅
    · have hn : ¬ (X.filterByCatch B).2.ThrownExceptions.Nonempty := by
        rw [h]; exact Finset.not_nonempty_empty
      rw [if_pos h, if_neg hn]
    · rw [if_neg h, if_pos (Finset.nonempty_iff_ne_empty.2 h)]
  · rw [filterByCatch_fst]
    constructor
    · rintro ⟨T, hT, hc⟩
      exact ⟨T, hT, (caught_iff T B).1 hc⟩
    · rintro ⟨T, hT, hc⟩
      exact ⟨T, hT, (caught_iff T B).2 hc⟩

/-- C25: a typed handler whose filter step removes a type contributes the summary of its
block analysed with the singleton of the declared catch type as rethrow context, so that
a bare rethrow registers the catch type; a typed handler whose filter step removes
nothing is skipped: its block is not analysed and the result is left as it was. -/
theorem typed_handler_contribution {n : Nat}
    (callee : Fin n → CallStack n → Option (ExceptionInfo × CallStack n))
    (q : QualType) (handlerBlock : Stmt n) (rest : List (Option QualType × Stmt n))
    (Results Uncaught : ExceptionInfo) (CS : CallStack n) :
    ((∃ T ∈ Uncaught.ThrownExceptions, IsCaughtBy T (caughtTypeOf q)) →
        handlersLoop callee ((some q, handlerBlock) :: rest) Results Uncaught CS
          = (match throwsExceptionStmt callee handlerBlock {caughtTypeOf q} CS with
             | none => none
             | some (Rethrown, CS1) =>
                 handlersLoop callee rest (Results.merge Rethrown)
                   (Uncaught.filterByCatch (caughtTypeOf q)).2 CS1)) ∧
      ((¬ ∃ T ∈ Uncaught.ThrownExceptions, IsCaughtBy T (caughtTypeOf q)) →
        handlersLoop callee ((some q, handlerBlock) :: rest) Results Uncaught CS
            = handlersLoop callee rest Results (Uncaught.filterByCatch (caughtTypeOf q)).2 CS ∧
          (Uncaught.filterByCatch (caughtTypeOf q)).2.ThrownExceptions
            = Uncaught.ThrownExceptions) ∧
      throwsExceptionStmt callee (Stmt.cxxThrowExpr none) {caughtTypeOf q} CS
        = some (⟨State.Throwing, false, {caughtTypeOf q}⟩, CS) := by
  have hiff : (Uncaught.filterByCatch (caughtTypeOf q)).1 = true
      ↔ ∃ T ∈ Uncaught.ThrownExceptions, IsCaughtBy T (caughtTypeOf q) :=
    (filterByCatch_fst_iff_caught Uncaught (caughtTypeOf q))
  refine ⟨fun h => ?_, fun h => ⟨?_, ?_⟩, ?_⟩
  · simp only [handlersLoop, hiff.2 h, if_true]
  · have hf : ¬ (Uncaught.filterByCatch (caughtTypeOf q)).1 = true := fun hc => h (hiff.1 hc)
    have hf1 : (Uncaught.filterByCatch (caughtTypeOf q)).1 = false := by simpa using hf
    simp only [handlersLoop, hf1, Bool.false_eq_true, if_false]
  · rw [filterByCatch_thrown]
    ext T
    rw [Finset.mem_filter]
    constructor
    · exact fun hT => hT.1
    · exact fun hT => ⟨hT, fun hc => h ⟨T, hT, (caught_iff T _).1 hc⟩⟩
  · simp [throwsExceptionStmt, ExceptionInfo.registerExceptions,
      ExceptionInfo.createNotThrowing]

/-- C25, at `try { throw Derived(); } catch (Base &) { throw; }`: the handler catches
`Derived` and its bare rethrow registers `Base`. -/
theorem typed_handler_contribution_witness :
    (∃ T ∈ ({derivedType} : Throwables), IsCaughtBy T (caughtTypeOf baseRefQualType)) ∧
      handlersLoop noCallee [(some baseRefQualType, Stmt.cxxThrowExpr none)]
          ExceptionInfo.createNotThrowing ⟨State.Throwing, false, {derivedType}⟩ ∅
        = some (⟨State.Throwing, false, {baseType}⟩, ⟨State.NotThrowing, false, ∅⟩, ∅) ∧
      throwsExceptionStmt noCallee tryDerivedCatchBaseRethrow ∅ ∅
        = some (⟨State.Throwing, false, {baseType}⟩, ∅) :=
  ⟨⟨derivedType, Finset.mem_singleton_self _,
      Or.inr ⟨derivedDecl, baseDecl, rfl, rfl,
        IsBaseClassOf.mk 1 "Derived" false _ (OccursInBases.direct BaseList.nil)⟩⟩,
   ((typed_handler_contribution noCallee baseRefQualType (Stmt.cxxThrowExpr none) []
      ExceptionInfo.createNotThrowing ⟨State.Throwing, false, {derivedType}⟩ ∅).1
      ⟨derivedType, Finset.mem_singleton_self _,
        Or.inr ⟨derivedDecl, baseDecl, rfl, rfl,
          IsBaseClassOf.mk 1 "Derived" false _ (OccursInBases.direct BaseList.nil)⟩⟩).trans
     (by decide),
   by decide⟩

theorem try_typed_handlers_uncaught {n : Nat}
    (callee : Fin n → CallStack n → Option (ExceptionInfo × CallStack n))
    (tryBlock : Stmt n) (hs : List (QualType × Stmt n)) (Caught : Throwables)
    (CS CS1 : CallStack n) (R : ExceptionInfo)
    (h : throwsExceptionStmt callee (Stmt.cxxTryStmt tryBlock (typedHandlers hs)) Caught CS
          = some (R, CS1)) :
    ∃ Uncaught CS0, throwsExceptionStmt callee tryBlock Caught CS = some (Uncaught, CS0) ∧
      (∀ T ∈ Uncaught.ThrownExceptions,
        (∀ hd ∈ hs, ¬ IsCaughtBy T (caughtTypeOf hd.1)) → T ∈ R.ThrownExceptions) ∧
      (Uncaught.ContainsUnknown = true → R.ContainsUnknown = true) := by
  simp only [throwsExceptionStmt] at h
  cases hb : throwsExceptionStmt callee tryBlock Caught CS with
  | none => simp [hb] at h
  | some p =>
    obtain ⟨U, CS0⟩ := p
    simp only [hb] at h
    cases hl : handlersLoop callee (typedHandlers hs) ExceptionInfo.createNotThrowing U CS0 with
    | none => simp [hl] at h
    | some r =>
      obtain ⟨R1, U1, CS2⟩ := r
      simp only [hl, Option.some.injEq, Prod.mk.injEq] at h
      obtain ⟨hU1, hCU⟩ := handlersLoop_typedHandlers_uncaught callee hs _ _ _ _ _ _ hl
      refine ⟨U, CS0, rfl, ?_, ?_⟩
      · intro T hT hnot
        rw [← h.1]
        simp only [ExceptionInfo.merge, Finset.mem_union]
        right
        rw [hU1]
        exact (survivingTypes_mem hs _ T).2 ⟨hT, hnot⟩
      · intro hu
        rw [← h.1]
        simp only [ExceptionInfo.merge, hCU, hu, Bool.or_true]

/-- C26: the analysis of a try statement that has only typed handlers returns a summary,
and so does the analysis of its guarded block; every type thrown by the guarded block
that no handler catches (it is neither a handler's catch type nor derived from one) is a
thrown type of the summary of the try statement, and `containsUnknown` of the guarded
block is carried over. -/
theorem typed_handlers_keep_uncaught {n : Nat} (TU : TranslationUnit n) (fuel : Nat)
    (tryBlock : Stmt n) (hs : List (QualType × Stmt n)) (Caught : Throwables)
    (CS : CallStack n) (hfuel : (Finset.univ \ CS).card < fuel) :
    ∃ Uncaught R,
      throwsExceptionStmt (throwsExceptionFunc TU fuel) tryBlock Caught CS
        = some (Uncaught, CS) ∧
      throwsExceptionStmt (throwsExceptionFunc TU fuel)
          (Stmt.cxxTryStmt tryBlock (typedHandlers hs)) Caught CS = some (R, CS) ∧
      (∀ T ∈ Uncaught.ThrownExceptions,
        (∀ hd ∈ hs, ¬ IsCaughtBy T (caughtTypeOf hd.1)) → T ∈ R.ThrownExceptions) ∧
      (Uncaught.ContainsUnknown = true → R.ContainsUnknown = true) := by
  have hcallee : ∀ G, ∃ R, throwsExceptionFunc TU fuel G CS = some (R, CS) ∧ R.Consistent :=
    fun G => throwsExceptionFunc_returns TU fuel G CS hfuel
  obtain ⟨R, hR, -⟩ := throwsExceptionStmt_returns (throwsExceptionFunc TU fuel) CS hcallee
    (Stmt.cxxTryStmt tryBlock (typedHandlers hs)) Caught
  obtain ⟨U0, hU0, -⟩ := throwsExceptionStmt_returns (throwsExceptionFunc TU fuel) CS hcallee
    tryBlock Caught
  obtain ⟨U, CS0, hU, h1, h2⟩ := try_typed_handlers_uncaught _ tryBlock hs Caught CS CS R hR
  rw [hU0] at hU
  simp only [Option.some.injEq, Prod.mk.injEq] at hU
  obtain ⟨hUeq, -⟩ := hU
  subst hUeq
  exact ⟨U0, R, hU0, hR, h1, h2⟩

/-- C26, at `try { undefined(); throw 1; throw Derived(); } catch (Base &) {}`: the
summary is `Throwing {int}` with `containsUnknown`; `int` stays a thrown type and
`containsUnknown` stays set. -/
theorem typed_handlers_keep_uncaught_witness :
    (Finset.univ \ (∅ : CallStack 1)).card < 2 ∧
    throwsExceptionStmt (throwsExceptionFunc undefinedUnit 2)
        (Stmt.cxxTryStmt guardedUnknownIntDerived (typedHandlers catchBaseRefOnly)) ∅ ∅
      = some (⟨State.Throwing, true, {intType}⟩, ∅) ∧
    ∃ Uncaught R,
      throwsExceptionStmt (throwsExceptionFunc undefinedUnit 2) guardedUnknownIntDerived ∅ ∅
        = some (Uncaught, ∅) ∧
      throwsExceptionStmt (throwsExceptionFunc undefinedUnit 2)
          (Stmt.cxxTryStmt guardedUnknownIntDerived (typedHandlers catchBaseRefOnly)) ∅ ∅
        = some (R, ∅) ∧
      (∀ T ∈ Uncaught.ThrownExceptions,
        (∀ hd ∈ catchBaseRefOnly, ¬ IsCaughtBy T (caughtTypeOf hd.1)) →
          T ∈ R.ThrownExceptions) ∧
      (Uncaught.ContainsUnknown = true → R.ContainsUnknown = true) :=
  ⟨by decide, by decide,
   typed_handlers_keep_uncaught undefinedUnit 2 guardedUnknownIntDerived catchBaseRefOnly ∅ ∅
     (by decide)⟩
theorem invariant_merge (X Y : ExceptionInfo) (hX : X.Invariant) (hY : Y.Invariant) :
    (X.merge Y).Invariant := by
  obtain ⟨bx, ux, tx⟩ := X
  obtain ⟨by_, uy, ty⟩ := Y
  obtain ⟨hx1, hx2⟩ := hX
  obtain ⟨hy1, hy2⟩ := hY
  simp only [ExceptionInfo.Invariant, ExceptionInfo.merge] at *
  by_cases htx : tx = ∅ <;> by_cases hty : ty = ∅
  · subst htx hty
    have h1 := hx2 rfl
    have h2 := hy2 rfl
    cases ux <;> cases uy <;> simp_all
  · have h2 := hy1.2 (Finset.nonempty_iff_ne_empty.2 hty)
    subst htx
    simp [h2, hty, Finset.nonempty_iff_ne_empty]
  · have h1 := hx1.2 (Finset.nonempty_iff_ne_empty.2 htx)
    subst hty
    have h2 := hy2 rfl
    cases uy <;> simp_all [Finset.nonempty_iff_ne_empty]
  · have h2 := hy1.2 (Finset.nonempty_iff_ne_empty.2 hty)
    simp [h2, htx, hty, Finset.nonempty_iff_ne_empty, Finset.union_eq_empty]

/-- C27: every mutator of a summary preserves the data-model invariant. From a summary
`X` that satisfies it, `registerException`, `registerExceptions`, `merge` with an operand
that satisfies it and `clear` yield a summary that satisfies it; `filterByCatch` and
`filterIgnoredExceptions` yield one from any summary `Z`. -/
theorem mutators_preserve_invariant (X Y Z : ExceptionInfo) (T : CType) (C : Throwables)
    (IgnoredTypes : Finset String) (IgnoreBadAlloc : Bool)
    (hX : X.Invariant) (hY : Y.Invariant) :
    (X.registerException T).Invariant ∧ (X.registerExceptions C).Invariant ∧
      (X.merge Y).Invariant ∧ X.clear.Invariant ∧
      (Z.filterByCatch T).2.Invariant ∧
      (Z.filterIgnoredExceptions IgnoredTypes IgnoreBadAlloc).Invariant := by
  refine ⟨?_, ?_, invariant_merge X Y hX hY, ?_, invariant_filterByCatch Z T,
    invariant_filterIgnoredExceptions Z IgnoredTypes IgnoreBadAlloc⟩
  · simp [ExceptionInfo.Invariant, ExceptionInfo.registerException]
  · unfold ExceptionInfo.registerExceptions
    split_ifs with h0
    · exact hX
    · have hC : C.Nonempty := Finset.card_pos.1 (Nat.pos_of_ne_zero h0)
      simp [ExceptionInfo.Invariant, Finset.nonempty_iff_ne_empty, Finset.union_eq_empty,
        Finset.nonempty_iff_ne_empty.1 hC]
  · simp [ExceptionInfo.Invariant, ExceptionInfo.clear]

/-- C27, at the summary `Unknown` with `containsUnknown` merged with `Throwing {int}`, and
at the summary `Throwing` without thrown type, which the two filters repair. -/
theorem mutators_preserve_invariant_witness :
    (⟨State.Unknown, true, ∅⟩ : ExceptionInfo).Invariant ∧
      (⟨State.Throwing, false, {intType}⟩ : ExceptionInfo).Invariant ∧
      ¬ (⟨State.Throwing, false, ∅⟩ : ExceptionInfo).Invariant ∧
      ((ExceptionInfo.registerException ⟨State.Unknown, true, ∅⟩ intType).Invariant ∧
        (ExceptionInfo.registerExceptions ⟨State.Unknown, true, ∅⟩ {intType}).Invariant ∧
        (ExceptionInfo.merge ⟨State.Unknown, true, ∅⟩
          ⟨State.Throwing, false, {intType}⟩).Invariant ∧
        (ExceptionInfo.clear ⟨State.Unknown, true, ∅⟩).Invariant ∧
        (ExceptionInfo.filterByCatch ⟨State.Throwing, false, ∅⟩ intType).2.Invariant ∧
        (ExceptionInfo.filterIgnoredExceptions ⟨State.Throwing, false, ∅⟩ ∅ false).Invariant) :=
  ⟨by simp [ExceptionInfo.Invariant], by simp [ExceptionInfo.Invariant],
   by simp [ExceptionInfo.Invariant],
   mutators_preserve_invariant ⟨State.Unknown, true, ∅⟩ ⟨State.Throwing, false, {intType}⟩
     ⟨State.Throwing, false, ∅⟩ intType {intType} ∅ false
     (by simp [ExceptionInfo.Invariant]) (by simp [ExceptionInfo.Invariant])⟩

/-- C28: filtering never hides an unknown call. When the unfiltered summary of a function
or of a statement has `containsUnknown` set, the summary returned by `analyze` is not
`NotThrowing` and still has `containsUnknown` set, whatever the ignore list and
`IgnoreBadAlloc` are. -/
theorem analyze_keeps_unknown {n : Nat} (TU : TranslationUnit n) (A : Analyzer n)
    (hA : ReachableAnalyzer TU A) (Func : Fin n) (St : Stmt n) (E : ExceptionInfo)
    (hCU : E.ContainsUnknown = true) :
    (throwsExceptionFunc TU (n + 1) Func ∅ = some (E, ∅) →
        ∃ R A1, analyzeFunc TU A Func = some (R, A1) ∧
          R.Behaviour ≠ State.NotThrowing ∧ R.ContainsUnknown = true) ∧
      (throwsExceptionStmt (throwsExceptionFunc TU (n + 1)) St ∅ ∅ = some (E, ∅) →
        ∃ R, analyzeStmt TU A St = some R ∧
          R.Behaviour ≠ State.NotThrowing ∧ R.ContainsUnknown = true) := by
  constructor
  · intro h
    obtain ⟨E1, hE1, hc⟩ := throwsExceptionFunc_top_returns TU Func
    rw [h] at hE1
    simp only [Option.some.injEq, Prod.mk.injEq] at hE1
    rw [← hE1.1] at hc
    exact ⟨_, _, analyzeFunc_of_reachable TU A hA Func E h,
      analyzeDispatch_keeps_unknown A E hc hCU⟩
  · intro h
    obtain ⟨E1, hE1, hc⟩ := throwsExceptionStmt_returns (throwsExceptionFunc TU (n + 1)) ∅
      (fun G => throwsExceptionFunc_top_returns TU G) St ∅
    rw [h] at hE1
    simp only [Option.some.injEq, Prod.mk.injEq] at hE1
    rw [← hE1.1] at hc
    refine ⟨analyzeDispatch A E, ?_, analyzeDispatch_keeps_unknown A E hc hCU⟩
    simp only [analyzeStmt, analyzeImplStmt, h]

/-- C28, at `void f() { undefined(); throw Ignored(); }` with `Ignored` in the ignore
list: the unfiltered summary is `Throwing` with `containsUnknown`, and `analyze` returns
`Unknown`, not `NotThrowing`. -/
theorem analyze_keeps_unknown_witness :
    throwsExceptionFunc unknownAndIgnoredUnit 3 0 ∅
        = some (⟨State.Throwing, true, {ignoredType}⟩, ∅) ∧
      (analyzeFunc unknownAndIgnoredUnit (ignoringAnalyzer 2) 0).map Prod.fst
        = some ⟨State.Unknown, true, ∅⟩ ∧
      ∃ R A1, analyzeFunc unknownAndIgnoredUnit (ignoringAnalyzer 2) 0 = some (R, A1) ∧
        R.Behaviour ≠ State.NotThrowing ∧ R.ContainsUnknown = true :=
  ⟨by decide, by decide,
   (analyze_keeps_unknown unknownAndIgnoredUnit (ignoringAnalyzer 2)
      (ReachableAnalyzer.fresh {"Ignored"} true) 0 Stmt.null
      ⟨State.Throwing, true, {ignoredType}⟩ rfl).1 (by decide)⟩

/-- C29: the summary of a call expression with a direct callee is the summary of the
callee alone, whatever the child expressions of the call are. So `quiet((throw 1, 0))`
and `quiet(undefined())`, calls of a `noexcept` function whose argument throws or is an
unknown call, are summarised as `NotThrowing`, while the argument alone is `Throwing`
or `Unknown`. -/
theorem direct_call_ignores_arguments {n : Nat}
    (callee : Fin n → CallStack n → Option (ExceptionInfo × CallStack n))
    (Func : Fin n) (children : List (Stmt n)) (Caught : Throwables) (CS : CallStack n) :
    throwsExceptionStmt callee (Stmt.callExpr (some Func) children) Caught CS = callee Func CS ∧
      analyzeStmt quietAndUndefinedUnit ⟨∅, false, []⟩ quietCallWithThrowingArgument
        = some ⟨State.NotThrowing, false, ∅⟩ ∧
      analyzeStmt quietAndUndefinedUnit ⟨∅, false, []⟩ quietCallWithUnknownArgument
        = some ⟨State.NotThrowing, false, ∅⟩ ∧
      analyzeStmt quietAndUndefinedUnit ⟨∅, false, []⟩ throwOne
        = some ⟨State.Throwing, false, {intType}⟩ ∧
      analyzeStmt quietAndUndefinedUnit ⟨∅, false, []⟩ (Stmt.callExpr (some 1) [])
        = some ⟨State.Unknown, true, ∅⟩ := by
  refine ⟨?_, by decide, by decide, by decide, by decide⟩
  simp only [throwsExceptionStmt]
  cases callee Func CS with
  | none => rfl
  | some p => simp only [merge_createNotThrowing_left]

/-- C30: the recursion guard is restored. Whenever the analysis of a function from the
call stack `CS` returns, the call stack is `CS` again; and with fuel for the functions
that are not on the stack it returns a summary `R`, so that two sibling calls of the
function in one body are analysed from the same stack and both contribute `R`. -/
theorem call_stack_is_restored {n : Nat} (TU : TranslationUnit n) (fuel : Nat) (Func : Fin n)
    (CS : CallStack n) (hfuel : (Finset.univ \ CS).card < fuel) :
    (∀ fuel1 R CS1, throwsExceptionFunc TU fuel1 Func CS = some (R, CS1) → CS1 = CS) ∧
      ∃ R, throwsExceptionFunc TU fuel Func CS = some (R, CS) ∧
        ∀ (args1 args2 : List (Stmt n)) (Caught : Throwables) (Results : ExceptionInfo),
          childrenLoop (throwsExceptionFunc TU fuel)
              [Stmt.callExpr (some Func) args1, Stmt.callExpr (some Func) args2] Caught Results
              CS
            = some ((Results.merge R).merge R, CS) := by
  refine ⟨fun fuel1 R CS1 h => throwsExceptionFunc_stack TU fuel1 Func CS R CS1 h, ?_⟩
  obtain ⟨R, h, -⟩ := throwsExceptionFunc_returns TU fuel Func CS hfuel
  refine ⟨R, h, fun args1 args2 Caught Results => ?_⟩
  simp only [childrenLoop, throwsExceptionStmt, h, merge_createNotThrowing_left]

/-- C30, at `void g() { throw 1; } void f() { g(); g(); }`: the analysis of `g` from the
stack that holds `f` returns `Throwing {int}` and leaves that stack, and both calls
contribute that summary. -/
theorem call_stack_is_restored_witness :
    (Finset.univ \ ({0} : CallStack 2)).card < 2 ∧
      throwsExceptionFunc siblingCallsUnit 2 1 {0}
        = some (⟨State.Throwing, false, {intType}⟩, {0}) ∧
      throwsExceptionFunc siblingCallsUnit 3 0 ∅
        = some (⟨State.Throwing, false, {intType}⟩, ∅) ∧
      ((∀ fuel1 R CS1, throwsExceptionFunc siblingCallsUnit fuel1 1 {0} = some (R, CS1) →
          CS1 = {0}) ∧
        ∃ R, throwsExceptionFunc siblingCallsUnit 2 1 {0} = some (R, {0}) ∧
          ∀ (args1 args2 : List (Stmt 2)) (Caught : Throwables) (Results : ExceptionInfo),
            childrenLoop (throwsExceptionFunc siblingCallsUnit 2)
                [Stmt.callExpr (some 1) args1, Stmt.callExpr (some 1) args2] Caught Results
                {0}
              = some ((Results.merge R).merge R, {0})) :=
  ⟨by decide, by decide, by decide, call_stack_is_restored siblingCallsUnit 2 1 {0} (by decide)⟩
end ExceptionAnalyzer

namespace ConstCorrectness

/-! ## Theorems: the const-correctness driver -/

theorem not_reference_and_pointer (T : VarType) :
    ¬ (T.isReferenceType = true ∧ T.isPointerType = true) := by
  induction T with
  | builtin name => simp [VarType.isReferenceType]
  | record name l => simp [VarType.isReferenceType]
  | pointer c p _ => simp [VarType.isReferenceType]
  | reference c p _ => simp [VarType.isPointerType]
  | templateTypeParm name => simp [VarType.isReferenceType]
  | substTemplateTypeParm c r ih => simpa [VarType.isReferenceType, VarType.isPointerType] using ih
  | typedefSugar name c u ih => simpa [VarType.isReferenceType, VarType.isPointerType] using ih

theorem registerScope_lookup (makeAnalyzer : Nat → ExprMutationAnalyzer) (Cache : ScopesCache)
    (LocalScope : Nat) (hvalid : ScopesCacheValid makeAnalyzer Cache) :
    (registerScope makeAnalyzer Cache LocalScope).lookup LocalScope
      = some (makeAnalyzer LocalScope) := by
  unfold registerScope
  cases h : Cache.lookup LocalScope with
  | none => simp [List.lookup_cons]
  | some Analyzer => simp only [h]; rw [hvalid LocalScope Analyzer h]

theorem registerScope_valid (makeAnalyzer : Nat → ExprMutationAnalyzer) (Cache : ScopesCache)
    (LocalScope : Nat) (hvalid : ScopesCacheValid makeAnalyzer Cache) :
    ScopesCacheValid makeAnalyzer (registerScope makeAnalyzer Cache LocalScope) := by
  unfold registerScope
  cases h : Cache.lookup LocalScope with
  | some Analyzer => exact hvalid
  | none =>
    intro S Analyzer hS
    simp only [List.lookup_cons] at hS
    cases hb : (S == LocalScope) with
    | true =>
      simp only [hb, Option.some.injEq] at hS
      have hSL : S = LocalScope := by simpa using hb
      rw [hSL, ← hS]
    | false =>
      simp only [hb] at hS
      exact hvalid S Analyzer hS

theorem check_eq (O : Options) (makeAnalyzer : Nat → ExprMutationAnalyzer)
    (Cache : ScopesCache) (LocalScope : Nat) (Variable : VarDecl) :
    check O makeAnalyzer Cache LocalScope Variable
      = (if categoryEnabled O (categoryOf Variable.getType) = true then
          (match (registerScope makeAnalyzer Cache LocalScope).lookup LocalScope with
           | some Analyzer =>
               if Analyzer Variable = true then none
               else some ⟨Variable.getBeginLoc, "variable %0 of type %1 can be declared 'const'",
                      Variable, Variable.getType⟩
           | none => none)
         else none,
         registerScope makeAnalyzer Cache LocalScope) := by
  have hx := not_reference_and_pointer Variable.getType.getTypePtr
  obtain ⟨av, ar, wp⟩ := O
  unfold check categoryOf categoryEnabled
  cases hr : Variable.getType.getTypePtr.isReferenceType <;>
    cases hp : Variable.getType.getTypePtr.isPointerType <;>
    cases av <;> cases ar <;> cases wp <;>
    simp [hr, hp] at hx ⊢ <;>
    (cases (registerScope makeAnalyzer Cache LocalScope).lookup LocalScope with
     | none => rfl
     | some Analyzer => cases h : Analyzer Variable <;> simp [h])

/-- C19: on a matched candidate variable the driver reports "can be declared const"
exactly when the category of the variable is enabled (a reference requires
`AnalyzeReferences`, a pointer `WarnPointersAsValues`, any other type `AnalyzeValues`)
and `isMutated` of the analyzer of the scope is false. Every variable is in exactly one
category, and with the default options a pointer-typed variable is never reported. -/
theorem check_reports_iff (O : Options) (makeAnalyzer : Nat → ExprMutationAnalyzer)
    (Cache : ScopesCache) (LocalScope : Nat) (Variable : VarDecl)
    (hvalid : ScopesCacheValid makeAnalyzer Cache) :
    (check O makeAnalyzer Cache LocalScope Variable).1
        = (if categoryEnabled O (categoryOf Variable.getType) = true ∧
              makeAnalyzer LocalScope Variable = false then
            some ⟨Variable.getBeginLoc, "variable %0 of type %1 can be declared 'const'",
              Variable, Variable.getType⟩
          else none) ∧
      ScopesCacheValid makeAnalyzer (check O makeAnalyzer Cache LocalScope Variable).2 ∧
      ((categoryOf Variable.getType = Category.Reference
            ↔ Variable.getType.getTypePtr.isReferenceType = true) ∧
        (categoryOf Variable.getType = Category.Pointer
            ↔ Variable.getType.getTypePtr.isPointerType = true) ∧
        (categoryOf Variable.getType = Category.Value
            ↔ Variable.getType.getTypePtr.isReferenceType = false ∧
              Variable.getType.getTypePtr.isPointerType = false)) ∧
      (Variable.getType.getTypePtr.isPointerType = true →
        (check defaultOptions makeAnalyzer Cache LocalScope Variable).1 = none) := by
  have hx := not_reference_and_pointer Variable.getType.getTypePtr
  have hl := registerScope_lookup makeAnalyzer Cache LocalScope hvalid
  refine ⟨?_, ?_, ?_, ?_⟩
  · rw [check_eq]
    dsimp only
    rw [hl]
    by_cases he : categoryEnabled O (categoryOf Variable.getType) = true
    · cases hm : makeAnalyzer LocalScope Variable <;> simp [he, hm]
    · simp [he]
  · rw [check_eq]
    exact registerScope_valid makeAnalyzer Cache LocalScope hvalid
  · unfold categoryOf
    cases hr : Variable.getType.getTypePtr.isReferenceType <;>
      cases hp : Variable.getType.getTypePtr.isPointerType <;>
      simp [hr, hp] at hx ⊢
  · intro hp
    have hr : Variable.getType.getTypePtr.isReferenceType = false := by
      cases hr : Variable.getType.getTypePtr.isReferenceType
      · rfl
      · exact absurd ⟨hr, hp⟩ hx
    rw [check_eq]
    simp [categoryOf, categoryEnabled, defaultOptions, hr, hp]

/-- C19, at `int p_local0 = 2;` of the test file with the default options and a scope in
which nothing is mutated: the variable is reported; a pointer variable is not. -/
theorem check_reports_iff_witness :
    ScopesCacheValid neverMutated [] ∧
      (check defaultOptions neverMutated [] 0 p_local0).1
        = some ⟨24, "variable %0 of type %1 can be declared 'const'", p_local0, intQualType⟩ ∧
      (check defaultOptions neverMutated [] 0 pointerLocal).1 = none :=
  ⟨fun _ _ h => by simp at h,
   ((check_reports_iff defaultOptions neverMutated [] 0 p_local0
      (fun _ _ h => by simp at h)).1).trans (by decide),
   by decide⟩

/-- C21: in the contract of the mutation analysis a variable that is passed to a function
as a non-const handle is mutated, so the driver does not report it; for the variable `s`
of the test on `__unaligned`, whose address is passed as a pointer to non-const, the
driver emits the diagnostic the test expects exactly when `isMutated` of the analyzer
in use is false. -/
theorem mutable_handle_argument (makeAnalyzer : Nat → ExprMutationAnalyzer) :
    (∀ S V, (V, VarUse.passedAsHandle false) ∈ S.uses → isMutated S V = true) ∧
      isMutated unalignedScope unaligned_s = true ∧
      (check defaultOptions (fun _ => isMutated unalignedScope) [] 0 unaligned_s).1 = none ∧
      ((check defaultOptions makeAnalyzer [] 0 unaligned_s).1
          = some ⟨15, "variable %0 of type %1 can be declared 'const'", unaligned_s,
              unaligned_s.getType⟩
        ↔ makeAnalyzer 0 unaligned_s = false) := by
  refine ⟨?_, by decide, by decide, ?_⟩
  · intro S V h
    unfold isMutated
    rw [List.any_eq_true]
    exact ⟨(V, VarUse.passedAsHandle false), h, by simp [VarUse.mutates]⟩
  · have hcat : categoryEnabled defaultOptions (categoryOf unaligned_s.getType) = true := by
      decide
    have hloc : unaligned_s.getBeginLoc = 15 := rfl
    rw [check_eq]
    dsimp only
    rw [registerScope_lookup makeAnalyzer [] 0 (fun _ _ h => by simp at h), if_pos hcat, hloc]
    dsimp only
    cases hm : makeAnalyzer 0 unaligned_s
    · simp
    · simp
end ConstCorrectness

namespace UseRanges

/-! ## Theorems: the use-ranges check -/

theorem hasAnyName_std_begin (nm q : String) :
    hasAnyName ["::std::begin", "::std::cbegin"] nm q = true
      ↔ q = "std::begin" ∨ q = "std::cbegin" := by
  have h1 : ∀ s : String, s.data = "std::begin".data ↔ s = "std::begin" :=
    fun s => String.ext_iff.symm
  have h2 : ∀ s : String, s.data = "std::cbegin".data ↔ s = "std::cbegin" :=
    fun s => String.ext_iff.symm
  simp only [hasAnyName, List.any_cons, List.any_nil, Bool.or_false, Bool.or_eq_true,
    decide_eq_true_eq]
  constructor
  · rintro (h | h)
    · exact Or.inl ((h1 q).1 h.symm)
    · exact Or.inr ((h2 q).1 h.symm)
  · rintro (h | h)
    · exact Or.inl ((h1 q).2 h).symm
    · exact Or.inr ((h2 q).2 h).symm

theorem hasAnyName_std_end (nm q : String) :
    hasAnyName ["::std::end", "::std::cend"] nm q = true
      ↔ q = "std::end" ∨ q = "std::cend" := by
  have h1 : ∀ s : String, s.data = "std::end".data ↔ s = "std::end" :=
    fun s => String.ext_iff.symm
  have h2 : ∀ s : String, s.data = "std::cend".data ↔ s = "std::cend" :=
    fun s => String.ext_iff.symm
  simp only [hasAnyName, List.any_cons, List.any_nil, Bool.or_false, Bool.or_eq_true,
    decide_eq_true_eq]
  constructor
  · rintro (h | h)
    · exact Or.inl ((h1 q).1 h.symm)
    · exact Or.inr ((h2 q).1 h.symm)
  · rintro (h | h)
    · exact Or.inl ((h1 q).2 h).symm
    · exact Or.inr ((h2 q).2 h).symm

theorem hasAnyName_begin (nm q : String) :
    hasAnyName ["begin", "cbegin"] nm q = true ↔ nm = "begin" ∨ nm = "cbegin" := by
  simp only [hasAnyName, List.any_cons, List.any_nil, Bool.or_false, Bool.or_eq_true]
  constructor
  · rintro (h | h)
    · exact Or.inl (of_decide_eq_true h).symm
    · exact Or.inr (of_decide_eq_true h).symm
  · rintro (h | h)
    · exact Or.inl (decide_eq_true h.symm)
    · exact Or.inr (decide_eq_true h.symm)

theorem hasAnyName_end (nm q : String) :
    hasAnyName ["end", "cend"] nm q = true ↔ nm = "end" ∨ nm = "cend" := by
  simp only [hasAnyName, List.any_cons, List.any_nil, Bool.or_false, Bool.or_eq_true]
  constructor
  · rintro (h | h)
    · exact Or.inl (of_decide_eq_true h).symm
    · exact Or.inr (of_decide_eq_true h).symm
  · rintro (h | h)
    · exact Or.inl (decide_eq_true h.symm)
    · exact Or.inr (decide_eq_true h.symm)

theorem boundContainer_eq_some (E : Expr) (D : NamedDecl) :
    boundContainer E = some D ↔ E.IgnoreParenImpCasts = Expr.declRefExpr D := by
  unfold boundContainer
  cases h : E.IgnoreParenImpCasts <;> simp

theorem isValidBeginOn_eq_some (E : Expr) (D : NamedDecl) :
    isValidBeginOn E = some D ↔ IsBeginOf D E.IgnoreParenImpCasts := by
  unfold isValidBeginOn
  generalize E.IgnoreParenImpCasts = E1
  cases E1 with
  | declRefExpr d => simp only [matchContainer]; constructor <;> intro h <;> cases h
  | parenExpr s => simp only [matchContainer]; constructor <;> intro h <;> cases h
  | implicitCastExpr s => simp only [matchContainer]; constructor <;> intro h <;> cases h
  | otherExpr c => simp only [matchContainer]; constructor <;> intro h <;> cases h
  | callExpr callee args =>
    cases callee with
    | none => simp only [matchContainer]; constructor <;> intro h <;> cases h
    | some F =>
      cases args with
      | nil => simp only [matchContainer]; constructor <;> intro h <;> cases h
      | cons Arg0 rest =>
        simp only [matchContainer]
        constructor
        · intro h
          split_ifs at h with hn
          exact IsBeginOf.stdCall F Arg0 rest ((hasAnyName_std_begin _ _).1 hn)
            ((boundContainer_eq_some Arg0 D).1 h)
        · intro h
          cases h with
          | stdCall _ _ _ hn hd =>
            rw [if_pos ((hasAnyName_std_begin _ _).2 hn)]
            exact (boundContainer_eq_some Arg0 D).2 hd
  | cxxMemberCallExpr M Object args =>
    simp only [matchContainer]
    constructor
    · intro h
      split_ifs at h with hn
      exact IsBeginOf.memberCall M Object args ((hasAnyName_begin _ _).1 hn)
        ((boundContainer_eq_some Object D).1 h)
    · intro h
      cases h with
      | memberCall _ _ _ hn hd =>
        rw [if_pos ((hasAnyName_begin _ _).2 hn)]
        exact (boundContainer_eq_some Object D).2 hd

theorem isValidEndOn_eq_some (E : Expr) (D : NamedDecl) :
    isValidEndOn E = some D ↔ IsEndOf D E.IgnoreParenImpCasts := by
  unfold isValidEndOn
  generalize E.IgnoreParenImpCasts = E1
  cases E1 with
  | declRefExpr d => simp only [matchContainer]; constructor <;> intro h <;> cases h
  | parenExpr s => simp only [matchContainer]; constructor <;> intro h <;> cases h
  | implicitCastExpr s => simp only [matchContainer]; constructor <;> intro h <;> cases h
  | otherExpr c => simp only [matchContainer]; constructor <;> intro h <;> cases h
  | callExpr callee args =>
    cases callee with
    | none => simp only [matchContainer]; constructor <;> intro h <;> cases h
    | some F =>
      cases args with
      | nil => simp only [matchContainer]; constructor <;> intro h <;> cases h
      | cons Arg0 rest =>
        simp only [matchContainer]
        constructor
        · intro h
          split_ifs at h with hn
          exact IsEndOf.stdCall F Arg0 rest ((hasAnyName_std_end _ _).1 hn)
            ((boundContainer_eq_some Arg0 D).1 h)
        · intro h
          cases h with
          | stdCall _ _ _ hn hd =>
            rw [if_pos ((hasAnyName_std_end _ _).2 hn)]
            exact (boundContainer_eq_some Arg0 D).2 hd
  | cxxMemberCallExpr M Object args =>
    simp only [matchContainer]
    constructor
    · intro h
      split_ifs at h with hn
      exact IsEndOf.memberCall M Object args ((hasAnyName_end _ _).1 hn)
        ((boundContainer_eq_some Object D).1 h)
    · intro h
      cases h with
      | memberCall _ _ _ hn hd =>
        rw [if_pos ((hasAnyName_end _ _).2 hn)]
        exact (boundContainer_eq_some Object D).2 hd

theorem isValidRangeOn_eq_some (Arg1 Arg2 : Expr) (D : NamedDecl) :
    isValidRangeOn Arg1 Arg2 = some D
      ↔ IsBeginOf D Arg1.IgnoreParenImpCasts ∧ IsEndOf D Arg2.IgnoreParenImpCasts := by
  rw [← isValidBeginOn_eq_some, ← isValidEndOn_eq_some]
  unfold isValidRangeOn
  cases h1 : isValidBeginOn Arg1 with
  | none => simp
  | some D1 =>
    cases h2 : isValidEndOn Arg2 with
    | none => simp
    | some D2 =>
      by_cases hD : D1 = D2
      · subst hD; simp
      · simp only [hD, if_false, Option.some.injEq]
        constructor
        · intro h; cases h
        · rintro ⟨rfl, rfl⟩; exact absurd rfl hD

theorem check_singleRange_eq_some (findEndOfName : Nat → Nat) (AlgoCall : CallExpr)
    (Diag : Diagnostic) :
    check findEndOfName AlgoCall AlgorithmBinding.singleRange = some (some Diag)
      ↔ ∃ Arg0 Arg1 rest Container, AlgoCall.args = Arg0 :: Arg1 :: rest ∧
          (AlgoCall.getNumArgs = 2 ∨ AlgoCall.getNumArgs = 3) ∧
          isValidRangeOn Arg0.expr Arg1.expr = some Container ∧
          Diag = ⟨AlgoCall.getBeginLoc, "algorithm could be rewritten with std::ranges",
            [getTransformation Arg0 Arg1 Container,
             rewriteAlgorithmName AlgoCall (findEndOfName AlgoCall.getBeginLoc) NewNamespace]⟩ := by
  constructor
  · intro h
    unfold check at h
    cases hargs : AlgoCall.args with
    | nil => simp [hargs] at h
    | cons Arg0 tail =>
      cases tail with
      | nil => simp [hargs] at h
      | cons Arg1 rest =>
        simp only [hargs] at h
        cases hr : isValidRangeOn Arg0.expr Arg1.expr with
        | none => simp [hr] at h
        | some Container =>
          simp only [hr] at h
          split_ifs at h with hn
          · simp only [Option.some.injEq] at h
            refine ⟨Arg0, Arg1, rest, Container, rfl, ?_, hr, h.symm⟩
            simp only [Bool.or_eq_true, beq_iff_eq] at hn
            tauto
          · simp at h
  · rintro ⟨Arg0, Arg1, rest, Container, hargs, hnum, hr, rfl⟩
    have hn : (AlgoCall.getNumArgs == 3 || AlgoCall.getNumArgs == 2) = true := by
      simp only [Bool.or_eq_true, beq_iff_eq]
      tauto
    unfold check
    simp only [hargs, hr, hn, if_true]

/-- C22: on a call matched as a single-range algorithm the check emits its diagnostic,
with the two fix-its, exactly when the call has 2 or 3 arguments, its first argument,
ignoring parentheses and implicit casts, is `std::begin`/`std::cbegin` of, or a
`begin`/`cbegin` member call on, a declaration, and its second argument is
`std::end`/`std::cend` of, or an `end`/`cend` member call on, the same declaration. The
calls of the test file with an execution policy, with an offset iterator and with two
containers are not diagnosed. -/
theorem single_range_diagnosed_iff (findEndOfName : Nat → Nat) (AlgoCall : CallExpr) :
    ((∃ Diag, check findEndOfName AlgoCall AlgorithmBinding.singleRange = some (some Diag))
        ↔ ∃ Container, IsRangeableOn AlgoCall Container) ∧
      (∀ Diag, check findEndOfName AlgoCall AlgorithmBinding.singleRange = some (some Diag) →
        Diag.loc = AlgoCall.getBeginLoc ∧
          Diag.message = "algorithm could be rewritten with std::ranges" ∧
          Diag.fixits.length = 2) ∧
      (registerMatchers allOfFoo = some AlgorithmBinding.singleRange ∧
        (∃ Diag, check endOfAllOf allOfFoo AlgorithmBinding.singleRange = some (some Diag)) ∧
        (∃ Diag, check endOfAllOf allOfParenFoo AlgorithmBinding.singleRange = some (some Diag)) ∧
        check endOfAllOf allOfPolicy AlgorithmBinding.singleRange = some none ∧
        check endOfAllOf allOfOffset AlgorithmBinding.singleRange = some none ∧
        check endOfAllOf allOfFooBar AlgorithmBinding.singleRange = some none) := by
  refine ⟨?_, ?_, by decide, ⟨_, rfl⟩, ⟨_, rfl⟩, by decide, by decide, by decide⟩
  · constructor
    · rintro ⟨Diag, h⟩
      obtain ⟨Arg0, Arg1, rest, Container, hargs, hnum, hr, -⟩ :=
        (check_singleRange_eq_some findEndOfName AlgoCall Diag).1 h
      exact ⟨Container, hnum, Arg0, Arg1, rest, hargs,
        (isValidRangeOn_eq_some Arg0.expr Arg1.expr Container).1 hr⟩
    · rintro ⟨Container, hnum, Arg0, Arg1, rest, hargs, hb⟩
      exact ⟨_, (check_singleRange_eq_some findEndOfName AlgoCall _).2
        ⟨Arg0, Arg1, rest, Container, hargs, hnum,
          (isValidRangeOn_eq_some Arg0.expr Arg1.expr Container).2 hb, rfl⟩⟩
  · intro Diag h
    obtain ⟨Arg0, Arg1, rest, Container, -, -, -, rfl⟩ :=
      (check_singleRange_eq_some findEndOfName AlgoCall Diag).1 h
    exact ⟨rfl, rfl, rfl⟩

/-- C22, at `std::all_of(foo.begin(), foo.end(), ...)` of the test file: the call is
rangeable on `foo` and is diagnosed. -/
theorem single_range_diagnosed_iff_witness :
    IsRangeableOn allOfFoo foo ∧
      ∃ Diag, check endOfAllOf allOfFoo AlgorithmBinding.singleRange = some (some Diag) :=
  ⟨⟨Or.inr rfl, _, _, _, rfl,
      IsBeginOf.memberCall _ _ _ (Or.inl rfl) rfl, IsEndOf.memberCall _ _ _ (Or.inl rfl) rfl⟩,
   ((single_range_diagnosed_iff endOfAllOf allOfFoo).1).2
     ⟨foo, Or.inr rfl, _, _, _, rfl,
      IsBeginOf.memberCall _ _ _ (Or.inl rfl) rfl, IsEndOf.memberCall _ _ _ (Or.inl rfl) rfl⟩⟩

/-- C23: when a diagnosed call has a callee with the qualified name `std::` followed by
`name`, its fix-its replace the source range of the first two arguments by the name of
the container, and the range of the callee name by `std::ranges::` followed by `name`. -/
theorem fixit_rewrites_name_and_range (findEndOfName : Nat → Nat) (AlgoCall : CallExpr)
    (Diag : Diagnostic) (name : String)
    (hname : AlgoCall.getDirectCallee.getQualifiedNameAsString = "std::" ++ name)
    (hdiag : check findEndOfName AlgoCall AlgorithmBinding.singleRange = some (some Diag)) :
    ∃ Arg0 Arg1 rest Container, AlgoCall.args = Arg0 :: Arg1 :: rest ∧
      IsRangeableOn AlgoCall Container ∧
      Diag.fixits =
        [⟨Arg0.getBeginLoc, Arg1.getEndLoc, Container.getName⟩,
         ⟨AlgoCall.getBeginLoc, findEndOfName AlgoCall.getBeginLoc, "std::ranges::" ++ name⟩] := by
  obtain ⟨Arg0, Arg1, rest, Container, hargs, hnum, hr, rfl⟩ :=
    (check_singleRange_eq_some findEndOfName AlgoCall Diag).1 hdiag
  refine ⟨Arg0, Arg1, rest, Container, hargs,
    ⟨hnum, Arg0, Arg1, rest, hargs, (isValidRangeOn_eq_some _ _ Container).1 hr⟩, ?_⟩
  have hdrop : drop_front ("std::" ++ name) 5 = name := by
    simp [drop_front, String.data_append]
  simp only [getTransformation, rewriteAlgorithmName, hname, hdrop, NewNamespace]
  rfl

/-- C23, at `std::all_of(foo.begin(), foo.end(), ...)` of the test file: the arguments
`foo.begin(), foo.end()` are replaced by `foo` and the name by `std::ranges::all_of`. -/
theorem fixit_rewrites_name_and_range_witness :
    check endOfAllOf allOfFoo AlgorithmBinding.singleRange
        = some (some ⟨3, "algorithm could be rewritten with std::ranges",
            [⟨15, 36, "foo"⟩, ⟨3, 14, "std::ranges::all_of"⟩]⟩) ∧
      ∃ Arg0 Arg1 rest Container, allOfFoo.args = Arg0 :: Arg1 :: rest ∧
        IsRangeableOn allOfFoo Container ∧
        (⟨3, "algorithm could be rewritten with std::ranges",
            [⟨15, 36, "foo"⟩, ⟨3, 14, "std::ranges::all_of"⟩]⟩ : Diagnostic).fixits =
          [⟨Arg0.getBeginLoc, Arg1.getEndLoc, Container.getName⟩,
           ⟨allOfFoo.getBeginLoc, endOfAllOf allOfFoo.getBeginLoc, "std::ranges::" ++ "all_of"⟩] :=
  ⟨by decide,
   fixit_rewrites_name_and_range endOfAllOf allOfFoo _ "all_of" (by decide) (by decide)⟩

end UseRanges
